import Mathlib

/-!
# Kinect-Face: the frame pipeline, embedded

A shallow embedding of the parts of the repository that move frames around:

* `FittingVisualizer` (`src/src/vis/fitting_visualizer.cpp`): the single-slot
  mailbox `renderTarget` guarded by `renderMutex`, with `process` and
  `safeGetInput`;
* `DlibFaceDetectionPipe` and `FeatureDetectionClientPipe`
  (`src/src/feature/feature_detect_pipe.cpp`);
* the three window front ends of `src/include/feature/feature_detect_frontend.h`.

Shared pointers are nullable addresses (`Option`), objects that the code
mutates through a pointer live in an explicit `Heap`, and calls into the
outside world (socket, detector network) take their outcome as an argument.
-/

namespace Telef

/-! ## FittingVisualizer -/

/-- The `FittingVisualizer::InputPtrT` shared pointer: `none` is `nullptr`. -/
abbrev InputPtrT (Fr : Type) := Option Fr

/-- The trackball modes `None`, `Rotating`, `Panning`. -/
inductive TrackballMode where
  | None
  | Rotating
  | Panning
  deriving DecidableEq, Repr

/-- One step a member function performs on the mailbox: acquiring or releasing
`renderMutex`, reading `renderTarget`, writing `renderTarget`. -/
inductive Access where
  | lock
  | unlock
  | read
  | write
  deriving DecidableEq, Repr

/-- The data members of `FittingVisualizer` that the member functions outside
`render` touch. `Fr` is the pointee of `InputPtrT`, `R` stands for `float`,
`D` for `double`. `renderMutex` is `true` while the mutex is held. -/
structure FittingVisualizer (Fr R D : Type) where
  renderRunning : Bool
  renderMutex : Bool
  renderTarget : InputPtrT Fr
  clickInitialized : Bool
  clickXPos : D
  clickYPos : D
  clickPhi : R
  clickTheta : R
  clickTranslation : R × R × R
  phi : R
  theta : R
  trackballMode : TrackballMode
  translation : R × R × R
  zoom : R
  meshMode : Int
  geoMaxPoints : Int
  geoSearchRadius : R
  deriving DecidableEq, Repr

namespace FittingVisualizer

variable {Fr R D : Type}

/-- Models `renderMutex.lock()` on the calling thread: a mutex that is already held
is never obtained (`none`: the call does not return). -/
def lock (s : FittingVisualizer Fr R D) : Option (FittingVisualizer Fr R D) :=
  if s.renderMutex then none else some { s with renderMutex := true }

/-- Models `renderMutex.unlock()`. -/
def unlock (s : FittingVisualizer Fr R D) : FittingVisualizer Fr R D :=
  { s with renderMutex := false }

/-- Models `FittingVisualizer::process`:
```
renderMutex.lock();
renderTarget = input;
renderMutex.unlock();
```
Returns the state after the call and the accesses made, in order. -/
def process (s : FittingVisualizer Fr R D) (input : InputPtrT Fr) :
    Option (FittingVisualizer Fr R D × List Access) :=
  match s.lock with
  | none => none
  | some s1 =>
    let s2 := { s1 with renderTarget := input }
    some (s2.unlock, [Access.lock, Access.write, Access.unlock])

/-- Models `FittingVisualizer::safeGetInput`:
```
renderMutex.lock();
if (!renderTarget) { renderMutex.unlock(); return nullptr; }
auto targetCurrFrame = renderTarget;
renderTarget = nullptr;
renderMutex.unlock();
return targetCurrFrame;
```
Returns the state after the call, the returned pointer and the accesses. -/
def safeGetInput (s : FittingVisualizer Fr R D) :
    Option (FittingVisualizer Fr R D × InputPtrT Fr × List Access) :=
  match s.lock with
  | none => none
  | some s1 =>
    match s1.renderTarget with
    | none => some (s1.unlock, none, [Access.lock, Access.read, Access.unlock])
    | some _ =>
      let targetCurrFrame := s1.renderTarget
      let s2 := { s1 with renderTarget := none }
      some (s2.unlock, targetCurrFrame,
        [Access.lock, Access.read, Access.read, Access.write, Access.unlock])

/-- A call made on a `FittingVisualizer` from outside the render loop body. -/
inductive Call (Fr : Type) where
  | process (input : InputPtrT Fr)
  | safeGetInput
  deriving DecidableEq, Repr

/-- Runs a sequence of calls; `k` is the position of the first call of `cs` in
the whole sequence. The result lists, for every `safeGetInput` that returned a
non-null pointer, the position of that call and the frame it returned. -/
def runFrom : Nat → FittingVisualizer Fr R D → List (Call Fr) →
    Option (FittingVisualizer Fr R D × List (Nat × Fr))
  | _, s, [] => some (s, [])
  | k, s, Call.process input :: cs =>
    match s.process input with
    | none => none
    | some (s1, _) => runFrom (k + 1) s1 cs
  | k, s, Call.safeGetInput :: cs =>
    match s.safeGetInput with
    | none => none
    | some (s1, r, _) =>
      match runFrom (k + 1) s1 cs with
      | none => none
      | some (s2, out) =>
        match r with
        | none => some (s2, out)
        | some f => some (s2, (k, f) :: out)

/-- Runs a sequence of calls from position 0. -/
def run (s : FittingVisualizer Fr R D) (cs : List (Call Fr)) :
    Option (FittingVisualizer Fr R D × List (Nat × Fr)) :=
  runFrom 0 s cs

/-- Tags the frame of every `process` call with the position of the call, so
that an install is identified by where it happened and not by the value. -/
def tagFrom : Nat → List (Call Fr) → List (Call (Nat × Fr))
  | _, [] => []
  | k, Call.process input :: cs =>
    Call.process (input.map (fun f => (k, f))) :: tagFrom (k + 1) cs
  | k, Call.safeGetInput :: cs => Call.safeGetInput :: tagFrom (k + 1) cs

/-- The mailbox seen as a bare slot: what a run of calls does to the contents
of `renderTarget` and which frames the `safeGetInput` calls hand out. Runs of
`process` and `safeGetInput` are reduced to this function by `runFrom_eq`. -/
def slotRun : Nat → InputPtrT Fr → List (Call Fr) → InputPtrT Fr × List (Nat × Fr)
  | _, slot, [] => (slot, [])
  | k, _, Call.process input :: cs => slotRun (k + 1) input cs
  | k, slot, Call.safeGetInput :: cs =>
    match slot with
    | none => slotRun (k + 1) none cs
    | some f => ((slotRun (k + 1) none cs).1, (k, f) :: (slotRun (k + 1) none cs).2)

/-- A small concrete visualizer state used in the examples: the constructor's
values with integers standing for the floating-point fields. -/
def sample (Fr : Type) (slot : InputPtrT Fr) : FittingVisualizer Fr Int Int :=
  { renderRunning := true, renderMutex := false, renderTarget := slot,
    clickInitialized := false, clickXPos := 0, clickYPos := 0, clickPhi := 0,
    clickTheta := 0, clickTranslation := (0, 0, 0), phi := 3, theta := 0,
    trackballMode := TrackballMode.None, translation := (0, 0, 8), zoom := 1,
    meshMode := 0, geoMaxPoints := 5000, geoSearchRadius := 1 }

/-- Models `FittingVisualizer::stop`: `renderRunning = false;`. -/
def stop (s : FittingVisualizer Fr R D) : FittingVisualizer Fr R D :=
  { s with renderRunning := false }

/-- The shutdown request of `~FittingVisualizer`: `renderRunning = false;`,
after which the destructor joins the render thread. -/
def shutdownRequest (s : FittingVisualizer Fr R D) : FittingVisualizer Fr R D :=
  { s with renderRunning := false }

/-- The condition of the loop in `render`:
`!glfwWindowShouldClose(window) && renderRunning`. -/
def renderContinues (windowShouldClose : Bool) (s : FittingVisualizer Fr R D) : Bool :=
  !windowShouldClose && s.renderRunning

/-- The floating-point expressions of the camera callbacks, kept abstract:
`rotDelta x o` is `static_cast<float>((x - o) * 0.001)`, `panDelta x o` is
`static_cast<float>((x - o) * 0.01)`, `add` is `float` addition, `zoomStep z y`
is `static_cast<float>(z + 0.01 * y)`, and `pi`, `zero`, `one` are
`static_cast<float>(M_PI)`, `0.0f`, `1.0f`. -/
structure CameraArith (R D : Type) where
  pi : R
  zero : R
  one : R
  add : R → R → R
  rotDelta : D → D → R
  panDelta : D → D → R
  zoomStep : R → D → R

/-- The GLFW constant `GLFW_PRESS`. -/
def GLFW_PRESS : Int := 1

/-- The GLFW constant `GLFW_RELEASE`. -/
def GLFW_RELEASE : Int := 0

/-- The GLFW constant `GLFW_MOUSE_BUTTON_LEFT`. -/
def GLFW_MOUSE_BUTTON_LEFT : Int := 0

/-- The GLFW constant `GLFW_MOUSE_BUTTON_MIDDLE`. -/
def GLFW_MOUSE_BUTTON_MIDDLE : Int := 2

/-- The GLFW constant `GLFW_KEY_2`. -/
def GLFW_KEY_2 : Int := 50

/-- The GLFW constant `GLFW_KEY_R`. -/
def GLFW_KEY_R : Int := 82

/-- Models `FittingVisualizer::mousePositionCallback`. -/
def mousePositionCallback (ar : CameraArith R D) (s : FittingVisualizer Fr R D)
    (xpos ypos : D) : FittingVisualizer Fr R D :=
  let mode := s.trackballMode
  if mode ≠ TrackballMode.None then
    let s1 :=
      if !s.clickInitialized then
        { s with clickXPos := xpos, clickYPos := ypos, clickPhi := s.phi,
                 clickTheta := s.theta, clickTranslation := s.translation,
                 clickInitialized := true }
      else s
    let ox := s1.clickXPos
    let oy := s1.clickYPos
    if mode = TrackballMode.Rotating then
      let thetaDelta := ar.rotDelta xpos ox
      let phiDelta := ar.rotDelta ypos oy
      { s1 with theta := ar.add s1.clickTheta thetaDelta,
                phi := ar.add s1.clickPhi phiDelta }
    else if mode = TrackballMode.Panning then
      let x := ar.panDelta xpos ox
      let y := ar.panDelta ypos oy
      { s1 with translation :=
          (ar.add s1.clickTranslation.1 x, ar.add s1.clickTranslation.2.1 y,
            s1.translation.2.2) }
    else s1
  else s

/-- Models `FittingVisualizer::mouseScrollCallback`:
`this->zoom = static_cast<float>(zoom + 0.01 * yoffset);`. -/
def mouseScrollCallback (ar : CameraArith R D) (s : FittingVisualizer Fr R D)
    (_xoffset yoffset : D) : FittingVisualizer Fr R D :=
  let zoom := s.zoom
  { s with zoom := ar.zoomStep zoom yoffset }

/-- Models `FittingVisualizer::mouseButtonCallback`. -/
def mouseButtonCallback (s : FittingVisualizer Fr R D) (button action _mods : Int) :
    FittingVisualizer Fr R D :=
  let s1 :=
    if action = GLFW_PRESS then
      if button = GLFW_MOUSE_BUTTON_LEFT then
        { s with trackballMode := TrackballMode.Rotating, clickInitialized := false }
      else if button = GLFW_MOUSE_BUTTON_MIDDLE then
        { s with trackballMode := TrackballMode.Panning, clickInitialized := false }
      else s
    else s
  if action = GLFW_RELEASE then { s1 with trackballMode := TrackballMode.None } else s1

/-- Models `FittingVisualizer::cycleMeshMode`:
`meshMode = (meshMode + 1) % meshModeCount;`. The constant `meshModeCount` is
declared in a header that is not at hand and comes in as an argument; `none`
is the division by zero. -/
def cycleMeshMode (meshModeCount : Int) (s : FittingVisualizer Fr R D) :
    Option (FittingVisualizer Fr R D) :=
  if meshModeCount = 0 then none
  else some { s with meshMode := Int.tmod (s.meshMode + 1) meshModeCount }

/-- Models `FittingVisualizer::resetCamera`. -/
def resetCamera (ar : CameraArith R D) (s : FittingVisualizer Fr R D) :
    FittingVisualizer Fr R D :=
  { s with phi := ar.pi, theta := ar.zero, translation := (ar.zero, ar.zero, ar.zero),
           zoom := ar.one }

/-- Models `FittingVisualizer::keyCallback`. -/
def keyCallback (ar : CameraArith R D) (meshModeCount : Int) (s : FittingVisualizer Fr R D)
    (key _scancode action _mods : Int) : Option (FittingVisualizer Fr R D) :=
  if action ≠ GLFW_PRESS then some s
  else
    match (if key = GLFW_KEY_2 then cycleMeshMode meshModeCount s else some s) with
    | none => none
    | some s1 => if key = GLFW_KEY_R then some (resetCamera ar s1) else some s1

/-- An operation on a `FittingVisualizer` after its construction. -/
inductive Op (Fr D : Type) where
  | process (input : InputPtrT Fr)
  | safeGetInput
  | mousePosition (xpos ypos : D)
  | mouseScroll (xoffset yoffset : D)
  | mouseButton (button action mods : Int)
  | key (key scancode action mods : Int)
  | cycleMeshMode
  | resetCamera
  | stop
  | shutdownRequest

/-- One operation applied to a state. -/
def applyOp (ar : CameraArith R D) (meshModeCount : Int) (s : FittingVisualizer Fr R D) :
    Op Fr D → Option (FittingVisualizer Fr R D)
  | Op.process input => (s.process input).map (fun r => r.1)
  | Op.safeGetInput => s.safeGetInput.map (fun r => r.1)
  | Op.mousePosition xpos ypos => some (mousePositionCallback ar s xpos ypos)
  | Op.mouseScroll xoffset yoffset => some (mouseScrollCallback ar s xoffset yoffset)
  | Op.mouseButton button action mods => some (mouseButtonCallback s button action mods)
  | Op.key key scancode action mods => keyCallback ar meshModeCount s key scancode action mods
  | Op.cycleMeshMode => cycleMeshMode meshModeCount s
  | Op.resetCamera => some (resetCamera ar s)
  | Op.stop => some (stop s)
  | Op.shutdownRequest => some (shutdownRequest s)

/-- A sequence of operations applied in order. -/
def applyOps (ar : CameraArith R D) (meshModeCount : Int) :
    FittingVisualizer Fr R D → List (Op Fr D) → Option (FittingVisualizer Fr R D)
  | s, [] => some s
  | s, op :: ops =>
    match applyOp ar meshModeCount s op with
    | none => none
    | some s1 => applyOps ar meshModeCount s1 ops

/-- The data members of `FittingVisualizer`. `glHandles` stands for the
buffer, texture and shader handles that `render` generates. -/
inductive Field where
  | renderRunning
  | renderThread
  | renderMutex
  | renderTarget
  | clickInitialized
  | clickXPos
  | clickYPos
  | clickPhi
  | clickTheta
  | clickTranslation
  | phi
  | theta
  | trackballMode
  | translation
  | zoom
  | meshMode
  | geoMaxPoints
  | geoSearchRadius
  | window
  | glHandles
  deriving DecidableEq, Repr

/-- Two states agree on a data member. The members that the state does not
carry (`renderThread`, `window`, `glHandles`) are left out of the comparison. -/
def Field.agree (f : Field) (s t : FittingVisualizer Fr R D) : Prop :=
  match f with
  | Field.renderRunning => s.renderRunning = t.renderRunning
  | Field.renderMutex => s.renderMutex = t.renderMutex
  | Field.renderTarget => s.renderTarget = t.renderTarget
  | Field.clickInitialized => s.clickInitialized = t.clickInitialized
  | Field.clickXPos => s.clickXPos = t.clickXPos
  | Field.clickYPos => s.clickYPos = t.clickYPos
  | Field.clickPhi => s.clickPhi = t.clickPhi
  | Field.clickTheta => s.clickTheta = t.clickTheta
  | Field.clickTranslation => s.clickTranslation = t.clickTranslation
  | Field.phi => s.phi = t.phi
  | Field.theta => s.theta = t.theta
  | Field.trackballMode => s.trackballMode = t.trackballMode
  | Field.translation => s.translation = t.translation
  | Field.zoom => s.zoom = t.zoom
  | Field.meshMode => s.meshMode = t.meshMode
  | Field.geoMaxPoints => s.geoMaxPoints = t.geoMaxPoints
  | Field.geoSearchRadius => s.geoSearchRadius = t.geoSearchRadius
  | Field.renderThread => True
  | Field.window => True
  | Field.glHandles => True

/-- Integer stand-ins for the camera arithmetic, used in the examples. -/
def sampleArith : CameraArith Int Int :=
  { pi := 3, zero := 0, one := 1, add := fun a b => a + b,
    rotDelta := fun x o => (x - o) / 1000, panDelta := fun x o => (x - o) / 100,
    zoomStep := fun z y => z + y / 100 }

end FittingVisualizer

end Telef

namespace Telef

/-! ## Frames of the feature pipes

The headers that declare `DeviceInputSuite`, `Feature`, `FeatureDetectSuite`,
`LmkReq` and `LmkRsp` are not part of the sources at hand; the structures
below hold the members that `feature_detect_pipe.cpp` and
`feature_detect_frontend.h` read and write, under the names used there. -/

/-- An address of an object owned through a shared pointer. -/
abbrev Addr := Nat

/-- Models `pcl::io::Image` in RGB encoding: `data` are the raw bytes, three per pixel. -/
structure Image where
  width : Nat
  height : Nat
  data : List Nat
  deriving DecidableEq, Repr

namespace Image

/-- Models `getWidth()`. -/
def getWidth (im : Image) : Nat := im.width

/-- Models `getHeight()`. -/
def getHeight (im : Image) : Nat := im.height

/-- Models `getDataSize()`: the number of raw bytes. -/
def getDataSize (im : Image) : Nat := im.data.length

/-- Models `fillRaw(buffer)`: the bytes copied into the buffer. -/
def fillRaw (im : Image) : List Nat := im.data

end Image

/-- Models `dlib::rgb_pixel`. -/
structure RgbPixel where
  red : Nat
  green : Nat
  blue : Nat
  deriving DecidableEq, Repr

/-- Models `dlib::matrix<dlib::rgb_pixel>`: `nr` rows of `nc` pixels, row by row. -/
structure DlibImage where
  nr : Nat
  nc : Nat
  pixels : List RgbPixel
  deriving DecidableEq, Repr

/-- Models `fillRGB`: the bytes of an RGB image grouped into three-channel pixels, as
they are laid out in a `CV_8UC3` matrix. -/
def fillRGB : List Nat → List (Nat × Nat × Nat)
  | a :: b :: c :: rest => (a, b, c) :: fillRGB rest
  | _ => []

/-- Models `cv::cvtColor(m, m, CV_RGB2BGR)`: the first and third channel trade places. -/
def cvtColorRGB2BGR (px : List (Nat × Nat × Nat)) : List (Nat × Nat × Nat) :=
  px.map (fun p => (p.2.2, p.2.1, p.1))

/-- Models `dlib::assign_image(img, cv_image<bgr_pixel>(m))`: every stored
(blue, green, red) triple becomes an `rgb_pixel`. -/
def assign_image (nr nc : Nat) (bgr : List (Nat × Nat × Nat)) : DlibImage :=
  { nr := nr, nc := nc, pixels := bgr.map (fun p => ⟨p.2.2, p.2.1, p.1⟩) }

/-- The block "Convert PCL image to dlib image", shared word for word by
`DlibFaceDetectionPipe::_processData` and the two window front ends. -/
def toDlibImage (pclImage : Image) : DlibImage :=
  let matImg := fillRGB pclImage.data
  let matImg := cvtColorRGB2BGR matImg
  assign_image pclImage.getHeight pclImage.getWidth matImg

/-- Models `dlib::rectangle`. -/
structure Rectangle where
  l : Int
  t : Int
  r : Int
  b : Int
  deriving DecidableEq, Repr

/-- The default-constructed `dlib::rectangle`, which is empty:
left 0, top 0, right -1, bottom -1. -/
def Rectangle.empty : Rectangle := { l := 0, t := 0, r := -1, b := -1 }

/-- Models `Eigen::MatrixXf` over scalars `R`: `rows * cols` coefficients, row by row. -/
structure MatrixXf (R : Type) where
  rows : Nat
  cols : Nat
  coeffs : List R
  deriving DecidableEq, Repr

/-- The default-constructed matrix: 0 by 0. -/
def MatrixXf.empty {R : Type} : MatrixXf R := { rows := 0, cols := 0, coeffs := [] }

/-- Coefficient `(i, j)`, when inside the matrix. -/
def MatrixXf.coeff? {R : Type} (m : MatrixXf R) (i j : Nat) : Option R :=
  if i < m.rows ∧ j < m.cols then m.coeffs[i * m.cols + j]? else none

/-- Models `BoundingBox`, seen through `setBoundingBox` and `getRect`. -/
structure BoundingBox where
  rect : Rectangle
  deriving DecidableEq, Repr

/-- Models `BoundingBox::setBoundingBox`. -/
def BoundingBox.setBoundingBox (_ : BoundingBox) (bbox : Rectangle) : BoundingBox :=
  { rect := bbox }

/-- Models `BoundingBox::getRect`. -/
def BoundingBox.getRect (bb : BoundingBox) : Rectangle := bb.rect

/-- Models `telef::feature::Feature`: the landmark matrix and the face bounding box. -/
structure Feature (R : Type) where
  points : MatrixXf R
  boundingBox : BoundingBox
  deriving DecidableEq, Repr

/-- Models `boost::make_shared<Feature>()`. -/
def Feature.new {R : Type} : Feature R :=
  { points := MatrixXf.empty, boundingBox := { rect := Rectangle.empty } }

/-- Models `DeviceInputSuite`: of its members only `rawImage` is used here. -/
structure DeviceInputSuite where
  rawImage : Option Image
  deriving DecidableEq, Repr

/-- Models `FeatureDetectSuite`: two shared pointers, to the device input and to the
feature. -/
structure FeatureDetectSuite where
  deviceInput : Option Addr
  feature : Option Addr
  deriving DecidableEq, Repr

/-- The objects reachable through shared pointers; the address of an object is
its index in its list, and `make_shared` appends. -/
structure Heap (R : Type) where
  inputs : List DeviceInputSuite
  features : List (Feature R)
  suites : List FeatureDetectSuite
  deriving DecidableEq, Repr

namespace Heap

variable {R : Type}

/-- Models `in->deviceInput->rawImage` followed by a use of the image: every pointer
on the way has to be non-null. -/
def rawImageOf (h : Heap R) (p : Option Addr) : Option Image :=
  match p with
  | none => none
  | some a =>
    match h.suites[a]? with
    | none => none
    | some suite =>
      match suite.deviceInput with
      | none => none
      | some d =>
        match h.inputs[d]? with
        | none => none
        | some di => di.rawImage

/-- Models `in->feature`, dereferenced. -/
def featureOf (h : Heap R) (p : Option Addr) : Option (Feature R) :=
  match p with
  | none => none
  | some a =>
    match h.suites[a]? with
    | none => none
    | some suite =>
      match suite.feature with
      | none => none
      | some fa => h.features[fa]?

/-- Models `in->feature->points = m`: the `Feature` object that `in->feature` points
to gets new `points`; nothing else on the heap changes. -/
def setPoints (h : Heap R) (p : Option Addr) (m : MatrixXf R) : Option (Heap R) :=
  match p with
  | none => none
  | some a =>
    match h.suites[a]? with
    | none => none
    | some suite =>
      match suite.feature with
      | none => none
      | some fa =>
        match h.features[fa]? with
        | none => none
        | some feat => some { h with features := h.features.set fa { feat with points := m } }

end Heap

end Telef

namespace Telef

/-! ## DlibFaceDetectionPipe -/

/-- Models `dlib::mmod_rect`: a detection with its confidence (`C` stands for `double`). -/
structure Detection (C : Type) where
  rect : Rectangle
  detection_confidence : C
  deriving DecidableEq, Repr

/-- Models `DlibFaceDetectionPipe`: its only data member is the detector network,
which maps an image to its detections. -/
structure DlibFaceDetectionPipe (C : Type) where
  net : DlibImage → List (Detection C)

namespace DlibFaceDetectionPipe

variable {C R : Type}

/-- The loop "Get best face detected":
```
dlib::rectangle bbox;
double detection_confidence = 0;
for (auto &&d : dets)
  if (d.detection_confidence > detection_confidence) {
    detection_confidence = d.detection_confidence;
    bbox = d.rect;
  }
```
Returns the final `bbox` and `detection_confidence`. -/
def bestDetection [Zero C] [LT C] [DecidableRel (fun a b : C => a < b)]
    (dets : List (Detection C)) : Rectangle × C :=
  dets.foldl
    (fun acc d =>
      if acc.2 < d.detection_confidence then (d.rect, d.detection_confidence) else acc)
    (Rectangle.empty, 0)

/-- Models `DlibFaceDetectionPipe::_processData`. The input points to a
`DeviceInputSuite`; the result is a freshly allocated `FeatureDetectSuite`
whose `feature` is a freshly allocated `Feature`. `none` stands for a null
dereference. -/
def _processData [Zero C] [LT C] [DecidableRel (fun a b : C => a < b)]
    (pipe : DlibFaceDetectionPipe C) (h : Heap R) (input : Option Addr) :
    Option (Heap R × Option Addr) :=
  match input with
  | none => none
  | some a =>
    match h.inputs[a]? with
    | none => none
    | some di =>
      match di.rawImage with
      | none => none
      | some pclImage =>
        let img := toDlibImage pclImage
        let dets := pipe.net img
        let bbox := (bestDetection dets).1
        let result := h.suites.length
        let featureAddr := h.features.length
        let feature : Feature R :=
          { (Feature.new : Feature R) with
            boundingBox := (Feature.new : Feature R).boundingBox.setBoundingBox bbox }
        some ({ h with
                features := h.features ++ [feature],
                suites := h.suites ++ [{ deviceInput := input, feature := some featureAddr }] },
              some result)

end DlibFaceDetectionPipe

/-! ## FeatureDetectionClientPipe -/

/-- The header of the landmark request `LmkReq`. -/
structure LmkReqHdr where
  id : Int
  width : Nat
  height : Nat
  channels : Nat
  deriving DecidableEq, Repr

/-- Models `LmkReq`: header and image bytes. -/
structure LmkReq where
  hdr : LmkReqHdr
  buffer : List Nat
  deriving DecidableEq, Repr

/-- Models `LmkRsp`: `dim().shape()` and `data()`. A default-constructed message has
both empty. -/
structure LmkRsp (R : Type) where
  shape : List Int
  data : List R
  deriving DecidableEq, Repr

/-- The client socket: the endpoint it is connected to, if any. -/
structure SocketT where
  endpoint : Option String
  deriving DecidableEq, Repr

/-- What the receiving side of the socket does during one `recv`: the stream
raises, or `ParseDelimitedFromCodedStream` comes back with its return value
`status` (false: parse failure or end of stream) having left `msg` in the
message object. -/
inductive RecvEvent (R : Type) where
  | raised
  | parsed (status : Bool) (msg : LmkRsp R)
  deriving DecidableEq, Repr

/-- The behaviour of the outside world during one `_processData`: whether
`clientSocket->connect` returns normally, whether writing the request returns
normally, and what reading the response does. -/
structure Wire (R : Type) where
  connectOk : Bool
  sendOk : Bool
  recvEvent : RecvEvent R
  deriving DecidableEq, Repr

/-- The data members of `FeatureDetectionClientPipe` (the `io_service`
reference apart). -/
structure FeatureDetectionClientPipe (R : Type) where
  isConnected : Bool
  address : String
  clientSocket : Option SocketT
  msg_id : Int
  landmarks : MatrixXf R
  deriving DecidableEq, Repr

namespace FeatureDetectionClientPipe

variable {R : Type}

/-- The constructor: `isConnected(false), address(address_), clientSocket(), msg_id(0)`;
`landmarks` is default-constructed. -/
def new (address_ : String) : FeatureDetectionClientPipe R :=
  { isConnected := false, address := address_, clientSocket := none, msg_id := 0,
    landmarks := MatrixXf.empty }

/-- Models `FeatureDetectionClientPipe::disconnect`:
`isConnected = false; ... clientSocket.reset();`. -/
def disconnect (p : FeatureDetectionClientPipe R) : FeatureDetectionClientPipe R :=
  let p1 := { p with isConnected := false }
  { p1 with clientSocket := none }

/-- Models `FeatureDetectionClientPipe::connect`:
```
isConnected = false;
clientSocket = make_shared<SocketT>(ioService);
try { clientSocket->connect(endpoint(address)); isConnected = true; }
catch (std::exception& e) { ...; disconnect(); }
return isConnected;
```
-/
def connect (p : FeatureDetectionClientPipe R) (connectOk : Bool) :
    Bool × FeatureDetectionClientPipe R :=
  let p1 := { p with isConnected := false }
  let p2 := { p1 with clientSocket := some { endpoint := none } }
  let p3 :=
    if connectOk then
      { p2 with clientSocket := some { endpoint := some p2.address }, isConnected := true }
    else
      p2.disconnect
  (p3.isConnected, p3)

/-- Models `FeatureDetectionClientPipe::send`: returns the flag, the pipe afterwards
and the messages that went out. `none` is the dereference of a null
`clientSocket`. -/
def send (p : FeatureDetectionClientPipe R) (sendOk : Bool) (msg : LmkReq) :
    Option (Bool × FeatureDetectionClientPipe R × List LmkReq) :=
  if p.isConnected != true then some (false, p, [])
  else
    match p.clientSocket with
    | none => none
    | some _ =>
      if sendOk then some (true, p, [msg])
      else some (false, p.disconnect, [])

/-- Models `FeatureDetectionClientPipe::recv`: returns the flag, the pipe afterwards
and the contents of the message object. The value that
`ParseDelimitedFromCodedStream` returns is dropped and `parseStatus` is never
read: without an exception the function ends in `return true`. -/
def recv (p : FeatureDetectionClientPipe R) (ev : RecvEvent R) (msg : LmkRsp R) :
    Option (Bool × FeatureDetectionClientPipe R × LmkRsp R) :=
  if p.isConnected != true then some (false, p, msg)
  else
    match p.clientSocket with
    | none => none
    | some _ =>
      match ev with
      | RecvEvent.raised => some (false, p.disconnect, msg)
      | RecvEvent.parsed _ m => some (true, p, m)

/-- The body of `if (msgSent && recv(rspMsg))`:
```
cv::Mat m(shape[0], shape[1], CV_32F, data.data());
m.col(2) *= -1.0f;
cv::cv2eigen(m.t(), landmarks);
```
The new `landmarks` is the transpose of `m` with the third column negated.
`none` when `shape` has fewer than two entries or a negative one, when `m`
has no third column, or when `data` is shorter than the matrix. -/
def decodeLandmarks [Neg R] (rsp : LmkRsp R) : Option (MatrixXf R) :=
  match rsp.shape with
  | r :: c :: _ =>
    if 0 ≤ r ∧ 2 < c ∧ r.toNat * c.toNat ≤ rsp.data.length then
      let rows := r.toNat
      let cols := c.toNat
      some
        { rows := cols, cols := rows,
          coeffs := (List.range cols).flatMap (fun j =>
            (List.range rows).filterMap (fun i =>
              (rsp.data[i * cols + j]?).map (fun x => if j = 2 then -x else x))) }
    else none
  | _ => none

/-- The result of one `_processData`: the pipe and the heap afterwards, the
returned pointer and the requests that went out. -/
structure Outcome (R : Type) where
  pipe : FeatureDetectionClientPipe R
  heap : Heap R
  result : Option Addr
  sent : List LmkReq
  deriving DecidableEq, Repr

/-- The common tail `in->feature->points = landmarks; return in;`. -/
def finish (p : FeatureDetectionClientPipe R) (h : Heap R) (input : Option Addr)
    (sent : List LmkReq) : Option (Outcome R) :=
  match h.setPoints input p.landmarks with
  | none => none
  | some h1 => some { pipe := p, heap := h1, result := input, sent := sent }

/-- The landmark request built from the image:
```
hdr->set_id(++msg_id);
hdr->set_width(pclImage->getHeight());
hdr->set_height(pclImage->getWidth());
hdr->set_channels(3);
imgData->set_buffer(imgBuffer.data(), pclImage->getDataSize());
```
-/
def buildRequest (msg_id : Int) (pclImage : Image) : LmkReq :=
  let imgBuffer := (pclImage.fillRaw).take pclImage.getDataSize
  { hdr := { id := msg_id, width := pclImage.getHeight, height := pclImage.getWidth,
             channels := 3 },
    buffer := imgBuffer }

/-- Models `FeatureDetectionClientPipe::_processData`. `none` stands for undefined
behaviour (a null dereference, a read outside the response). -/
def _processData [Neg R] (p : FeatureDetectionClientPipe R) (w : Wire R) (h : Heap R)
    (input : Option Addr) : Option (Outcome R) :=
  let attempt : Bool × FeatureDetectionClientPipe R :=
    if p.clientSocket = none ∨ p.isConnected = false then p.connect w.connectOk
    else (true, p)
  if attempt.1 = false then
    finish attempt.2 h input []
  else
    let p1 := attempt.2
    match h.rawImageOf input with
    | none => none
    | some pclImage =>
      let p2 := { p1 with msg_id := p1.msg_id + 1 }
      let reqMsg := buildRequest p2.msg_id pclImage
      match p2.send w.sendOk reqMsg with
      | none => none
      | some (msgSent, p3, sent) =>
        if msgSent then
          match p3.recv w.recvEvent { shape := [], data := [] } with
          | none => none
          | some (true, p4, rspMsg) =>
            match decodeLandmarks rspMsg with
            | none => none
            | some lm => finish { p4 with landmarks := lm } h input sent
          | some (false, p4, _) => finish p4 h input sent
        else finish p3 h input sent

end FeatureDetectionClientPipe

end Telef

namespace Telef

/-! ## The window front ends of `feature_detect_frontend.h` -/

/-- What `dlib::image_window::add_overlay` is given: a rectangle, or an
`overlay_circle` with centre, radius and colour. -/
inductive Overlay where
  | rect (r : Rectangle)
  | circle (x y : Int) (radius : Int) (color : RgbPixel)
  deriving DecidableEq, Repr

/-- Models `dlib::image_window`: the image on display and the overlays drawn on it. -/
structure ImageWindow where
  image : Option DlibImage
  overlays : List Overlay
  deriving DecidableEq, Repr

namespace ImageWindow

/-- Models `clear_overlay()`. -/
def clear_overlay (win : ImageWindow) : ImageWindow := { win with overlays := [] }

/-- Models `set_image(img)`. -/
def set_image (win : ImageWindow) (img : DlibImage) : ImageWindow :=
  { win with image := some img }

/-- Models `add_overlay(o)`. -/
def add_overlay (win : ImageWindow) (o : Overlay) : ImageWindow :=
  { win with overlays := win.overlays ++ [o] }

end ImageWindow

/-- Models `FaceDetectFrontEnd`: its only data member is the window. -/
structure FaceDetectFrontEnd where
  win : ImageWindow
  deriving DecidableEq, Repr

/-- Models `FaceDetectFrontEnd::process`:
```
auto pclImage = input->deviceInput->rawImage;
... (convert PCL image to dlib image) ...
win.clear_overlay();
win.set_image(img);
win.add_overlay(input->feature->boundingBox.getRect());
```
-/
def FaceDetectFrontEnd.process {R : Type} (fe : FaceDetectFrontEnd) (h : Heap R)
    (input : Option Addr) : Option FaceDetectFrontEnd :=
  match h.rawImageOf input with
  | none => none
  | some pclImage =>
    let img := toDlibImage pclImage
    let win := fe.win.clear_overlay
    let win := win.set_image img
    match h.featureOf input with
    | none => none
    | some feat => some { win := win.add_overlay (Overlay.rect feat.boundingBox.getRect) }

/-- Models `Feature2DDetectFrontEnd`: its only data member is the window. -/
structure Feature2DDetectFrontEnd where
  win : ImageWindow
  deriving DecidableEq, Repr

/-- The loop of `Feature2DDetectFrontEnd::process`:
```
for (size_t i = 0, size = featurePts.rows(); i < size; i++) {
  int radius = 1;
  dlib::point point(featurePts(i, 0), featurePts(i, 1));
  win.add_overlay(overlay_circle(point, radius, rgb_pixel(0, 255, 0)));
}
```
run over the rows `i, i+1, ..` for `n` rounds. `toLong` is the conversion of a
`float` coefficient to the `long` coordinate of a `dlib::point`. `none` when
a row has no column 0 or 1. -/
def addCircles {R : Type} (toLong : R → Int) (featurePts : MatrixXf R) :
    Nat → Nat → ImageWindow → Option ImageWindow
  | 0, _, win => some win
  | n + 1, i, win =>
    match featurePts.coeff? i 0, featurePts.coeff? i 1 with
    | some x, some y =>
      addCircles toLong featurePts n (i + 1)
        (win.add_overlay (Overlay.circle (toLong x) (toLong y) 1 ⟨0, 255, 0⟩))
    | _, _ => none

/-- Models `Feature2DDetectFrontEnd::process`: the same conversion and window update
as `FaceDetectFrontEnd::process`, then one circle per row of
`input->feature->points`. -/
def Feature2DDetectFrontEnd.process {R : Type} (toLong : R → Int)
    (fe : Feature2DDetectFrontEnd) (h : Heap R) (input : Option Addr) :
    Option Feature2DDetectFrontEnd :=
  match h.rawImageOf input with
  | none => none
  | some pclImage =>
    let img := toDlibImage pclImage
    let win := fe.win.clear_overlay
    let win := win.set_image img
    match h.featureOf input with
    | none => none
    | some feat =>
      let featurePts := feat.points
      match addCircles toLong featurePts featurePts.rows 0 win with
      | none => none
      | some win1 => some { win := win1 }

/-- Models `pcl::visualization::PCLVisualizer`, as far as `FeatureDetectFrontEnd`
drives it: background colour, the cloud shown under the default id, window
position, point size, whether the camera parameters were initialised, and the
number of `spinOnce` calls. -/
structure PCLVisualizer (Cl : Type) where
  backgroundColor : Option (Nat × Nat × Nat)
  cloud : Option Cl
  position : Option (Int × Int)
  pointSize : Option Nat
  cameraInitialized : Bool
  spins : Nat
  deriving DecidableEq, Repr

namespace PCLVisualizer

variable {Cl : Type}

/-- Models `std::make_unique<vis::PCLVisualizer>()`. -/
def new : PCLVisualizer Cl :=
  { backgroundColor := none, cloud := none, position := none, pointSize := none,
    cameraInitialized := false, spins := 0 }

/-- Models `updatePointCloud(cloud)`: replaces the cloud shown under the default id
and returns true; returns false when no cloud has been added under that id. -/
def updatePointCloud (v : PCLVisualizer Cl) (c : Cl) : Bool × PCLVisualizer Cl :=
  match v.cloud with
  | none => (false, v)
  | some _ => (true, { v with cloud := some c })

/-- Models `addPointCloud(cloud)`: adds the cloud under the default id unless one is
already there. -/
def addPointCloud (v : PCLVisualizer Cl) (c : Cl) : PCLVisualizer Cl :=
  match v.cloud with
  | none => { v with cloud := some c }
  | some _ => v

end PCLVisualizer

/-- Models `FittingSuite`: of its members only `landmark3d` is used here. -/
structure FittingSuite (Cl : Type) where
  landmark3d : Cl
  deriving DecidableEq, Repr

/-- Models `FeatureDetectFrontEnd`: its only data member is the owning pointer to the
visualizer, null until the first `process`. -/
structure FeatureDetectFrontEnd (Cl : Type) where
  visualizer : Option (PCLVisualizer Cl)
  deriving DecidableEq, Repr

/-- Models `FeatureDetectFrontEnd::process`:
```
auto lmks = input->landmark3d;
if (!visualizer) { visualizer = make_unique<PCLVisualizer>(); visualizer->setBackgroundColor(0, 0, 0); }
visualizer->spinOnce();
if (!visualizer->updatePointCloud(lmks)) {
  visualizer->addPointCloud(lmks);
  visualizer->setPosition(0, 0);
  visualizer->setPointCloudRenderingProperties(PCL_VISUALIZER_POINT_SIZE, 5);
  visualizer->initCameraParameters();
}
```
-/
def FeatureDetectFrontEnd.process {Cl : Type} (fe : FeatureDetectFrontEnd Cl)
    (input : Option (FittingSuite Cl)) : Option (FeatureDetectFrontEnd Cl) :=
  match input with
  | none => none
  | some inp =>
    let lmks := inp.landmark3d
    let v0 : PCLVisualizer Cl :=
      match fe.visualizer with
      | none => { (PCLVisualizer.new : PCLVisualizer Cl) with backgroundColor := some (0, 0, 0) }
      | some v => v
    let v1 := { v0 with spins := v0.spins + 1 }
    match v1.updatePointCloud lmks with
    | (true, v2) => some { visualizer := some v2 }
    | (false, v2) =>
      let v3 := v2.addPointCloud lmks
      let v4 := { v3 with position := some (0, 0) }
      let v5 := { v4 with pointSize := some 5 }
      some { visualizer := some { v5 with cameraInitialized := true } }

end Telef

namespace Telef

/-! ## The pipeline core: Pipe, Channel, Merger, playback Device

The headers `io/pipe.h`, `io/channel.h`, `io/merger.h` and `io/device.h` are
not among the sources at hand; `PcaTargetFit.cpp` and `DNNFaceDetector.cpp`
only call into them. The definitions of this section follow sections 4.1 to
4.5 of the specification. -/

/-- Modelled from the spec: the class `Pipe` of `io/pipe.h` is missing. A
`Pipe<A,B>` is a function from an input frame to an output frame or to "no
result" (section 4.1); it is either a single named stage or the chaining of a
`Pipe<A,B>` with a `Pipe<B,C>`. -/
inductive Pipe : Type → Type → Type 1 where
  | stage {A B : Type} (name : String) (f : A → Option B) : Pipe A B
  | comp {A B C : Type} (p : Pipe A B) (q : Pipe B C) : Pipe A C

/-- Modelled from the spec: `compose` of `io/pipe.h` is missing. "Chaining
Pipe<A,B> with Pipe<B,C> yields Pipe<A,C>" (section 4.1). -/
def compose {A B C : Type} (p : Pipe A B) (q : Pipe B C) : Pipe A C :=
  Pipe.comp p q

namespace Pipe

/-- Modelled from the spec: the call operator of `Pipe` is missing. A stage
applies its function; a chain runs its first part and, "if any stage in the
chain yields no result, downstream stages are skipped and the chain's overall
output is no result" (section 4.1). Next to the output the run lists the
stages that were invoked, in order, each with whether it produced a result. -/
def run : {A B : Type} → Pipe A B → A → Option B × List (String × Bool)
  | _, _, stage name f, a => (f a, [(name, (f a).isSome)])
  | _, _, comp p q, a =>
    match p.run a with
    | (none, t) => (none, t)
    | (some b, t) => ((q.run b).1, t ++ (q.run b).2)

/-- The names of the stages of a pipe, in chain order. -/
def stages : {A B : Type} → Pipe A B → List String
  | _, _, stage name _ => [name]
  | _, _, comp p q => p.stages ++ q.stages

end Pipe

/-- Modelled from the spec: the classes `Channel` and `Merger` (`io/channel.h`,
`io/merger.h`) are missing. A merger bound to `n` channels: the pipe of every
channel, applied to each raw sample of its modality (section 4.2), and the
pipe chain of the merger, applied to a snapshot holding one frame per channel
(section 4.3). -/
structure MergerConfig (n : Nat) (Raw F Res : Type) where
  channelPipe : Fin n → Raw → Option F
  chain : (Fin n → F) → Option Res

/-- Modelled from the spec: the state of the missing `Channel` and `Merger`
classes. Every channel "holds at most the latest Frame it has produced"
(section 3), and every registered front end has a single-slot mailbox. -/
structure MergerState (n : Nat) (F Res : Type) where
  latest : Fin n → Option F
  mailboxes : List (Option Res)

namespace MergerState

variable {n : Nat} {Raw F Res : Type}

/-- Modelled from the spec: construction of the missing `Merger`: no channel
has produced a frame and every mailbox of the `m` front ends is empty. -/
def init (m : Nat) : MergerState n F Res :=
  { latest := fun _ => none, mailboxes := List.replicate m none }

/-- Modelled from the spec: the raw-frame callback of the missing `Channel`
followed by the notification of the missing `Merger`. The channel "applies its
Pipe to the raw sample, stores the Pipe's output as its latest Frame
(discarding the previous one), and notifies all Mergers" (section 4.2). The
merger then (section 4.3) checks "that every bound Channel currently holds a
Frame; if not, return without action", assembles the snapshot, runs it through
its pipe chain and "on a non-empty result" publishes it "to every registered
FrontEnd by overwriting its mailbox". Returns the state afterwards and the
result published by this delivery, if any. -/
def deliver (cfg : MergerConfig n Raw F Res) (st : MergerState n F Res)
    (channel : Fin n) (raw : Raw) : MergerState n F Res × Option Res :=
  let latest1 := Function.update st.latest channel (cfg.channelPipe channel raw)
  if h : ∀ i, (latest1 i).isSome then
    let snapshot : Fin n → F := fun i => (latest1 i).get (h i)
    match cfg.chain snapshot with
    | some r => ({ latest := latest1, mailboxes := st.mailboxes.map (fun _ => some r) }, some r)
    | none => ({ st with latest := latest1 }, none)
  else ({ st with latest := latest1 }, none)

/-- A sequence of raw deliveries, in arrival order; `k` is the position of the
first of them. Returns the final state and the publications, each with the
position of the delivery that caused it. -/
def deliverAll (cfg : MergerConfig n Raw F Res) :
    Nat → MergerState n F Res → List (Fin n × Raw) → MergerState n F Res × List (Nat × Res)
  | _, st, [] => (st, [])
  | k, st, d :: ds =>
    match deliver cfg st d.1 d.2 with
    | (st1, none) => deliverAll cfg (k + 1) st1 ds
    | (st1, some r) =>
      ((deliverAll cfg (k + 1) st1 ds).1, (k, r) :: (deliverAll cfg (k + 1) st1 ds).2)

end MergerState

/-- The playback policies named in `PcaTargetFit.cpp`: single pass at 30
frames per second, and the same looped. -/
inductive PlayMode where
  | FPS_30
  | FPS_30_LOOP
  deriving DecidableEq, Repr

/-- Modelled from the spec: `FakeImagePointCloudDevice::run` is missing. The
playback device "reads a pre-recorded, ordered sequence of saved frame files"
and delivers them in order; "on reaching the end of a non-looped sequence,
run() returns", while the looped policy starts over (section 4.5). `i` is the
position of the next frame; every frame delivered and every restart uses one
unit of `fuel`. The result is the list of frames delivered, in delivery order;
`none` means that the loop is still running when the fuel is used up. -/
def playbackFrom {Fk : Type} (mode : PlayMode) (frames : List Fk) :
    Nat → Nat → Option (List Fk)
  | 0, _ => none
  | fuel + 1, i =>
    match frames[i]? with
    | some f => (playbackFrom mode frames fuel (i + 1)).map (fun rest => f :: rest)
    | none =>
      match mode with
      | PlayMode.FPS_30 => some []
      | PlayMode.FPS_30_LOOP => playbackFrom mode frames fuel 0

/-- Modelled from the spec: `run()` of the missing playback device, from the
first recorded frame. -/
def playbackRun {Fk : Type} (mode : PlayMode) (frames : List Fk) (fuel : Nat) :
    Option (List Fk) :=
  playbackFrom mode frames fuel 0

end Telef

namespace Telef

/-! ## IntrinsicDecomposition (`src/src/intrinsic/intrinsic.cpp`)

`double` is an ordered field `R` (exact arithmetic). Arrays are lists; a read
outside an array or a matrix is undefined behaviour and shows as `none`. The
nearest-neighbour search of PCL and the linear solver of OpenCV are taken as
arguments. -/

/-- Models `Eigen::SparseMatrix<double>` after `resize(rows, cols)`: the size
and the triplets it was last set from. -/
structure SparseMatrix (R : Type) where
  rows : Nat
  cols : Nat
  entries : List (Nat × Nat × R)
  deriving DecidableEq, Repr

namespace SparseMatrix

variable {R : Type}

/-- Models `resize(rows, cols); setZero();`. -/
def zero (rows cols : Nat) : SparseMatrix R := { rows := rows, cols := cols, entries := [] }

/-- Models `setFromTriplets(tp.begin(), tp.end())`: the matrix is rebuilt from
the triplets, its size is kept. -/
def setFromTriplets (m : SparseMatrix R) (tp : List (Nat × Nat × R)) : SparseMatrix R :=
  { m with entries := tp }

/-- The coefficient `(i, j)`: `setFromTriplets` sums the triplets that name
the same position. -/
def coeff [Zero R] [Add R] (m : SparseMatrix R) (i j : Nat) : R :=
  ((m.entries.filter (fun e => decide (e.1 = i) && decide (e.2.1 = j))).map
    (fun e => e.2.2)).foldl (fun a b => a + b) 0

end SparseMatrix

/-- Models `cv::Mat1d`: `rows` times `cols` values, row by row. -/
structure Mat1d (R : Type) where
  rows : Nat
  cols : Nat
  data : List R
  deriving DecidableEq, Repr

/-- The element access `m(r, c)` of a `cv::Mat1d`; `none` when the row or the
column lies outside the matrix. -/
def Mat1d.at {R : Type} (m : Mat1d R) (r c : Nat) : Option R :=
  if r < m.rows ∧ c < m.cols then m.data[r * m.cols + c]? else none

/-- The data members of `IntrinsicDecomposition`. -/
structure IntrinsicDecomposition (R : Type) where
  width : Nat
  height : Nat
  color : List R
  chrom : List R
  points : List R
  nMap : List R
  vMap : List R
  mask : List Bool
  index : List Nat
  indexMapping : List (Nat × Nat)
  dims : Nat
  LLENORMAL : SparseMatrix R
  LLEGRID : SparseMatrix R
  WRC : SparseMatrix R
  WSC : SparseMatrix R
  MASK : SparseMatrix R
  L_S : SparseMatrix R
  consVecCont : List R
  deriving DecidableEq, Repr

/-- The library calls of `getGridLLEMatrix`: `nearestKSearch cloud i k` is what
`kdtree.nearestKSearch(cloud->points[i], k, pointIdxNKNSearch, ...)` leaves in
`pointIdxNKNSearch` for the tree built on `cloud`; `solve K C` are the values
that `cv::solve(C, ones(K, 1), w)` leaves in the `K` by 1 matrix `w`; `toByte`
is the conversion of a `double` to the `uint8_t` colour members of
`pcl::PointXYZRGB`; `tol` is `1e-3` and `vmin0` is `99999999999`. -/
structure LleEnv (R : Type) where
  nearestKSearch : List (List R) → Nat → Nat → List Nat
  solve : Nat → List (List R) → List R
  toByte : R → R
  tol : R
  vmin0 : R

namespace IntrinsicDecomposition

variable {R : Type}

/-- The three values `a[3 * (i * width + j) + 0..2]` of a per-pixel array. -/
def triple (s : IntrinsicDecomposition R) (a : List R) (i j : Nat) : Option (List R) :=
  match a[i * s.width * 3 + j * 3 + 0]?, a[i * s.width * 3 + j * 3 + 1]?,
      a[i * s.width * 3 + j * 3 + 2]? with
  | some x, some y, some z => some [x, y, z]
  | _, _, _ => none

/-- The starting rows (or columns) of the grid cells: `0, g_size, 2 * g_size, ..`
below `limit`. -/
def gridOrigins (g_size limit : Nat) : List Nat :=
  (List.range limit).filter (fun i => i % g_size = 0)

/-- The pixels of the cell that starts at `(i, j)`, in the order of the loops
`for gi .. for gj ..`, cut at the image border. -/
def cellPixels (s : IntrinsicDecomposition R) (g_size i j : Nat) : List (Nat × Nat) :=
  ((List.range g_size).filter (fun gi => i + gi < s.height)).flatMap (fun gi =>
    ((List.range g_size).filter (fun gj => j + gj < s.width)).map (fun gj =>
      (i + gi, j + gj)))

/-- All cells, in the order of the loops `for i .. for j ..`. -/
def cells (s : IntrinsicDecomposition R) (g_size : Nat) : List (Nat × Nat) :=
  (gridOrigins g_size s.height).flatMap (fun i =>
    (gridOrigins g_size s.width).map (fun j => (i, j)))

/-- The first pass over the cells: `Ngrid` counts the cells that hold a pixel
with `mask` set. -/
def countGrid (s : IntrinsicDecomposition R) (g_size : Nat) : Option Nat :=
  (cells s g_size).foldlM
    (fun Ngrid c => do
      let flags ← (cellPixels s g_size c.1 c.2).mapM (fun p => s.mask[p.1 * s.width + p.2]?)
      pure (if flags.any (fun b => b) then Ngrid + 1 else Ngrid))
    0

/-- The choice made inside one cell in the second pass: the masked pixel with
the smallest `vMap` value below `vmin0`, the earliest on ties; `none` inside
when the cell keeps `flag` true. -/
def pickPixel [LT R] [DecidableRel (fun a b : R => a < b)] (s : IntrinsicDecomposition R)
    (vmin0 : R) (g_size i j : Nat) : Option (Option (Nat × Nat)) := do
  let res ← (cellPixels s g_size i j).foldlM
    (fun (acc : Option (Nat × Nat) × R) p => do
      let m ← s.mask[p.1 * s.width + p.2]?
      if !m then pure acc
      else
        let var ← s.vMap[p.1 * s.width + p.2]?
        pure (if var < acc.2 then (some p, var) else acc))
    (none, vmin0)
  pure res.1

/-- What the second pass leaves behind: `ipos`/`jpos` as a list of pixels, the
two clouds, and the triplets for `MASK`. -/
structure GridPoints (R : Type) where
  pos : List (Nat × Nat)
  cloud3d : List (List R)
  cloud6d : List (List R)
  maskTriplets : List (Nat × Nat × R)

/-- The second pass over the cells ("building kd-tree"). -/
def gridPoints [LT R] [DecidableRel (fun a b : R => a < b)] [One R]
    (env : LleEnv R) (s : IntrinsicDecomposition R) (g_size : Nat) : Option (GridPoints R) :=
  (cells s g_size).foldlM
    (fun (gp : GridPoints R) c => do
      let pick ← pickPixel s env.vmin0 g_size c.1 c.2
      match pick with
      | none => pure gp
      | some p =>
        let n ← triple s s.nMap p.1 p.2
        let xyz ← triple s s.points p.1 p.2
        let idx ← s.index[p.1 * s.width + p.2]?
        pure { pos := gp.pos ++ [p],
               cloud3d := gp.cloud3d ++ [n],
               cloud6d := gp.cloud6d ++ [n ++ xyz.map env.toByte],
               maskTriplets := gp.maskTriplets ++ [(idx, idx, 1)] })
    { pos := [], cloud3d := [], cloud6d := [], maskTriplets := [] }

/-- Models `for (k = 0; k < K; k++) ws += w(k, c);` with `ws` starting at 0. -/
def sumColumn [Zero R] [Add R] (w : Mat1d R) (c : Nat) : Nat → Option R
  | 0 => some 0
  | k + 1 => do
    let ws ← sumColumn w c k
    let x ← w.at k c
    pure (ws + x)

/-- The body of the loop over the grid points, the same text in both halves of
`getGridLLEMatrix`: from the search result `nn` for grid point `i` it builds
`z`, `C = z * z.t() + tol * trace(C) * eye`, has `C w = 1` solved, sums
`w(k, 1)` into `ws` and returns the triplets
`(index[p], index[q], -w(kk++, 1) / ws)` of the neighbours other than `i`. -/
def lleRow [Field R] (env : LleEnv R) (s : IntrinsicDecomposition R) (K : Nat)
    (pos : List (Nat × Nat)) (i : Nat) (nn : List Nat) : Option (List (Nat × Nat × R)) := do
  let found ← (List.range (K + 1)).mapM (fun k => nn[k]?)
  let others := found.filter (fun nk => nk ≠ i)
  if K < others.length then none
  else
    let pi ← pos[i]?
    let ni ← triple s s.nMap pi.1 pi.2
    let zrows ← others.mapM (fun nk => do
      let pk ← pos[nk]?
      let nk3 ← triple s s.nMap pk.1 pk.2
      pure (List.zipWith (fun a b => a - b) nk3 ni))
    let z := zrows ++ List.replicate (K - others.length) [0, 0, 0]
    let C0 := z.map (fun a => z.map (fun b => (List.zipWith (fun x y => x * y) a b).sum))
    let t := ((List.range K).filterMap (fun k => (C0[k]?).bind (fun row => row[k]?))).sum
    let C := C0.enum.map (fun a => a.2.enum.map (fun b =>
      if a.1 = b.1 then b.2 + env.tol * t else b.2))
    let w : Mat1d R := { rows := K, cols := 1, data := env.solve K C }
    let ws ← sumColumn w 1 K
    let p := pi.1 * s.width + pi.2
    others.enum.mapM (fun e => do
      let pk ← pos[e.2]?
      let q := pk.1 * s.width + pk.2
      let x ← w.at e.1 1
      let ip ← s.index[p]?
      let iq ← s.index[q]?
      pure (ip, iq, -x / ws))

/-- One of the two loops `for (i = 0; i < Ngrid; i++)` with the diagonal added
after it: the triplet list `tp` handed to `setFromTriplets`. -/
def lleTriplets [Field R] (env : LleEnv R) (s : IntrinsicDecomposition R) (K Ngrid : Nat)
    (pos : List (Nat × Nat)) (cloud : List (List R)) : Option (List (Nat × Nat × R)) := do
  let rows ← (List.range Ngrid).mapM (fun i =>
    lleRow env s K pos i (env.nearestKSearch cloud i (K + 1)))
  pure (rows.flatten ++ (List.range s.dims).map (fun i => (i, i, 1)))

/-- Models `IntrinsicDecomposition::getGridLLEMatrix(K, g_size)`. The clouds
are resized to `Ngrid` points, so cells that were skipped in the second pass
leave default points at the end. The matrix statements are, in this order:
`MASK.setFromTriplets(tp)` after the second pass,
`LLEGRID.setFromTriplets(tp)` after the loop headed "for LLENORMAL", and
`LLEGRID.setFromTriplets(tp)` after the loop headed "for LLEGRID". `none` when
`g_size` is 0 (the cell loops do not advance) or on a read outside an array. -/
def getGridLLEMatrix [LinearOrderedField R] (env : LleEnv R) (K g_size : Nat)
    (s : IntrinsicDecomposition R) : Option (IntrinsicDecomposition R) :=
  if g_size = 0 then none
  else
    match countGrid s g_size, gridPoints env s g_size with
    | some Ngrid, some gp =>
      let cloud3d := gp.cloud3d ++ List.replicate (Ngrid - gp.pos.length) [0, 0, 0]
      let cloud6d := gp.cloud6d ++ List.replicate (Ngrid - gp.pos.length) [0, 0, 0, 0, 0, 0]
      let s1 := { s with MASK := s.MASK.setFromTriplets gp.maskTriplets }
      match lleTriplets env s1 K Ngrid gp.pos cloud3d with
      | none => none
      | some tp1 =>
        let s2 := { s1 with LLEGRID := s1.LLEGRID.setFromTriplets tp1 }
        match lleTriplets env s2 K Ngrid gp.pos cloud6d with
        | none => none
        | some tp2 => some { s2 with LLEGRID := s2.LLEGRID.setFromTriplets tp2 }
    | _, _ => none

end IntrinsicDecomposition

end Telef

namespace Telef

/-! ## Invariant of the FeatureDetectionClientPipe -/

/-- The connection invariant of `FeatureDetectionClientPipe`: `isConnected`
implies that `clientSocket` is not null. -/
def FeatureDetectionClientPipe.Connected {R : Type} (p : FeatureDetectionClientPipe R) :
    Prop :=
  p.isConnected = true → p.clientSocket ≠ none

end Telef

namespace Telef

/-! ## FittingVisualizer::drawCorrespondence -/

namespace FittingVisualizer

/-- Models `std::copy_n(src.data() + so, 3, dst.data() + d)`: three elements read
from `src` and written to `dst`; `none` when a read or a write lies outside its
list. -/
def copy3 {R : Type} (src : List R) (so : Nat) (dst : List R) (d : Nat) : Option (List R) :=
  match src[so]?, src[so + 1]?, src[so + 2]? with
  | some x0, some x1, some x2 =>
    if d + 2 < dst.length then some (((dst.set d x0).set (d + 1) x1).set (d + 2) x2)
    else none
  | _, _, _ => none

/-- The first `m` rounds of the loop of `drawCorrespondence`:
```
for (int i = 0; i < pointSet1.size() / 3; i++) {
  std::copy_n(pointSet1.data() + (3 * i), 3, corrLines.data() + (6 * i));
  std::copy_n(pointSet2.data() + (3 * i), 3, corrLines.data() + (6 * i + 3));
}
```
-/
def corrLoop {R : Type} (pointSet1 pointSet2 : List R) : Nat → List R → Option (List R)
  | 0, corrLines => some corrLines
  | i + 1, corrLines =>
    match corrLoop pointSet1 pointSet2 i corrLines with
    | none => none
    | some c =>
      match copy3 pointSet1 (3 * i) c (6 * i) with
      | none => none
      | some c1 => copy3 pointSet2 (3 * i) c1 (6 * i + 3)

/-- Models `FittingVisualizer::drawCorrespondence`, up to the vertex list
`corrLines` that is handed to `glBufferData`: `corrLines.resize(size * 2)`
fills it with zeros, `assert(pointSet1.size() == pointSet2.size())` stops the
call on lists of different length, then the loop runs `size / 3` rounds. -/
def drawCorrespondence {R : Type} [Zero R] (pointSet1 pointSet2 : List R) :
    Option (List R) :=
  let corrLines : List R := List.replicate (pointSet1.length * 2) 0
  if pointSet1.length ≠ pointSet2.length then none
  else corrLoop pointSet1 pointSet2 (pointSet1.length / 3) corrLines

end FittingVisualizer

end Telef

namespace Telef

/-! ## IntrinsicDecomposition: getMask -/

namespace IntrinsicDecomposition

variable {R : Type}

/-- The pixels of a `width` by `height` image as `(i, j)` = (row, column), in
the order of the loops `for (i = 0; i < height; i++) for (j = 0; j < width; j++)`. -/
def pixels (width height : Nat) : List (Nat × Nat) :=
  (List.range height).flatMap (fun i => (List.range width).map (fun j => (i, j)))

/-- Models `const uint16_t INVALID = 65535;`. -/
def INVALID : Nat := 65535

/-- The body of the loops of `getMask` for the pixel `p = (i, j)`, with the
local counter `n` carried next to the object:
```
mask[i*width+j] = (_depth[i*width+j] != INVALID);
if (mask[i*width+j]) {
  index[i*width+j] = n++;
  indexMapping.push_back(std::make_pair(i, j));
}
```
`none` when the read of `_depth` or a write to `mask` or `index` lies outside
the array. -/
def maskStep (width : Nat) (depth : List Nat) (st : IntrinsicDecomposition R × Nat)
    (p : Nat × Nat) : Option (IntrinsicDecomposition R × Nat) :=
  let s := st.1
  let n := st.2
  let k := p.1 * width + p.2
  match depth[k]? with
  | none => none
  | some d =>
    if k < s.mask.length then
      let valid := decide (d ≠ INVALID)
      let s1 := { s with mask := s.mask.set k valid }
      if valid then
        if k < s1.index.length then
          some ({ s1 with index := s1.index.set k n,
                          indexMapping := s1.indexMapping ++ [p] }, n + 1)
        else none
      else some (s1, n)
    else none

/-- Models `IntrinsicDecomposition::getMask(_depth)`: `int n = 0;` and the two
loops over the pixels. -/
def getMask (s : IntrinsicDecomposition R) (depth : List Nat) :
    Option (IntrinsicDecomposition R) :=
  ((pixels s.width s.height).foldlM (maskStep s.width depth) (s, 0)).map (fun st => st.1)

/-- Whether the depth image marks the pixel `p` as valid: its sample is there
and is not `INVALID`. -/
def validDepth (width : Nat) (depth : List Nat) (p : Nat × Nat) : Bool :=
  match depth[p.1 * width + p.2]? with
  | some d => decide (d ≠ INVALID)
  | none => false

end IntrinsicDecomposition

end Telef

namespace Telef

/-! ## IntrinsicDecomposition: the window sums of getVarianceMap and getLaplacian -/

namespace IntrinsicDecomposition

variable {R : Type}

/-- The values a loop variable takes in `for (k = -p_size; k <= p_size; k++)`: none when
`p_size` is negative. -/
def windowRange (p_size : Int) : List Int :=
  (List.range (2 * p_size + 1).toNat).map (fun (t : Nat) => (t : Int) - p_size)

/-- The locals `cnt`, `p[3]` and `pp` of `getVarianceMap`. -/
structure VarianceSums (R : Type) where
  cnt : Nat
  p0 : R
  p1 : R
  p2 : R
  pp : R

/-- Models the body of the two inner loops of `getVarianceMap` at pixel (i, j) and offset
(k, l): a cell outside the image or masked out is skipped; otherwise the three normal
components are added to `p`, their squares to `pp`, and `cnt` is incremented. The mask is read
only for a cell inside the image. A read outside an array is undefined. -/
def varianceCell [Field R] (s : IntrinsicDecomposition R) (i j : Nat) (acc : VarianceSums R)
    (kl : Int × Int) : Option (VarianceSums R) :=
  let qi : Int := (i : Int) + kl.1
  let qj : Int := (j : Int) + kl.2
  if qi < 0 ∨ qi ≥ (s.height : Int) ∨ qj < 0 ∨ qj ≥ (s.width : Int) then some acc
  else
    match s.mask[(qi * (s.width : Int) + qj).toNat]? with
    | none => none
    | some false => some acc
    | some true =>
      match s.nMap[(3 * qi * (s.width : Int) + 3 * qj + 0).toNat]?,
          s.nMap[(3 * qi * (s.width : Int) + 3 * qj + 1).toNat]?,
          s.nMap[(3 * qi * (s.width : Int) + 3 * qj + 2).toNat]? with
      | some v0, some v1, some v2 =>
        some { cnt := acc.cnt + 1
               p0 := acc.p0 + v0
               p1 := acc.p1 + v1
               p2 := acc.p2 + v2
               pp := acc.pp + v0 * v0 + v1 * v1 + v2 * v2 }
      | _, _, _ => none

/-- Models the two inner loops of `getVarianceMap` at pixel (i, j), from `cnt = 0`,
`p = {0, 0, 0}` and `pp = 0`. -/
def varianceWindow [Field R] (s : IntrinsicDecomposition R) (p_size : Int) (i j : Nat) :
    Option (VarianceSums R) :=
  ((windowRange p_size).flatMap (fun k => (windowRange p_size).map (fun l => (k, l)))).foldlM
    (varianceCell s i j) { cnt := 0, p0 := 0, p1 := 0, p2 := 0, pp := 0 }

/-- Models the body of the pixel loops of `getVarianceMap`: a masked-out pixel is skipped;
otherwise the window sums are divided by `cnt` and the variance is stored in `vMap`. -/
def varianceStep [Field R] (p_size : Int) (s : IntrinsicDecomposition R) (p : Nat × Nat) :
    Option (IntrinsicDecomposition R) :=
  match s.mask[p.1 * s.width + p.2]? with
  | none => none
  | some false => some s
  | some true =>
    match varianceWindow s p_size p.1 p.2 with
    | none => none
    | some a =>
      let pp := a.pp / (a.cnt : R)
      let p0 := a.p0 / (a.cnt : R)
      let p1 := a.p1 / (a.cnt : R)
      let p2 := a.p2 / (a.cnt : R)
      if s.width * p.1 + p.2 < s.vMap.length then
        some { s with vMap := s.vMap.set (s.width * p.1 + p.2)
                                (pp - p0 * p0 - p1 * p1 - p2 * p2) }
      else none

/-- Models `IntrinsicDecomposition::getVarianceMap(int patch_size)`; `patch_size / 2` is the
truncating division of C. -/
def getVarianceMap [Field R] (s : IntrinsicDecomposition R) (patch_size : Int) :
    Option (IntrinsicDecomposition R) :=
  let p_size := Int.tdiv patch_size 2
  (pixels s.width s.height).foldlM (varianceStep p_size) s

/-- The offset tables `nx` and `ny` of `getLaplacian`, paired. -/
def laplacianOffsets : List (Int × Int) :=
  [(0, 0), (0, 1), (0, -1), (1, 0), (-1, 0), (-1, -1), (1, 1), (1, -1), (-1, 1)]

/-- The locals of `getLaplacian` after the gathering loop: `cnt`, the first `cnt` entries of
`pp` and of `win`, and `mu`. -/
structure LaplacianWindow (R : Type) where
  cnt : Nat
  pp : List Nat
  win : List (R × R × R)
  mu0 : R
  mu1 : R
  mu2 : R

/-- Models the body of the loop over `k` in `getLaplacian` at pixel (i, j): a neighbour outside
the image or masked out is skipped; otherwise its index goes to `pp[cnt]`, its colour to
`win[cnt]` and into `mu`, and `cnt` is incremented. -/
def laplacianCell [Field R] (s : IntrinsicDecomposition R) (i j : Nat)
    (acc : LaplacianWindow R) (d : Int × Int) : Option (LaplacianWindow R) :=
  let qi : Int := (i : Int) + d.1
  let qj : Int := (j : Int) + d.2
  let q : Int := qi * (s.width : Int) + qj
  if qi < 0 ∨ qj < 0 ∨ qi ≥ (s.height : Int) ∨ qj ≥ (s.width : Int) then some acc
  else
    match s.mask[q.toNat]? with
    | none => none
    | some false => some acc
    | some true =>
      match s.index[q.toNat]?, s.color[(3 * q + 0).toNat]?, s.color[(3 * q + 1).toNat]?,
          s.color[(3 * q + 2).toNat]? with
      | some ix, some c0, some c1, some c2 =>
        some { cnt := acc.cnt + 1
               pp := acc.pp ++ [ix]
               win := acc.win ++ [(c0, c1, c2)]
               mu0 := acc.mu0 + c0
               mu1 := acc.mu1 + c1
               mu2 := acc.mu2 + c2 }
      | _, _, _, _ => none

/-- Models the gathering loop of `getLaplacian` at pixel (i, j), from `cnt = 0` and
`mu = {0, 0, 0}`. -/
def laplacianGather [Field R] (s : IntrinsicDecomposition R) (i j : Nat) :
    Option (LaplacianWindow R) :=
  laplacianOffsets.foldlM (laplacianCell s i j)
    { cnt := 0, pp := [], win := [], mu0 := 0, mu1 := 0, mu2 := 0 }

/-- Models the gathering loop of `getLaplacian` followed by `mu[m] /= cnt`. -/
def laplacianMean [Field R] (s : IntrinsicDecomposition R) (i j : Nat) :
    Option (LaplacianWindow R) :=
  (laplacianGather s i j).map (fun a =>
    { a with mu0 := a.mu0 / (a.cnt : R), mu1 := a.mu1 / (a.cnt : R), mu2 := a.mu2 / (a.cnt : R) })

end IntrinsicDecomposition

end Telef

namespace Telef

/-! ## IntrinsicDecomposition: getNormalConstraintMatrix and getContinuousConstraintMatrix -/

/-- The functions of the C library that the constraint weights go through, over exact
scalars: `std::exp`, `std::log`, `std::sqrt` and `std::isnan`. -/
structure Libm (R : Type) where
  exp : R → R
  log : R → R
  sqrt : R → R
  isnan : R → Bool

namespace IntrinsicDecomposition

variable {R : Type}

/-- The offset tables `nx` and `ny` of `getNormalConstraintMatrix` and of
`getContinuousConstraintMatrix`, paired. -/
def constraintOffsets : List (Int × Int) :=
  [(0, 1), (0, -1), (1, 0), (-1, 0), (-1, -1), (1, 1), (1, -1), (-1, 1)]

/-- Models the body of the loop over `k` in `getNormalConstraintMatrix` at pixel (i, j) with
normal `np`: a neighbour outside the image or masked out is skipped; otherwise the weight is
computed from the two normals and four triplets are pushed. A read outside an array is
undefined. -/
def normalCell [Field R] (lib : Libm R) (sig_n : R) (s : IntrinsicDecomposition R)
    (i j : Nat) (np : R × R × R) (tp : List (Nat × Nat × R)) (d : Int × Int) :
    Option (List (Nat × Nat × R)) :=
  let qi : Int := (i : Int) + d.1
  let qj : Int := (j : Int) + d.2
  if qi < 0 ∨ qj < 0 ∨ qi ≥ (s.height : Int) ∨ qj ≥ (s.width : Int) then some tp
  else
    match s.mask[(qi * (s.width : Int) + qj).toNat]? with
    | none => none
    | some false => some tp
    | some true =>
      match s.nMap[(3 * qi * (s.width : Int) + 3 * qj + 0).toNat]?,
          s.nMap[(3 * qi * (s.width : Int) + 3 * qj + 1).toNat]?,
          s.nMap[(3 * qi * (s.width : Int) + 3 * qj + 2).toNat]?,
          s.index[i * s.width + j]?,
          s.index[(qi * (s.width : Int) + qj).toNat]? with
      | some nq0, some nq1, some nq2, some p, some q =>
        let dist : R := 2 * (1 - (np.1 * nq0 + np.2.1 * nq1 + np.2.2 * nq2))
        let weight0 : R := lib.exp (-dist * dist / (sig_n * sig_n))
        let weight : R := if lib.isnan weight0 then 0 else weight0
        some (tp ++ [(p, p, weight), (q, q, weight), (p, q, -weight), (q, p, -weight)])
      | _, _, _, _, _ => none

/-- Models the body of the loop over `it` in `getNormalConstraintMatrix` for the pixel
`indexMapping[it]`. -/
def normalPixel [Field R] (lib : Libm R) (sig_n : R) (s : IntrinsicDecomposition R)
    (tp : List (Nat × Nat × R)) (ij : Nat × Nat) : Option (List (Nat × Nat × R)) :=
  match s.mask[ij.1 * s.width + ij.2]? with
  | none => none
  | some false => some tp
  | some true =>
    match s.nMap[3 * ij.1 * s.width + 3 * ij.2 + 0]?,
        s.nMap[3 * ij.1 * s.width + 3 * ij.2 + 1]?,
        s.nMap[3 * ij.1 * s.width + 3 * ij.2 + 2]? with
    | some np0, some np1, some np2 =>
      constraintOffsets.foldlM (normalCell lib sig_n s ij.1 ij.2 (np0, np1, np2)) tp
    | _, _, _ => none

/-- Models `IntrinsicDecomposition::getNormalConstraintMatrix(double sig_n)`. A triplet that
names a cell outside `WSC` is undefined in `setFromTriplets`. -/
def getNormalConstraintMatrix [Field R] (lib : Libm R) (sig_n : R)
    (s : IntrinsicDecomposition R) : Option (IntrinsicDecomposition R) :=
  match s.indexMapping.foldlM (normalPixel lib sig_n s) [] with
  | none => none
  | some tp =>
    if tp.all (fun e => decide (e.1 < s.WSC.rows) && decide (e.2.1 < s.WSC.cols)) then
      some { s with WSC := s.WSC.setFromTriplets tp }
    else none

/-- Models the log-intensity of a colour in `getContinuousConstraintMatrix`:
`log(max(sqrt(r*r + g*g + b*b), 0.00001))`. -/
def logIntensity [LinearOrderedField R] (lib : Libm R) (ip : R × R × R) : R :=
  let l0 : R := lib.sqrt (ip.1 * ip.1 + ip.2.1 * ip.2.1 + ip.2.2 * ip.2.2)
  let l1 : R := if l0 < 1 / 100000 then 1 / 100000 else l0
  lib.log l1

/-- Models the body of the loop over `k` in `getContinuousConstraintMatrix` at pixel (i, j)
with chromaticity `cp` and log-intensity `lp`; the state is the triplet list and
`consVecCont`. -/
def continuousCell [LinearOrderedField R] (lib : Libm R) (sig_c sig_i : R)
    (s : IntrinsicDecomposition R) (i j : Nat) (cp : R × R × R) (lp : R)
    (st : List (Nat × Nat × R) × List R) (d : Int × Int) :
    Option (List (Nat × Nat × R) × List R) :=
  let qi : Int := (i : Int) + d.1
  let qj : Int := (j : Int) + d.2
  if qi < 0 ∨ qj < 0 ∨ qi ≥ (s.height : Int) ∨ qj ≥ (s.width : Int) then some st
  else
    match s.mask[(qi * (s.width : Int) + qj).toNat]? with
    | none => none
    | some false => some st
    | some true =>
      match s.chrom[(3 * qi * (s.width : Int) + 3 * qj + 0).toNat]?,
          s.chrom[(3 * qi * (s.width : Int) + 3 * qj + 1).toNat]?,
          s.chrom[(3 * qi * (s.width : Int) + 3 * qj + 2).toNat]?,
          s.color[(3 * qi * (s.width : Int) + 3 * qj + 0).toNat]?,
          s.color[(3 * qi * (s.width : Int) + 3 * qj + 1).toNat]?,
          s.color[(3 * qi * (s.width : Int) + 3 * qj + 2).toNat]?,
          s.index[i * s.width + j]?,
          s.index[(qi * (s.width : Int) + qj).toNat]? with
      | some cq0, some cq1, some cq2, some iq0, some iq1, some iq2, some p, some q =>
        let lq : R := logIntensity lib (iq0, iq1, iq2)
        let dist : R := 2 * (1 - (cp.1 * cq0 + cp.2.1 * cq1 + cp.2.2 * cq2))
        let weight0 : R :=
          1 + lib.exp (-lib.exp lp * lib.exp lp / (sig_i * sig_i)
                        - lib.exp lq * lib.exp lq / (sig_i * sig_i))
        let weight1 : R := weight0 * lib.exp (-dist * dist / (sig_c * sig_c))
        let weight : R := if lib.isnan weight1 then 0 else weight1
        let dI : R := lp - lq
        match st.2[p]? with
        | none => none
        | some x =>
          let cv1 := st.2.set p (x + weight * dI)
          match cv1[q]? with
          | none => none
          | some y =>
            some (st.1 ++ [(p, p, weight), (q, q, weight), (p, q, -weight), (q, p, -weight)],
              cv1.set q (y - weight * dI))
      | _, _, _, _, _, _, _, _ => none

/-- Models the body of the loop over `it` in `getContinuousConstraintMatrix` for the pixel
`indexMapping[it]`. -/
def continuousPixel [LinearOrderedField R] (lib : Libm R) (sig_c sig_i : R)
    (s : IntrinsicDecomposition R) (st : List (Nat × Nat × R) × List R) (ij : Nat × Nat) :
    Option (List (Nat × Nat × R) × List R) :=
  match s.mask[ij.1 * s.width + ij.2]? with
  | none => none
  | some false => some st
  | some true =>
    match s.chrom[3 * ij.1 * s.width + 3 * ij.2 + 0]?,
        s.chrom[3 * ij.1 * s.width + 3 * ij.2 + 1]?,
        s.chrom[3 * ij.1 * s.width + 3 * ij.2 + 2]?,
        s.color[3 * ij.1 * s.width + 3 * ij.2 + 0]?,
        s.color[3 * ij.1 * s.width + 3 * ij.2 + 1]?,
        s.color[3 * ij.1 * s.width + 3 * ij.2 + 2]? with
    | some cp0, some cp1, some cp2, some ip0, some ip1, some ip2 =>
      constraintOffsets.foldlM
        (continuousCell lib sig_c sig_i s ij.1 ij.2 (cp0, cp1, cp2)
          (logIntensity lib (ip0, ip1, ip2))) st
    | _, _, _, _, _, _ => none

/-- Models `IntrinsicDecomposition::getContinuousConstraintMatrix(double sig_c, double
sig_i)`. A triplet that names a cell outside `WRC` is undefined in `setFromTriplets`. -/
def getContinuousConstraintMatrix [LinearOrderedField R] (lib : Libm R) (sig_c sig_i : R)
    (s : IntrinsicDecomposition R) : Option (IntrinsicDecomposition R) :=
  match s.indexMapping.foldlM (continuousPixel lib sig_c sig_i s) ([], s.consVecCont) with
  | none => none
  | some st =>
    if st.1.all (fun e => decide (e.1 < s.WRC.rows) && decide (e.2.1 < s.WRC.cols)) then
      some { s with WRC := s.WRC.setFromTriplets st.1, consVecCont := st.2 }
    else none

/-- Modelled from the spec: the neighbour of pixel `ij` at offset `d`, when it lies inside the
image and is masked valid. -/
def neighbourOf (s : IntrinsicDecomposition R) (ij : Nat × Nat) (d : Int × Int) :
    Option (Nat × Nat) :=
  let qi : Int := (ij.1 : Int) + d.1
  let qj : Int := (ij.2 : Int) + d.2
  if 0 ≤ qi ∧ 0 ≤ qj ∧ qi < (s.height : Int) ∧ qj < (s.width : Int) ∧
      s.mask[qi.toNat * s.width + qj.toNat]? = some true then
    some (qi.toNat, qj.toNat)
  else none

/-- Modelled from the spec: the valid pixels among the 8 neighbours of pixel `ij`, in the
order of the offset table. -/
def validNeighbours (s : IntrinsicDecomposition R) (ij : Nat × Nat) : List (Nat × Nat) :=
  constraintOffsets.filterMap (neighbourOf s ij)

/-- Modelled from the spec: the three values that a per-pixel array of triples holds for
pixel `p`. -/
def tripleAt [Zero R] (a : List R) (width : Nat) (p : Nat × Nat) : R × R × R :=
  ((a[3 * p.1 * width + 3 * p.2 + 0]?).getD 0, (a[3 * p.1 * width + 3 * p.2 + 1]?).getD 0,
    (a[3 * p.1 * width + 3 * p.2 + 2]?).getD 0)

/-- Modelled from the spec: the solver unknown of pixel `p`. -/
def indexAt (s : IntrinsicDecomposition R) (p : Nat × Nat) : Nat :=
  (s.index[p.1 * s.width + p.2]?).getD 0

/-- Modelled from the spec: the weight that `getNormalConstraintMatrix` gives a pair of
pixels with normals `np` and `nq`. -/
def normalWeight [Field R] (lib : Libm R) (sig_n : R) (np nq : R × R × R) : R :=
  let dist : R := 2 * (1 - (np.1 * nq.1 + np.2.1 * nq.2.1 + np.2.2 * nq.2.2))
  let weight0 : R := lib.exp (-dist * dist / (sig_n * sig_n))
  if lib.isnan weight0 then 0 else weight0

/-- Modelled from the spec: the 8-neighbour valid pixel pairs of `getNormalConstraintMatrix`
with their weights, as triples (unknown of p, unknown of q, weight): p runs through the
pixels of `indexMapping` that are masked valid, q through the valid neighbours of p. -/
def normalPairs [Field R] (lib : Libm R) (sig_n : R) (s : IntrinsicDecomposition R) :
    List (Nat × Nat × R) :=
  s.indexMapping.flatMap (fun p =>
    if s.mask[p.1 * s.width + p.2]? = some true then
      (validNeighbours s p).map (fun q =>
        (indexAt s p, indexAt s q,
          normalWeight lib sig_n (tripleAt s.nMap s.width p) (tripleAt s.nMap s.width q)))
    else [])

/-- Modelled from the spec: the weight that `getContinuousConstraintMatrix` gives a pair of
pixels with chromaticities `cp`, `cq` and colours `ip`, `iq`. -/
def continuousWeight [LinearOrderedField R] (lib : Libm R) (sig_c sig_i : R)
    (cp cq ip iq : R × R × R) : R :=
  let lp : R := logIntensity lib ip
  let lq : R := logIntensity lib iq
  let dist : R := 2 * (1 - (cp.1 * cq.1 + cp.2.1 * cq.2.1 + cp.2.2 * cq.2.2))
  let weight0 : R :=
    1 + lib.exp (-lib.exp lp * lib.exp lp / (sig_i * sig_i)
                  - lib.exp lq * lib.exp lq / (sig_i * sig_i))
  let weight1 : R := weight0 * lib.exp (-dist * dist / (sig_c * sig_c))
  if lib.isnan weight1 then 0 else weight1

/-- Modelled from the spec: the 8-neighbour valid pixel pairs of
`getContinuousConstraintMatrix` with their weights. -/
def continuousPairs [LinearOrderedField R] (lib : Libm R) (sig_c sig_i : R)
    (s : IntrinsicDecomposition R) : List (Nat × Nat × R) :=
  s.indexMapping.flatMap (fun p =>
    if s.mask[p.1 * s.width + p.2]? = some true then
      (validNeighbours s p).map (fun q =>
        (indexAt s p, indexAt s q,
          continuousWeight lib sig_c sig_i (tripleAt s.chrom s.width p)
            (tripleAt s.chrom s.width q) (tripleAt s.color s.width p)
            (tripleAt s.color s.width q)))
    else [])

/-- The coordinate `a` of the unit vector `e_p`. -/
def unitVec [Field R] (p a : Nat) : R := if p = a then 1 else 0

/-- The four triplets that both constraint functions push for a pixel pair of indices
`e.1`, `e.2.1` and weight `e.2.2`. -/
def quad [Field R] (e : Nat × Nat × R) : List (Nat × Nat × R) :=
  [(e.1, e.1, e.2.2), (e.2.1, e.2.1, e.2.2), (e.1, e.2.1, -e.2.2), (e.2.1, e.1, -e.2.2)]

end IntrinsicDecomposition

end Telef

namespace Telef

/-! ## FittingVisualizer: the mailbox functions step by step, and who accesses what -/

namespace FittingVisualizer

variable {Fr R D : Type}

/-- One access to the mailbox as it happens: which access it is, and whether `renderMutex`
is held in the state right before and right after it. -/
structure Event where
  access : Access
  heldBefore : Bool
  heldAfter : Bool
  deriving DecidableEq, Repr

/-- An event respects the mutex: a lock takes a free mutex and leaves it held, an unlock
releases a held mutex, and a read or write of `renderTarget` happens with the mutex held
before and after. -/
def Event.respectsMutex (e : Event) : Bool :=
  match e.access with
  | Access.lock => !e.heldBefore && e.heldAfter
  | Access.unlock => e.heldBefore && !e.heldAfter
  | Access.read => e.heldBefore && e.heldAfter
  | Access.write => e.heldBefore && e.heldAfter

/-- A piece of a member function run on a state: nothing when it never returns, otherwise
its value, the state afterwards and the events in order. -/
abbrev Steps (Fr R D α : Type) :=
  FittingVisualizer Fr R D → Option (α × FittingVisualizer Fr R D × List Event)

/-- A piece that does nothing and yields `a`. -/
def Steps.done {α : Type} (a : α) : Steps Fr R D α := fun s => some (a, s, [])

/-- Sequencing: `m`, then `k` on what `m` yields. -/
def Steps.andThen {α β : Type} (m : Steps Fr R D α) (k : α → Steps Fr R D β) :
    Steps Fr R D β := fun s =>
  match m s with
  | none => none
  | some (a, s1, ev1) =>
    match k a s1 with
    | none => none
    | some (b, s2, ev2) => some (b, s2, ev1 ++ ev2)

/-- The statement `renderMutex.lock();`, recorded with the state of the mutex around it. -/
def lockStep : Steps Fr R D Unit := fun s =>
  match s.lock with
  | none => none
  | some s1 => some ((), s1, [⟨Access.lock, s.renderMutex, s1.renderMutex⟩])

/-- The statement `renderMutex.unlock();`. -/
def unlockStep : Steps Fr R D Unit := fun s =>
  some ((), s.unlock, [⟨Access.unlock, s.renderMutex, s.unlock.renderMutex⟩])

/-- A read of `renderTarget`. -/
def readTarget : Steps Fr R D (InputPtrT Fr) := fun s =>
  some (s.renderTarget, s, [⟨Access.read, s.renderMutex, s.renderMutex⟩])

/-- The assignment `renderTarget = v;`. -/
def writeTarget (v : InputPtrT Fr) : Steps Fr R D Unit := fun s =>
  some ((), { s with renderTarget := v },
    [⟨Access.write, s.renderMutex,
      ({ s with renderTarget := v } : FittingVisualizer Fr R D).renderMutex⟩])

/-- The body of `FittingVisualizer::process`, statement by statement. -/
def processSteps (input : InputPtrT Fr) : Steps Fr R D Unit :=
  lockStep.andThen fun _ =>
  (writeTarget input).andThen fun _ =>
  unlockStep

/-- The body of `FittingVisualizer::safeGetInput`, statement by statement: the test
`!renderTarget` reads the slot; on an empty slot the function unlocks and returns null,
otherwise it copies the slot, clears it, unlocks and returns the copy. -/
def safeGetInputSteps : Steps Fr R D (InputPtrT Fr) :=
  lockStep.andThen fun _ =>
  readTarget.andThen fun t =>
  match t with
  | none => unlockStep.andThen fun _ => Steps.done none
  | some _ =>
    readTarget.andThen fun targetCurrFrame =>
    (writeTarget none).andThen fun _ =>
    unlockStep.andThen fun _ =>
    Steps.done targetCurrFrame

/-- Two states differ at most in the data member `f`. -/
def Field.only (f : Field) (s t : FittingVisualizer Fr R D) : Prop :=
  ∀ g : Field, g ≠ f → g.agree s t

/-- What a step on the object hands back to the thread that makes it. -/
inductive Yield (Fr : Type) where
  | unit
  | pointer (p : InputPtrT Fr)
  | cond (b : Bool)
  deriving DecidableEq, Repr

/-- A step a thread makes on the object: nothing when the step never returns, otherwise
what it hands back and the state afterwards. -/
abbrev Act (Fr R D : Type) :=
  FittingVisualizer Fr R D → Option (Yield Fr × FittingVisualizer Fr R D)

/-- The step does not access the data member `f`: started in two states that differ at
most in `f`, it returns in both or in neither, hands back the same value, leaves `f` as it
found it, and its results again differ at most in `f`. -/
def Ignores (act : Act Fr R D) (f : Field) : Prop :=
  ∀ s t : FittingVisualizer Fr R D, f.only s t →
    (act s).isSome = (act t).isSome ∧
    ∀ r1 s1 r2 t1, act s = some (r1, s1) → act t = some (r2, t1) →
      r1 = r2 ∧ f.only s1 t1 ∧ f.agree s s1 ∧ f.agree t t1

/-- The calls that reach the object from the thread that owns it: the public member
functions `process` and `stop`, and the destructor, of which the assignment
`renderRunning = false;` is modelled (the `renderThread.join()` after it waits for the render
thread to leave `render`). -/
inductive OwnerCall (Fr : Type) where
  | process (input : InputPtrT Fr)
  | stop
  | destructor

/-- What an owner-side call does to the object. -/
def OwnerCall.act : OwnerCall Fr → Act Fr R D
  | OwnerCall.process input => fun s => (s.process input).map (fun r => (Yield.unit, r.1))
  | OwnerCall.stop => fun s => some (Yield.unit, FittingVisualizer.stop s)
  | OwnerCall.destructor => fun s => some (Yield.unit, FittingVisualizer.shutdownRequest s)

/-- What the render thread does with the object inside `render`, the function that the
constructor starts on `renderThread`: it evaluates the loop condition, calls
`safeGetInput`, and runs the four callbacks when `glfwPollEvents` dispatches an event of the
window it created. -/
inductive RenderStep (Fr D : Type) where
  | loopCondition (windowShouldClose : Bool)
  | safeGetInput
  | mousePosition (xpos ypos : D)
  | mouseScroll (xoffset yoffset : D)
  | mouseButton (button action mods : Int)
  | key (key scancode action mods : Int)

/-- What a step of the render thread does to the object. -/
def RenderStep.act (ar : CameraArith R D) (meshModeCount : Int) :
    RenderStep Fr D → Act Fr R D
  | RenderStep.loopCondition windowShouldClose => fun s =>
    some (Yield.cond (renderContinues windowShouldClose s), s)
  | RenderStep.safeGetInput => fun s =>
    s.safeGetInput.map (fun r => (Yield.pointer r.2.1, r.1))
  | RenderStep.mousePosition xpos ypos => fun s =>
    some (Yield.unit, mousePositionCallback ar s xpos ypos)
  | RenderStep.mouseScroll xoffset yoffset => fun s =>
    some (Yield.unit, mouseScrollCallback ar s xoffset yoffset)
  | RenderStep.mouseButton button action mods => fun s =>
    some (Yield.unit, mouseButtonCallback s button action mods)
  | RenderStep.key k scancode action mods => fun s =>
    (keyCallback ar meshModeCount s k scancode action mods).map (fun s1 => (Yield.unit, s1))

end FittingVisualizer

end Telef

namespace Telef

/-! ## Concrete data for the examples -/

namespace Sample

/-- A 2 x 1 RGB image. -/
def image : Image := { width := 2, height := 1, data := [10, 20, 30, 40, 50, 60] }

/-- A second image, told apart from `image` by the sample detector. -/
def emptyScene : Image := { width := 2, height := 1, data := [0, 0, 0, 0, 0, 0] }

/-- The landmark matrix that the input frame carries before the pipe runs. -/
def framePoints : MatrixXf Int := { rows := 1, cols := 2, coeffs := [7, 8] }

/-- The landmarks stored in the pipe by an earlier, successful exchange. -/
def stored : MatrixXf Int := { rows := 3, cols := 1, coeffs := [1, 2, -3] }

/-- A heap with one device input, one feature and one suite referring to both. -/
def heap : Heap Int :=
  { inputs := [{ rawImage := some image }],
    features := [{ points := framePoints, boundingBox := { rect := ⟨1, 2, 3, 4⟩ } }],
    suites := [{ deviceInput := some 0, feature := some 0 }] }

/-- A pipe that is not connected and holds `stored`. -/
def idlePipe : FeatureDetectionClientPipe Int :=
  { isConnected := false, address := "lmk.sock", clientSocket := none, msg_id := 4,
    landmarks := stored }

/-- A connected pipe that holds `stored`. -/
def connectedPipe : FeatureDetectionClientPipe Int :=
  { isConnected := true, address := "lmk.sock",
    clientSocket := some { endpoint := some "lmk.sock" }, msg_id := 4, landmarks := stored }

/-- The server cannot be reached. -/
def wireDown : Wire Int :=
  { connectOk := false, sendOk := false, recvEvent := RecvEvent.raised }

/-- The request goes out, reading the response raises. -/
def wireRecvRaises : Wire Int :=
  { connectOk := true, sendOk := true, recvEvent := RecvEvent.raised }

/-- A response cut short: the parser has merged the dimensions and three
values into the message when it gives up and returns false. -/
def truncated : LmkRsp Int := { shape := [1, 3], data := [5, 6, 7] }

/-- The request goes out, the response does not parse. -/
def wireUnparsed : Wire Int :=
  { connectOk := true, sendOk := true, recvEvent := RecvEvent.parsed false truncated }

/-- A detector that finds one face in `image` and none anywhere else. -/
def detector : DlibFaceDetectionPipe Int :=
  { net := fun img =>
      if img = toDlibImage image then
        [{ rect := ⟨10, 20, 110, 140⟩, detection_confidence := 1 }]
      else [] }

/-- Two device inputs: a frame with a face, then a frame without. -/
def twoInputs : Heap Int :=
  { inputs := [{ rawImage := some image }, { rawImage := some emptyScene }],
    features := [], suites := [] }

/-- The heap after the pipe has handled the first of `twoInputs`. -/
def afterFirst : Heap Int :=
  { twoInputs with
    features := [{ points := MatrixXf.empty, boundingBox := { rect := ⟨10, 20, 110, 140⟩ } }],
    suites := [{ deviceInput := some 0, feature := some 0 }] }

/-- The heap after the pipe has handled both of `twoInputs`. -/
def afterSecond : Heap Int :=
  { twoInputs with
    features := [{ points := MatrixXf.empty, boundingBox := { rect := ⟨10, 20, 110, 140⟩ } },
                 { points := MatrixXf.empty, boundingBox := { rect := Rectangle.empty } }],
    suites := [{ deviceInput := some 0, feature := some 0 },
               { deviceInput := some 1, feature := some 1 }] }

/-- A merger over two channels: a raw sample 0 yields no frame, any other
sample yields itself; the chain pairs the two latest frames. -/
def mergerConfig : MergerConfig 2 Nat Nat (Nat × Nat) :=
  { channelPipe := fun _ r => if r = 0 then none else some r,
    chain := fun snapshot => some (snapshot 0, snapshot 1) }

/-- A chain of three stages over the integers: doubling, a stage that yields
no result on anything that is not positive, and the successor. -/
def chain : Pipe Int Int :=
  compose
    (compose (Pipe.stage "double" (fun x => some (2 * x)))
      (Pipe.stage "positive" (fun x => if 0 < x then some x else none)))
    (Pipe.stage "succ" (fun x => some (x + 1)))

/-- Stand-ins for the library calls: the search returns the first `k` points
of the cloud, the solver returns all ones. -/
def lleEnv : LleEnv ℚ :=
  { nearestKSearch := fun cloud _ k => (List.range cloud.length).take k,
    solve := fun K _ => List.replicate K 1,
    toByte := fun x => x,
    tol := 1 / 1000,
    vmin0 := 99999999999 }

/-- The state that `initialize` leaves for a 1 by 1 image whose only pixel has
a valid depth: one unknown, all matrices zero of size 1 by 1. -/
def onePixel : IntrinsicDecomposition ℚ :=
  { width := 1, height := 1, color := [1, 1, 1], chrom := [1, 1, 1], points := [0, 0, -1],
    nMap := [0, 0, 1], vMap := [0], mask := [true], index := [0], indexMapping := [(0, 0)],
    dims := 1,
    LLENORMAL := SparseMatrix.zero 1 1, LLEGRID := SparseMatrix.zero 1 1,
    WRC := SparseMatrix.zero 1 1, WSC := SparseMatrix.zero 1 1,
    MASK := SparseMatrix.zero 1 1, L_S := SparseMatrix.zero 1 1, consVecCont := [0] }

/-- The object as `initialize` has allocated it for a 2 by 2 image, before
`getMask`: `mask` and `index` hold arbitrary values, `indexMapping` is empty. -/
def fresh2x2 : IntrinsicDecomposition ℚ :=
  { width := 2, height := 2, color := [], chrom := [], points := [], nMap := [], vMap := [],
    mask := [false, false, false, false], index := [9, 9, 9, 9], indexMapping := [],
    dims := 0,
    LLENORMAL := SparseMatrix.zero 0 0, LLEGRID := SparseMatrix.zero 0 0,
    WRC := SparseMatrix.zero 0 0, WSC := SparseMatrix.zero 0 0,
    MASK := SparseMatrix.zero 0 0, L_S := SparseMatrix.zero 0 0, consVecCont := [] }

/-- The 2 by 2 image after `getMask` on depths 100, 65535, 7, 8, with normals, colours and
chromaticities filled in and three solver unknowns. -/
def masked2x2 : IntrinsicDecomposition ℚ :=
  { width := 2, height := 2,
    color := [1, 2, 3, 0, 0, 0, 4, 5, 6, 7, 8, 9],
    chrom := [1, 0, 0, 0, 0, 0, 0, 1, 0, 0, 0, 1],
    points := [],
    nMap := [1, 0, 0, 0, 0, 0, 0, 1, 0, 0, 0, 1],
    vMap := [0, 0, 0, 0],
    mask := [true, false, true, true], index := [0, 9, 1, 2],
    indexMapping := [(0, 0), (1, 0), (1, 1)],
    dims := 3,
    LLENORMAL := SparseMatrix.zero 3 3, LLEGRID := SparseMatrix.zero 3 3,
    WRC := SparseMatrix.zero 3 3, WSC := SparseMatrix.zero 3 3,
    MASK := SparseMatrix.zero 3 3, L_S := SparseMatrix.zero 3 3, consVecCont := [0, 0, 0] }

/-- A stand-in for the C library over the rationals: each function is a fixed rational map
and nothing is NaN. -/
def libm : Libm ℚ :=
  { exp := fun x => 1 + x * x, log := fun x => x - 1, sqrt := fun x => x / 2,
    isnan := fun _ => false }

end Sample

end Telef

namespace Telef

/-! ## Theorems: the FittingVisualizer mailbox -/

namespace FittingVisualizer

variable {Fr R D : Type}

theorem lock_free (s : FittingVisualizer Fr R D) (h : s.renderMutex = false) :
    s.lock = some { s with renderMutex := true } := by
  simp [lock, h]

theorem process_free (s : FittingVisualizer Fr R D) (input : InputPtrT Fr)
    (h : s.renderMutex = false) :
    s.process input =
      some ({ s with renderTarget := input }, [Access.lock, Access.write, Access.unlock]) := by
  cases s
  simp_all [process, lock, unlock]

theorem safeGetInput_free (s : FittingVisualizer Fr R D) (h : s.renderMutex = false) :
    ∃ t, s.safeGetInput = some ({ s with renderTarget := none }, s.renderTarget, t) := by
  cases s with
  | mk rr rm rt =>
    cases rt <;> simp_all [safeGetInput, lock, unlock]

theorem runFrom_eq (cs : List (Call Fr)) :
    ∀ (k : Nat) (s : FittingVisualizer Fr R D), s.renderMutex = false →
      runFrom k s cs =
        some ({ s with renderTarget := (slotRun k s.renderTarget cs).1 },
          (slotRun k s.renderTarget cs).2) := by
  induction cs with
  | nil => intro k s _; simp [runFrom, slotRun]
  | cons c cs ih =>
    intro k s h
    cases c with
    | process input =>
      have h1 : ({ s with renderTarget := input } : FittingVisualizer Fr R D).renderMutex
          = false := h
      simp only [runFrom, process_free s input h, ih (k + 1) _ h1, slotRun]
    | safeGetInput =>
      obtain ⟨t, ht⟩ := safeGetInput_free s h
      have h1 : ({ s with renderTarget := none } : FittingVisualizer Fr R D).renderMutex
          = false := h
      simp only [runFrom, ht, ih (k + 1) _ h1]
      cases hs : s.renderTarget <;> simp [slotRun]

theorem slotRun_installs (fs : List Fr) (f : Fr) (m : Nat) :
    ∀ (k : Nat) (slot : InputPtrT Fr),
      slotRun k slot ((fs ++ [f]).map (fun g => Call.process (some g)) ++
          List.replicate m Call.safeGetInput) =
        if m = 0 then (some f, []) else (none, [(k + fs.length + 1, f)]) := by
  induction fs with
  | nil =>
    intro k slot
    simp only [List.nil_append, List.map_cons, List.map_nil, List.cons_append, slotRun,
      List.length_nil, Nat.add_zero]
    cases m with
    | zero => simp [slotRun]
    | succ m =>
      have hnone : ∀ (n j : Nat),
          slotRun j (none : InputPtrT Fr) (List.replicate n Call.safeGetInput) = (none, []) := by
        intro n
        induction n with
        | zero => intro j; simp [slotRun]
        | succ n ihn => intro j; simp [List.replicate_succ, slotRun, ihn]
      simp [List.replicate_succ, slotRun, hnone]
  | cons g fs ih =>
    intro k slot
    have step : slotRun k slot (((g :: fs) ++ [f]).map (fun g => Call.process (some g)) ++
          List.replicate m Call.safeGetInput) =
        slotRun (k + 1) (some g) ((fs ++ [f]).map (fun g => Call.process (some g)) ++
          List.replicate m Call.safeGetInput) := by
      simp [slotRun]
    rw [step, ih (k + 1) (some g)]
    by_cases hm : m = 0
    · simp [hm]
    · simp only [hm, if_false, List.length_cons]
      have : k + 1 + fs.length + 1 = k + (fs.length + 1) + 1 := by omega
      rw [this]

theorem slotRun_tagFrom (cs : List (Call Fr)) :
    ∀ (k : Nat) (slot : InputPtrT (Nat × Fr)), (∀ e, slot = some e → e.1 < k) →
      ((slotRun k slot (tagFrom k cs)).2).Pairwise (fun a b => a.1 < b.1 ∧ a.2.1 < b.2.1) ∧
      ∀ e ∈ (slotRun k slot (tagFrom k cs)).2,
        k ≤ e.1 ∧ (some e.2 = slot ∨
          (k ≤ e.2.1 ∧ e.2.1 < e.1 ∧ cs[e.2.1 - k]? = some (Call.process (some e.2.2)))) := by
  induction cs with
  | nil => intro k slot _; simp [tagFrom, slotRun]
  | cons c cs ih =>
    intro k slot hslot
    cases c with
    | process input =>
      have hin : ∀ e, input.map (fun f => (k, f)) = some e → e.1 < k + 1 := by
        intro e he
        cases input with
        | none => simp at he
        | some f => simp at he; subst he; simp
      obtain ⟨hp, hall⟩ := ih (k + 1) (input.map (fun f => (k, f))) hin
      refine ⟨by simpa [tagFrom, slotRun] using hp, ?_⟩
      intro e he
      have he1 : e ∈ (slotRun (k + 1) (input.map (fun f => (k, f))) (tagFrom (k + 1) cs)).2 := by
        simpa [tagFrom, slotRun] using he
      obtain ⟨hk, hcase⟩ := hall e he1
      refine ⟨by omega, Or.inr ?_⟩
      rcases hcase with hslot1 | ⟨h1, h2, h3⟩
      · cases input with
        | none => simp at hslot1
        | some f =>
          simp only [Option.map_some', Option.some.injEq] at hslot1
          have e1 : e.2.1 = k := by rw [hslot1]
          have e2 : e.2.2 = f := by rw [hslot1]
          refine ⟨by omega, by omega, ?_⟩
          simp [e1, e2]
      · refine ⟨by omega, h2, ?_⟩
        have : e.2.1 - k = (e.2.1 - (k + 1)) + 1 := by omega
        rw [this]
        simpa using h3
    | safeGetInput =>
      have hnone : ∀ e, (none : InputPtrT (Nat × Fr)) = some e → e.1 < k + 1 := by
        intro e he; simp at he
      obtain ⟨hp, hall⟩ := ih (k + 1) none hnone
      have conv : ∀ e ∈ (slotRun (k + 1) (none : InputPtrT (Nat × Fr)) (tagFrom (k + 1) cs)).2,
          k + 1 ≤ e.1 ∧ k + 1 ≤ e.2.1 ∧ e.2.1 < e.1 ∧
            (Call.safeGetInput :: cs)[e.2.1 - k]? = some (Call.process (some e.2.2)) := by
        intro e he
        obtain ⟨hk, hcase⟩ := hall e he
        rcases hcase with hslot1 | ⟨h1, h2, h3⟩
        · simp at hslot1
        · refine ⟨hk, h1, h2, ?_⟩
          have : e.2.1 - k = (e.2.1 - (k + 1)) + 1 := by omega
          rw [this]
          simpa using h3
      cases slot with
      | none =>
        refine ⟨by simpa [tagFrom, slotRun] using hp, ?_⟩
        intro e he
        have he1 : e ∈ (slotRun (k + 1) (none : InputPtrT (Nat × Fr)) (tagFrom (k + 1) cs)).2 := by
          simpa [tagFrom, slotRun] using he
        obtain ⟨c1, c2, c3, c4⟩ := conv e he1
        exact ⟨by omega, Or.inr ⟨by omega, c3, c4⟩⟩
      | some e0 =>
        have h0 : e0.1 < k := hslot e0 rfl
        have hout : (slotRun k (some e0) (tagFrom k (Call.safeGetInput :: cs))).2 =
            (k, e0) :: (slotRun (k + 1) (none : InputPtrT (Nat × Fr)) (tagFrom (k + 1) cs)).2 := by
          simp [tagFrom, slotRun]
        rw [hout]
        refine ⟨List.pairwise_cons.mpr ⟨?_, hp⟩, ?_⟩
        · intro e he
          obtain ⟨c1, c2, _, _⟩ := conv e he
          exact ⟨by simp; omega, by simp; omega⟩
        · intro e he
          rcases List.mem_cons.mp he with heq | hmem
          · subst heq
            exact ⟨le_refl _, Or.inl rfl⟩
          · obtain ⟨c1, c2, c3, c4⟩ := conv e hmem
            exact ⟨by omega, Or.inr ⟨by omega, c3, c4⟩⟩

theorem slotRun_erase (cs : List (Call Fr)) :
    ∀ (k : Nat) (slot : InputPtrT (Nat × Fr)),
      slotRun k (slot.map Prod.snd) cs =
        ((slotRun k slot (tagFrom k cs)).1.map Prod.snd,
          (slotRun k slot (tagFrom k cs)).2.map (fun e => (e.1, e.2.2))) := by
  induction cs with
  | nil => intro k slot; simp [tagFrom, slotRun]
  | cons c cs ih =>
    intro k slot
    cases c with
    | process input =>
      have h := ih (k + 1) (input.map (fun f => (k, f)))
      have hmap : (input.map (fun f => (k, f))).map Prod.snd = input := by
        cases input <;> simp
      rw [hmap] at h
      simpa [tagFrom, slotRun] using h
    | safeGetInput =>
      have h := ih (k + 1) none
      cases slot with
      | none => simpa [tagFrom, slotRun] using h
      | some e0 =>
        simp only [Option.map_none'] at h
        simp [tagFrom, slotRun, h]

/-- C1: on every visualizer state whose mutex is free (every state between two
calls) and for every frame `f`, `process(f)` returns, and the state afterwards
is the old state with `renderTarget` replaced by `f` and nothing else changed:
`renderRunning`, the camera fields, the click anchors and `meshMode` are the
old ones, and whatever the slot held before is gone. -/
theorem process_only_installs (s : FittingVisualizer Fr R D) (f : Fr)
    (h : s.renderMutex = false) :
    s.process (some f) =
      some ({ s with renderTarget := some f },
        [Access.lock, Access.write, Access.unlock]) :=
  process_free s (some f) h

theorem process_only_installs_witness :
    (sample Nat (some 7)).renderMutex = false ∧
    (sample Nat (some 7)).process (some 9) =
      some ({ sample Nat (some 7) with renderTarget := some 9 },
        [Access.lock, Access.write, Access.unlock]) ∧
    ({ sample Nat (some 7) with renderTarget := some 9 } : FittingVisualizer Nat Int Int)
      = sample Nat (some 9) :=
  ⟨rfl, process_only_installs (sample Nat (some 7)) 9 rfl, rfl⟩

/-- C2: on every visualizer state whose mutex is free, `safeGetInput()` returns
the pointer held in `renderTarget` (null when the slot is empty) and leaves the
slot empty, all other fields untouched; on an empty slot the state is left as
it was; and a second `safeGetInput()` right after it returns null. -/
theorem safeGetInput_drains (s : FittingVisualizer Fr R D) (h : s.renderMutex = false) :
    ∃ t t2,
      s.safeGetInput = some ({ s with renderTarget := none }, s.renderTarget, t) ∧
      (s.renderTarget = none → ({ s with renderTarget := none } : FittingVisualizer Fr R D) = s) ∧
      ({ s with renderTarget := none } : FittingVisualizer Fr R D).safeGetInput =
        some ({ s with renderTarget := none }, none, t2) := by
  obtain ⟨t, ht⟩ := safeGetInput_free s h
  obtain ⟨t2, ht2⟩ := safeGetInput_free ({ s with renderTarget := none }) h
  refine ⟨t, t2, ht, ?_, ht2⟩
  intro hs
  cases s
  simp_all

theorem safeGetInput_drains_witness :
    (sample Nat (some 7)).renderMutex = false ∧
    ∃ t t2,
      (sample Nat (some 7)).safeGetInput = some (sample Nat none, some 7, t) ∧
      ((sample Nat (some 7)).renderTarget = none → sample Nat none = sample Nat (some 7)) ∧
      (sample Nat none).safeGetInput = some (sample Nat none, none, t2) :=
  ⟨rfl, safeGetInput_drains (sample Nat (some 7)) rfl⟩

/-- C3: for every non-empty sequence of frames `f_1..f_N` installed by `N`
consecutive `process` calls on a visualizer whose mutex is free, (1) after the
first `j+1` installs the slot holds exactly the one frame `f_{j+1}` and nothing
has been handed out, and (2) the `safeGetInput()` calls that follow hand out
`f_N` once, at the first of them, and nothing else: no `f_1..f_{N-1}` is ever
returned. -/
theorem last_write_wins (s : FittingVisualizer Fr R D) (h : s.renderMutex = false)
    (fs : List Fr) (hne : fs ≠ []) (m : Nat) :
    (∀ j (hj : j < fs.length),
      run s ((fs.take (j + 1)).map (fun g => Call.process (some g))) =
        some ({ s with renderTarget := some (fs.get ⟨j, hj⟩) }, [])) ∧
    run s (fs.map (fun g => Call.process (some g)) ++
        List.replicate (m + 1) Call.safeGetInput) =
      some ({ s with renderTarget := none }, [(fs.length, fs.getLast hne)]) := by
  constructor
  · intro j hj
    have htake : fs.take (j + 1) = fs.take j ++ [fs.get ⟨j, hj⟩] := by
      rw [List.take_succ]
      simp [List.getElem?_eq_getElem hj]
    have hrun := slotRun_installs (fs.take j) (fs.get ⟨j, hj⟩) 0 0 s.renderTarget
    rw [← htake] at hrun
    simp only [List.replicate_zero, List.append_nil, if_true] at hrun
    rw [run, runFrom_eq _ 0 s h, hrun]
  · have hsplit : fs = fs.dropLast ++ [fs.getLast hne] :=
      (List.dropLast_append_getLast hne).symm
    have hrun := slotRun_installs fs.dropLast (fs.getLast hne) (m + 1) 0 s.renderTarget
    rw [← hsplit] at hrun
    have hlen : 0 + fs.dropLast.length + 1 = fs.length := by
      have := List.length_dropLast fs
      have hpos : 0 < fs.length := List.length_pos.mpr hne
      omega
    rw [hlen] at hrun
    simp only [Nat.succ_ne_zero, if_false] at hrun
    rw [run, runFrom_eq _ 0 s h, hrun]

theorem last_write_wins_witness :
    (sample Nat none).renderMutex = false ∧ [4, 5, 6] ≠ ([] : List Nat) ∧
    run (sample Nat none) [Call.process (some 4), Call.process (some 5), Call.process (some 6),
        Call.safeGetInput, Call.safeGetInput] =
      some (sample Nat none, [(3, 6)]) := by
  have h := (last_write_wins (sample Nat none) rfl [4, 5, 6] (by decide) 1).2
  exact ⟨rfl, by decide, h⟩

/-- C4: take any finite sequence `cs` of `process` and `safeGetInput` calls on
a visualizer whose slot is empty and whose mutex is free, every installed frame
carrying the position of its `process` call. The run returns; its non-null
results `(j, (i, f))` (call position `j`, install position `i`, frame `f`), in
call order, have strictly increasing `j` and strictly increasing `i`; each was
installed earlier (`i < j` and call `i` of `cs` is `process(f)`); and the same
calls without the position tags return the same frames at the same calls. -/
theorem results_follow_installs (s : FittingVisualizer (Nat × Fr) R D)
    (t : FittingVisualizer Fr R D)
    (hm : s.renderMutex = false) (hs : s.renderTarget = none)
    (htm : t.renderMutex = false) (hts : t.renderTarget = none) (cs : List (Call Fr)) :
    ∃ s1 t1 out,
      run s (tagFrom 0 cs) = some (s1, out) ∧
      run t cs = some (t1, out.map (fun e => (e.1, e.2.2))) ∧
      out.Pairwise (fun a b => a.1 < b.1 ∧ a.2.1 < b.2.1) ∧
      ∀ e ∈ out, e.2.1 < e.1 ∧ cs[e.2.1]? = some (Call.process (some e.2.2)) := by
  have hno : ∀ e, (none : InputPtrT (Nat × Fr)) = some e → e.1 < 0 := by
    intro e he; simp at he
  obtain ⟨hp, hall⟩ := slotRun_tagFrom cs 0 none hno
  have her := slotRun_erase cs 0 (none : InputPtrT (Nat × Fr))
  simp only [Option.map_none'] at her
  refine ⟨{ s with renderTarget := (slotRun 0 none (tagFrom 0 cs)).1 },
    { t with renderTarget := (slotRun 0 none cs).1 },
    (slotRun 0 none (tagFrom 0 cs)).2, ?_, ?_, hp, ?_⟩
  · rw [run, runFrom_eq _ 0 s hm, hs]
  · rw [run, runFrom_eq _ 0 t htm, hts]
    rw [her]
  · intro e he
    obtain ⟨_, hcase⟩ := hall e he
    rcases hcase with h0 | ⟨_, h2, h3⟩
    · simp at h0
    · exact ⟨h2, by simpa using h3⟩

theorem results_follow_installs_witness :
    (sample (Nat × Nat) none).renderMutex = false ∧
    (sample (Nat × Nat) none).renderTarget = none ∧
    (sample Nat none).renderMutex = false ∧
    (sample Nat none).renderTarget = none ∧
    run (sample (Nat × Nat) none) (tagFrom 0 [Call.process (some 4), Call.safeGetInput,
        Call.process (some 5), Call.process (some 6), Call.safeGetInput, Call.safeGetInput]) =
      some (sample (Nat × Nat) none, [(1, (0, 4)), (4, (3, 6))]) ∧
    ∃ s1 t1 out,
      run (sample (Nat × Nat) none) (tagFrom 0 [Call.process (some 4), Call.safeGetInput,
        Call.process (some 5), Call.process (some 6), Call.safeGetInput, Call.safeGetInput]) =
        some (s1, out) ∧
      run (sample Nat none) [Call.process (some 4), Call.safeGetInput,
        Call.process (some 5), Call.process (some 6), Call.safeGetInput, Call.safeGetInput] =
        some (t1, out.map (fun e => (e.1, e.2.2))) ∧
      out.Pairwise (fun a b => a.1 < b.1 ∧ a.2.1 < b.2.1) ∧
      ∀ e ∈ out, e.2.1 < e.1 ∧
        [Call.process (some 4), Call.safeGetInput, Call.process (some 5),
          Call.process (some 6), Call.safeGetInput, Call.safeGetInput][e.2.1]? =
          some (Call.process (some e.2.2)) :=
  ⟨rfl, rfl, rfl, rfl, by decide,
    results_follow_installs (sample (Nat × Nat) none) (sample Nat none) rfl rfl rfl rfl
      [Call.process (some 4), Call.safeGetInput, Call.process (some 5),
        Call.process (some 6), Call.safeGetInput, Call.safeGetInput]⟩

end FittingVisualizer

end Telef

namespace Telef

/-! ## Theorems: the feature pipes -/

namespace FeatureDetectionClientPipe

variable {R : Type}

theorem setPoints_valid (h : Heap R) (a fa : Addr) (suite : FeatureDetectSuite)
    (feat : Feature R) (m : MatrixXf R)
    (hs : h.suites[a]? = some suite) (hf : suite.feature = some fa)
    (hfeat : h.features[fa]? = some feat) :
    h.setPoints (some a) m =
      some { h with features := h.features.set fa { feat with points := m } } := by
  simp [Heap.setPoints, hs, hf, hfeat]

theorem finish_valid (p : FeatureDetectionClientPipe R) (h : Heap R) (a fa : Addr)
    (suite : FeatureDetectSuite) (feat : Feature R) (sent : List LmkReq)
    (hs : h.suites[a]? = some suite) (hf : suite.feature = some fa)
    (hfeat : h.features[fa]? = some feat) :
    finish p h (some a) sent =
      some { pipe := p,
             heap := { h with features := h.features.set fa { feat with points := p.landmarks } },
             result := some a, sent := sent } := by
  simp [finish, setPoints_valid h a fa suite feat p.landmarks hs hf hfeat]

theorem rawImageOf_valid (h : Heap R) (a d : Addr) (suite : FeatureDetectSuite)
    (di : DeviceInputSuite) (pclImage : Image)
    (hs : h.suites[a]? = some suite) (hd : suite.deviceInput = some d)
    (hdi : h.inputs[d]? = some di) (himg : di.rawImage = some pclImage) :
    h.rawImageOf (some a) = some pclImage := by
  simp [Heap.rawImageOf, hs, hd, hdi, himg]

theorem connect_fails (p : FeatureDetectionClientPipe R) :
    p.connect false = (false, { p with isConnected := false, clientSocket := none }) := by
  simp [connect, disconnect]

theorem connect_succeeds (p : FeatureDetectionClientPipe R) :
    p.connect true =
      (true, { p with isConnected := true,
                      clientSocket := some { endpoint := some p.address } }) := by
  simp [connect]

/-- C5: for every input frame (a suite whose `feature` pointer is valid), when
the pipe is not connected (`clientSocket` null or `isConnected` false) and
`connect()` fails, `_processData` returns the input pointer, the frame's
`feature.points` are the stored landmarks, `landmarks` and `msg_id` of the
pipe are unchanged and no request went out; on a freshly constructed pipe the
points are the empty matrix. -/
theorem connect_failure_falls_back [Neg R] (p : FeatureDetectionClientPipe R) (w : Wire R)
    (h : Heap R) (a fa : Addr) (suite : FeatureDetectSuite) (feat : Feature R)
    (hnc : p.clientSocket = none ∨ p.isConnected = false) (hfail : w.connectOk = false)
    (hs : h.suites[a]? = some suite) (hf : suite.feature = some fa)
    (hfeat : h.features[fa]? = some feat) :
    _processData p w h (some a) =
      some { pipe := { p with isConnected := false, clientSocket := none },
             heap := { h with features := h.features.set fa { feat with points := p.landmarks } },
             result := some a, sent := [] } ∧
    ∀ address_ : String,
      _processData (new address_) w h (some a) =
        some { pipe := new address_,
               heap := { h with
                 features := h.features.set fa { feat with points := MatrixXf.empty } },
               result := some a, sent := [] } := by
  constructor
  · simp only [_processData, hnc, if_true, hfail, connect_fails]
    exact finish_valid _ h a fa suite feat [] hs hf hfeat
  · intro address_
    simp only [_processData, new, true_or, if_true, hfail, connect_fails]
    exact finish_valid _ h a fa suite feat [] hs hf hfeat

theorem connect_failure_falls_back_witness :
    (Sample.idlePipe.clientSocket = none ∨ Sample.idlePipe.isConnected = false) ∧
    Sample.wireDown.connectOk = false ∧
    _processData Sample.idlePipe Sample.wireDown Sample.heap (some 0) =
      some { pipe := Sample.idlePipe,
             heap := { Sample.heap with
               features := [{ points := Sample.stored, boundingBox := { rect := ⟨1, 2, 3, 4⟩ } }] },
             result := some 0, sent := [] } :=
  ⟨Or.inl rfl, rfl,
    (connect_failure_falls_back Sample.idlePipe Sample.wireDown Sample.heap 0 0
      { deviceInput := some 0, feature := some 0 }
      { points := Sample.framePoints, boundingBox := { rect := ⟨1, 2, 3, 4⟩ } }
      (Or.inl rfl) rfl rfl rfl rfl).1⟩

/-- What `_processData` does once the connection check is behind it: `q` is
the pipe after the check, connected and holding a socket. -/
theorem processData_after_check [Neg R] (p : FeatureDetectionClientPipe R) (w : Wire R)
    (h : Heap R) (a : Addr) (pclImage : Image)
    (hconn : (p.clientSocket ≠ none ∧ p.isConnected = true) ∨ w.connectOk = true)
    (himg : h.rawImageOf (some a) = some pclImage) :
    ∃ (q : FeatureDetectionClientPipe R) (sock : SocketT),
      q.isConnected = true ∧ q.clientSocket = some sock ∧
      q.landmarks = p.landmarks ∧ q.msg_id = p.msg_id + 1 ∧ q.address = p.address ∧
      _processData p w h (some a) =
        (if w.sendOk then
          match w.recvEvent with
          | RecvEvent.raised =>
            finish q.disconnect h (some a) [buildRequest q.msg_id pclImage]
          | RecvEvent.parsed _ m =>
            match decodeLandmarks m with
            | none => none
            | some lm =>
              finish { q with landmarks := lm } h (some a) [buildRequest q.msg_id pclImage]
        else finish q.disconnect h (some a) []) := by
  by_cases hg : p.clientSocket = none ∨ p.isConnected = false
  · have hok : w.connectOk = true := by
      rcases hconn with ⟨h1, h2⟩ | h3
      · rcases hg with g1 | g2
        · exact absurd g1 h1
        · rw [h2] at g2; cases g2
      · exact h3
    refine ⟨{ p with isConnected := true, clientSocket := some { endpoint := some p.address },
                     msg_id := p.msg_id + 1 }, { endpoint := some p.address },
      rfl, rfl, rfl, rfl, rfl, ?_⟩
    simp only [_processData, hg, if_true, hok, connect_succeeds, himg]
    cases hsend : w.sendOk
    · simp [send]
    · cases hrecv : w.recvEvent with
      | raised => simp [send, recv]
      | parsed st m =>
        cases hdec : decodeLandmarks m <;> simp [send, recv, hdec]
  · have hsock : p.clientSocket ≠ none := fun hn => hg (Or.inl hn)
    have hcon : p.isConnected = true := by
      cases hc : p.isConnected
      · exact absurd (Or.inr hc) hg
      · rfl
    obtain ⟨sock, hsome⟩ := Option.ne_none_iff_exists'.mp hsock
    refine ⟨{ p with msg_id := p.msg_id + 1 }, sock, hcon, hsome, rfl, rfl, rfl, ?_⟩
    simp only [_processData, hg, if_false, himg]
    cases hsend : w.sendOk
    · simp [send, hcon, hsome]
    · cases hrecv : w.recvEvent with
      | raised => simp [send, recv, hcon, hsome]
      | parsed st m =>
        cases hdec : decodeLandmarks m <;> simp [send, recv, hcon, hsome, hdec]

/-- C6: for every input frame (suite, feature, device input and image all
valid), when the pipe is connected (already, or by a `connect()` that
succeeds) and sending the request or receiving the response raises,
`_processData` returns the input pointer, the frame's `feature.points` are
the landmarks stored before the call, the stored landmarks are unchanged, and
the pipe is left with `isConnected` false and `clientSocket` null, which is
the condition under which the next call runs `connect()`. -/
theorem transfer_error_falls_back [Neg R] (p : FeatureDetectionClientPipe R) (w : Wire R)
    (h : Heap R) (a fa d : Addr) (suite : FeatureDetectSuite) (feat : Feature R)
    (di : DeviceInputSuite) (pclImage : Image)
    (hs : h.suites[a]? = some suite) (hf : suite.feature = some fa)
    (hfeat : h.features[fa]? = some feat) (hd : suite.deviceInput = some d)
    (hdi : h.inputs[d]? = some di) (himg : di.rawImage = some pclImage)
    (hconn : (p.clientSocket ≠ none ∧ p.isConnected = true) ∨ w.connectOk = true)
    (herr : w.sendOk = false ∨ (w.sendOk = true ∧ w.recvEvent = RecvEvent.raised)) :
    ∃ out, _processData p w h (some a) = some out ∧
      out.result = some a ∧
      out.heap = { h with features := h.features.set fa { feat with points := p.landmarks } } ∧
      out.pipe.landmarks = p.landmarks ∧
      out.pipe.isConnected = false ∧ out.pipe.clientSocket = none ∧
      (out.pipe.clientSocket = none ∨ out.pipe.isConnected = false) := by
  have hraw := rawImageOf_valid h a d suite di pclImage hs hd hdi himg
  obtain ⟨q, sock, _, _, hlm, _, _, heq⟩ := processData_after_check p w h a pclImage hconn hraw
  rcases herr with hsend | ⟨hsend, hrecv⟩
  · rw [hsend] at heq
    simp only [Bool.false_eq_true, if_false] at heq
    rw [finish_valid _ h a fa suite feat _ hs hf hfeat] at heq
    refine ⟨_, heq, rfl, ?_, ?_, rfl, rfl, Or.inl rfl⟩
    · simp [disconnect, hlm]
    · simp [disconnect, hlm]
  · rw [hsend, hrecv] at heq
    simp only [if_true] at heq
    rw [finish_valid _ h a fa suite feat _ hs hf hfeat] at heq
    refine ⟨_, heq, rfl, ?_, ?_, rfl, rfl, Or.inl rfl⟩
    · simp [disconnect, hlm]
    · simp [disconnect, hlm]

theorem transfer_error_falls_back_witness :
    ((Sample.connectedPipe.clientSocket ≠ none ∧ Sample.connectedPipe.isConnected = true) ∨
      Sample.wireRecvRaises.connectOk = true) ∧
    (Sample.wireRecvRaises.sendOk = false ∨
      (Sample.wireRecvRaises.sendOk = true ∧
        Sample.wireRecvRaises.recvEvent = RecvEvent.raised)) ∧
    ∃ out, _processData Sample.connectedPipe Sample.wireRecvRaises Sample.heap (some 0) =
        some out ∧
      out.result = some 0 ∧
      out.heap = { Sample.heap with
        features := Sample.heap.features.set 0
          { points := Sample.stored, boundingBox := { rect := ⟨1, 2, 3, 4⟩ } } } ∧
      out.pipe.landmarks = Sample.connectedPipe.landmarks ∧
      out.pipe.isConnected = false ∧ out.pipe.clientSocket = none ∧
      (out.pipe.clientSocket = none ∨ out.pipe.isConnected = false) :=
  ⟨Or.inr rfl, Or.inr ⟨rfl, rfl⟩,
    transfer_error_falls_back Sample.connectedPipe Sample.wireRecvRaises Sample.heap 0 0 0
      { deviceInput := some 0, feature := some 0 }
      { points := Sample.framePoints, boundingBox := { rect := ⟨1, 2, 3, 4⟩ } }
      { rawImage := some Sample.image } Sample.image rfl rfl rfl rfl rfl rfl
      (Or.inr rfl) (Or.inr ⟨rfl, rfl⟩)⟩

theorem recv_ignores_status (p : FeatureDetectionClientPipe R) (sock : SocketT)
    (status : Bool) (m m0 : LmkRsp R)
    (hc : p.isConnected = true) (hsock : p.clientSocket = some sock) :
    p.recv (RecvEvent.parsed status m) m0 = some (true, p, m) := by
  simp [recv, hc, hsock]

/-- C7, evaluated on a connected pipe holding `Sample.stored`: the response
does not parse (`ParseDelimitedFromCodedStream` returns false without raising,
leaving the truncated dimensions and values in the message). `recv` reports
success all the same, `_processData` decodes the unparsed message and
overwrites the stored landmarks with it; when the parser leaves the message
empty (end of stream) the decoding reads `shape()[0]` of an empty field. -/
theorem unparsed_response_is_decoded :
    Sample.connectedPipe.recv (RecvEvent.parsed false Sample.truncated)
        { shape := [], data := [] } =
      some (true, Sample.connectedPipe, Sample.truncated) ∧
    _processData Sample.connectedPipe Sample.wireUnparsed Sample.heap (some 0) =
      some { pipe := { Sample.connectedPipe with
               msg_id := 5, landmarks := { rows := 3, cols := 1, coeffs := [5, 6, -7] } },
             heap := { Sample.heap with
               features := [{ points := { rows := 3, cols := 1, coeffs := [5, 6, -7] },
                              boundingBox := { rect := ⟨1, 2, 3, 4⟩ } }] },
             result := some 0,
             sent := [buildRequest 5 Sample.image] } ∧
    ({ rows := 3, cols := 1, coeffs := [5, 6, -7] } : MatrixXf Int) ≠ Sample.stored ∧
    _processData Sample.connectedPipe
        { Sample.wireUnparsed with
          recvEvent := RecvEvent.parsed false { shape := [], data := [] } }
        Sample.heap (some 0) = none := by
  decide

end FeatureDetectionClientPipe

end Telef

namespace Telef

namespace DlibFaceDetectionPipe

variable {C R : Type}

theorem bestDetection_nil [Zero C] [LT C] [DecidableRel (fun a b : C => a < b)] :
    bestDetection ([] : List (Detection C)) = (Rectangle.empty, 0) := rfl

theorem no_detection_gives_empty_box [Zero C] [LT C] [DecidableRel (fun a b : C => a < b)]
    (pipe : DlibFaceDetectionPipe C) (h : Heap R) (a : Addr) (di : DeviceInputSuite)
    (pclImage : Image) (hdi : h.inputs[a]? = some di) (himg : di.rawImage = some pclImage)
    (hnone : pipe.net (toDlibImage pclImage) = []) :
    _processData pipe h (some a) =
      some ({ h with
              features := h.features ++
                [{ points := MatrixXf.empty, boundingBox := { rect := Rectangle.empty } }],
              suites := h.suites ++
                [{ deviceInput := some a, feature := some h.features.length }] },
            some h.suites.length) := by
  simp [_processData, hdi, himg, hnone, bestDetection, Feature.new,
    BoundingBox.setBoundingBox]

/-- C8, evaluated: the detector finds a face with box (10, 20, 110, 140) in the
first frame and nothing in the second. The output for the second frame is a
new suite whose bounding box is the empty default rectangle (0, 0, -1, -1),
not the box of the first frame; the pipe has no member that keeps a box
between calls. A result is returned in both cases. -/
theorem no_face_loses_last_box :
    _processData Sample.detector Sample.twoInputs (some 0) =
      some (Sample.afterFirst, some 0) ∧
    Sample.afterFirst.featureOf (some 0) =
      some { points := MatrixXf.empty, boundingBox := { rect := ⟨10, 20, 110, 140⟩ } } ∧
    _processData Sample.detector Sample.afterFirst (some 1) =
      some (Sample.afterSecond, some 1) ∧
    Sample.afterSecond.featureOf (some 1) =
      some { points := MatrixXf.empty, boundingBox := { rect := Rectangle.empty } } ∧
    Rectangle.empty ≠ (⟨10, 20, 110, 140⟩ : Rectangle) := by
  decide

end DlibFaceDetectionPipe

/-! ## Theorems: the front ends -/

theorem coeff_in_range {R : Type} (m : MatrixXf R) (i j : Nat) (hi : i < m.rows)
    (hj : j < m.cols) (hlen : m.rows * m.cols ≤ m.coeffs.length) :
    ∃ x, m.coeff? i j = some x := by
  have h1 : (i + 1) * m.cols ≤ m.rows * m.cols := Nat.mul_le_mul_right _ hi
  have h2 : (i + 1) * m.cols = i * m.cols + m.cols := Nat.succ_mul i m.cols
  have hlt : i * m.cols + j < m.coeffs.length := by omega
  refine ⟨m.coeffs[i * m.cols + j], ?_⟩
  simp [MatrixXf.coeff?, hi, hj, List.getElem?_eq_getElem hlt]

theorem addCircles_some {R : Type} (toLong : R → Int) (pts : MatrixXf R)
    (hcols : 2 ≤ pts.cols) (hlen : pts.rows * pts.cols ≤ pts.coeffs.length) :
    ∀ (n i : Nat) (win : ImageWindow), i + n ≤ pts.rows →
      ∃ win1, addCircles toLong pts n i win = some win1 ∧ win1.image = win.image ∧
        win1.overlays.length = win.overlays.length + n := by
  intro n
  induction n with
  | zero => intro i win _; exact ⟨win, rfl, rfl, rfl⟩
  | succ n ih =>
    intro i win hin
    obtain ⟨x, hx⟩ := coeff_in_range pts i 0 (by omega) (by omega) hlen
    obtain ⟨y, hy⟩ := coeff_in_range pts i 1 (by omega) (by omega) hlen
    obtain ⟨win1, h1, h2, h3⟩ :=
      ih (i + 1) (win.add_overlay (Overlay.circle (toLong x) (toLong y) 1 ⟨0, 255, 0⟩))
        (by omega)
    refine ⟨win1, ?_, ?_, ?_⟩
    · simp only [addCircles, hx, hy]
      exact h1
    · simpa [ImageWindow.add_overlay] using h2
    · simp only [ImageWindow.add_overlay, List.length_append, List.length_singleton] at h3
      omega

end Telef

namespace Telef

/-! ## Theorems: shutdown and the mutex of the FittingVisualizer -/

namespace FittingVisualizer

variable {Fr R D : Type}

theorem mousePositionCallback_keeps (ar : CameraArith R D) (s : FittingVisualizer Fr R D)
    (xpos ypos : D) :
    (mousePositionCallback ar s xpos ypos).renderRunning = s.renderRunning ∧
    (mousePositionCallback ar s xpos ypos).renderMutex = s.renderMutex ∧
    (mousePositionCallback ar s xpos ypos).renderTarget = s.renderTarget := by
  unfold mousePositionCallback
  cases s.trackballMode <;> cases s.clickInitialized <;> simp

theorem mouseButtonCallback_keeps (s : FittingVisualizer Fr R D) (button action mods : Int) :
    (mouseButtonCallback s button action mods).renderRunning = s.renderRunning ∧
    (mouseButtonCallback s button action mods).renderMutex = s.renderMutex ∧
    (mouseButtonCallback s button action mods).renderTarget = s.renderTarget := by
  unfold mouseButtonCallback
  split_ifs <;> simp

theorem keyCallback_keeps (ar : CameraArith R D) (c : Int) (hc : c ≠ 0)
    (s : FittingVisualizer Fr R D) (key scancode action mods : Int) :
    ∃ s1, keyCallback ar c s key scancode action mods = some s1 ∧
      s1.renderRunning = s.renderRunning ∧ s1.renderMutex = s.renderMutex ∧
      s1.renderTarget = s.renderTarget := by
  unfold keyCallback cycleMeshMode resetCamera
  split_ifs <;> simp_all

theorem applyOp_keeps_stopped (ar : CameraArith R D) (c : Int) (hc : c ≠ 0)
    (s : FittingVisualizer Fr R D) (hm : s.renderMutex = false)
    (hr : s.renderRunning = false) (op : Op Fr D) :
    ∃ s1, applyOp ar c s op = some s1 ∧ s1.renderMutex = false ∧
      s1.renderRunning = false := by
  cases op with
  | process input =>
    exact ⟨{ s with renderTarget := input }, by simp [applyOp, process_free s input hm], hm, hr⟩
  | safeGetInput =>
    obtain ⟨t, ht⟩ := safeGetInput_free s hm
    exact ⟨{ s with renderTarget := none }, by simp [applyOp, ht], hm, hr⟩
  | mousePosition xpos ypos =>
    obtain ⟨h1, h2, _⟩ := mousePositionCallback_keeps ar s xpos ypos
    exact ⟨_, rfl, by rw [h2, hm], by rw [h1, hr]⟩
  | mouseScroll xoffset yoffset => exact ⟨_, rfl, hm, hr⟩
  | mouseButton button action mods =>
    obtain ⟨h1, h2, _⟩ := mouseButtonCallback_keeps s button action mods
    exact ⟨_, rfl, by rw [h2, hm], by rw [h1, hr]⟩
  | key k scancode action mods =>
    obtain ⟨s1, h0, h1, h2, _⟩ := keyCallback_keeps ar c hc s k scancode action mods
    exact ⟨s1, h0, by rw [h2, hm], by rw [h1, hr]⟩
  | cycleMeshMode =>
    exact ⟨{ s with meshMode := Int.tmod (s.meshMode + 1) c }, by simp [applyOp, cycleMeshMode, hc],
      hm, hr⟩
  | resetCamera => exact ⟨_, rfl, hm, hr⟩
  | stop => exact ⟨_, rfl, hm, rfl⟩
  | shutdownRequest => exact ⟨_, rfl, hm, rfl⟩

theorem applyOps_keeps_stopped (ar : CameraArith R D) (c : Int) (hc : c ≠ 0)
    (ops : List (Op Fr D)) :
    ∀ s : FittingVisualizer Fr R D, s.renderMutex = false → s.renderRunning = false →
      ∃ s1, applyOps ar c s ops = some s1 ∧ s1.renderMutex = false ∧
        s1.renderRunning = false := by
  induction ops with
  | nil => intro s hm hr; exact ⟨s, rfl, hm, hr⟩
  | cons op ops ih =>
    intro s hm hr
    obtain ⟨s1, h1, hm1, hr1⟩ := applyOp_keeps_stopped ar c hc s hm hr op
    obtain ⟨s2, h2, hm2, hr2⟩ := ih s1 hm1 hr1
    exact ⟨s2, by simp [applyOps, h1, h2], hm2, hr2⟩

/-- C11: after `stop()`, and after the shutdown request of the destructor,
`renderRunning` is false; and from such a state every sequence of later
operations (process, safeGetInput, the mouse position, scroll, button and key
callbacks, cycleMeshMode, resetCamera, a repeated stop) runs to a state in
which `renderRunning` is still false, so the condition of the render loop is
false whatever the window reports. The mutex is free at the start and
`meshModeCount` is not zero. -/
theorem stopped_is_terminal (ar : CameraArith R D) (meshModeCount : Int)
    (hc : meshModeCount ≠ 0) (s : FittingVisualizer Fr R D) (hm : s.renderMutex = false)
    (ops : List (Op Fr D)) (windowShouldClose : Bool) :
    (stop s).renderRunning = false ∧ (shutdownRequest s).renderRunning = false ∧
    (∃ s1, applyOps ar meshModeCount (stop s) ops = some s1 ∧ s1.renderRunning = false ∧
      renderContinues windowShouldClose s1 = false) ∧
    (∃ s1, applyOps ar meshModeCount (shutdownRequest s) ops = some s1 ∧
      s1.renderRunning = false ∧ renderContinues windowShouldClose s1 = false) := by
  have key : ∃ s1, applyOps ar meshModeCount (stop s) ops = some s1 ∧
      s1.renderRunning = false ∧ renderContinues windowShouldClose s1 = false := by
    obtain ⟨s1, h1, _, hr1⟩ := applyOps_keeps_stopped ar meshModeCount hc ops (stop s) hm rfl
    exact ⟨s1, h1, hr1, by simp [renderContinues, hr1]⟩
  exact ⟨rfl, rfl, key, key⟩

theorem stopped_is_terminal_witness :
    (3 : Int) ≠ 0 ∧ (sample Nat (some 7)).renderMutex = false ∧
    (sample Nat (some 7)).renderRunning = true ∧
    (stop (sample Nat (some 7))).renderRunning = false ∧
    (shutdownRequest (sample Nat (some 7))).renderRunning = false ∧
    (∃ s1, applyOps sampleArith 3 (stop (sample Nat (some 7)))
        [Op.process (some 9), Op.mouseButton 0 1 0, Op.mousePosition 5 6, Op.key 50 0 1 0,
          Op.key 82 0 1 0, Op.safeGetInput, Op.mouseScroll 0 1] = some s1 ∧
      s1.renderRunning = false ∧ renderContinues false s1 = false) ∧
    (∃ s1, applyOps sampleArith 3 (shutdownRequest (sample Nat (some 7)))
        [Op.process (some 9), Op.mouseButton 0 1 0, Op.mousePosition 5 6, Op.key 50 0 1 0,
          Op.key 82 0 1 0, Op.safeGetInput, Op.mouseScroll 0 1] = some s1 ∧
      s1.renderRunning = false ∧ renderContinues false s1 = false) :=
  ⟨by decide, rfl, rfl,
    stopped_is_terminal sampleArith 3 (by decide) (sample Nat (some 7)) rfl
      [Op.process (some 9), Op.mouseButton 0 1 0, Op.mousePosition 5 6, Op.key 50 0 1 0,
        Op.key 82 0 1 0, Op.safeGetInput, Op.mouseScroll 0 1] false⟩

theorem safeGetInput_trace (s : FittingVisualizer Fr R D) (hm : s.renderMutex = false) :
    s.safeGetInput =
      some ({ s with renderTarget := none }, s.renderTarget,
        match s.renderTarget with
        | none => [Access.lock, Access.read, Access.unlock]
        | some _ =>
          [Access.lock, Access.read, Access.read, Access.write, Access.unlock]) := by
  cases s with
  | mk rr rm rt =>
    cases rt <;> simp_all [safeGetInput, lock, unlock]

theorem process_returns_only_when_free (s s1 : FittingVisualizer Fr R D)
    (input : InputPtrT Fr) (tr : List Access) (h : s.process input = some (s1, tr)) :
    s.renderMutex = false ∧ s1 = { s with renderTarget := input } := by
  have hm : s.renderMutex = false := by
    cases hm : s.renderMutex
    · rfl
    · simp [process, lock, hm] at h
  rw [process_free s input hm] at h
  simp only [Option.some.injEq, Prod.mk.injEq] at h
  exact ⟨hm, h.1.symm⟩

theorem safeGetInput_returns_only_when_free (s s1 : FittingVisualizer Fr R D)
    (r : InputPtrT Fr) (tr : List Access) (h : s.safeGetInput = some (s1, r, tr)) :
    s.renderMutex = false ∧ s1 = { s with renderTarget := none } := by
  have hm : s.renderMutex = false := by
    cases hm : s.renderMutex
    · rfl
    · simp [safeGetInput, lock, hm] at h
  rw [safeGetInput_trace s hm] at h
  simp only [Option.some.injEq, Prod.mk.injEq] at h
  exact ⟨hm, h.1.symm⟩

theorem processSteps_free (s : FittingVisualizer Fr R D) (input : InputPtrT Fr)
    (hm : s.renderMutex = false) :
    processSteps input s =
      some ((), { s with renderTarget := input },
        [⟨Access.lock, false, true⟩, ⟨Access.write, true, true⟩,
          ⟨Access.unlock, true, false⟩]) := by
  cases s
  simp_all [processSteps, Steps.andThen, lockStep, writeTarget, unlockStep, lock, unlock]

theorem safeGetInputSteps_free (s : FittingVisualizer Fr R D) (hm : s.renderMutex = false) :
    safeGetInputSteps s =
      some (s.renderTarget, { s with renderTarget := none },
        match s.renderTarget with
        | none =>
          [⟨Access.lock, false, true⟩, ⟨Access.read, true, true⟩, ⟨Access.unlock, true, false⟩]
        | some _ =>
          [⟨Access.lock, false, true⟩, ⟨Access.read, true, true⟩, ⟨Access.read, true, true⟩,
            ⟨Access.write, true, true⟩, ⟨Access.unlock, true, false⟩]) := by
  cases s with
  | mk rr rm rt =>
    cases rt <;>
      simp_all [safeGetInputSteps, Steps.andThen, Steps.done, lockStep, readTarget, writeTarget,
        unlockStep, lock, unlock]

theorem steps_blocked (s : FittingVisualizer Fr R D) (input : InputPtrT Fr)
    (hm : s.renderMutex = true) :
    processSteps input s = none ∧ safeGetInputSteps s = none ∧
      s.process input = none ∧ s.safeGetInput = none := by
  simp [processSteps, safeGetInputSteps, Steps.andThen, lockStep, process, safeGetInput, lock, hm]

/-- C12: with `renderMutex` as explicit state, run `process` and `safeGetInput` statement by
statement from a state whose mutex is free, recording at every lock, unlock, read and write
of `renderTarget` whether the mutex is held in the state before and after it. Each call
returns the same state and makes the same accesses as the function itself, leaves the mutex
free, locks exactly once and unlocks exactly once, and every recorded event respects the
mutex: the lock finds it free and leaves it held, every read and write of `renderTarget`
finds it held and leaves it held, the unlock finds it held and leaves it free. On an empty
slot `safeGetInput` takes the early return (lock, read, unlock) and returns null. From a
state whose mutex is held neither call returns, so neither reaches the slot. -/
theorem mutex_discipline (s : FittingVisualizer Fr R D) (hm : s.renderMutex = false)
    (input : InputPtrT Fr) :
    (∃ s1 ev, processSteps input s = some ((), s1, ev) ∧
      s.process input = some (s1, ev.map Event.access) ∧
      s1.renderMutex = false ∧
      (ev.map Event.access).count Access.lock = 1 ∧
      (ev.map Event.access).count Access.unlock = 1 ∧
      ev.all Event.respectsMutex = true) ∧
    (∃ s1 r ev, safeGetInputSteps s = some (r, s1, ev) ∧
      s.safeGetInput = some (s1, r, ev.map Event.access) ∧
      s1.renderMutex = false ∧
      (ev.map Event.access).count Access.lock = 1 ∧
      (ev.map Event.access).count Access.unlock = 1 ∧
      ev.all Event.respectsMutex = true ∧
      (s.renderTarget = none →
        r = none ∧
        ev = [⟨Access.lock, false, true⟩, ⟨Access.read, true, true⟩,
          ⟨Access.unlock, true, false⟩])) ∧
    (∀ t : FittingVisualizer Fr R D, t.renderMutex = true →
      processSteps input t = none ∧ safeGetInputSteps t = none ∧
        t.process input = none ∧ t.safeGetInput = none) := by
  refine ⟨?_, ?_, fun t ht => steps_blocked t input ht⟩
  · exact ⟨_, _, processSteps_free s input hm, process_free s input hm, hm, by decide,
      by decide, by decide⟩
  · have h := safeGetInputSteps_free s hm
    have h2 := safeGetInput_trace s hm
    cases hrt : s.renderTarget with
    | none =>
      rw [hrt] at h h2
      exact ⟨_, _, _, h, h2, hm, rfl, rfl, rfl, fun _ => ⟨rfl, rfl⟩⟩
    | some f =>
      rw [hrt] at h h2
      refine ⟨_, _, _, h, h2, hm, rfl, rfl, rfl, ?_⟩
      intro hn
      cases hn

/-- C12 on a sample state with an empty slot (the early return of `safeGetInput`) and on one
with a frame in the slot. -/
theorem mutex_discipline_witness :
    (sample Nat none).renderMutex = false ∧ (sample Nat (some 7)).renderMutex = false ∧
    (∃ s1 r ev, safeGetInputSteps (sample Nat none) = some (r, s1, ev) ∧
      (sample Nat none).safeGetInput = some (s1, r, ev.map Event.access) ∧
      s1.renderMutex = false ∧
      (ev.map Event.access).count Access.lock = 1 ∧
      (ev.map Event.access).count Access.unlock = 1 ∧
      ev.all Event.respectsMutex = true ∧
      ((sample Nat none).renderTarget = none →
        r = none ∧
        ev = [⟨Access.lock, false, true⟩, ⟨Access.read, true, true⟩,
          ⟨Access.unlock, true, false⟩])) ∧
    (∃ s1 ev, processSteps (some 9) (sample Nat (some 7)) = some ((), s1, ev) ∧
      (sample Nat (some 7)).process (some 9) = some (s1, ev.map Event.access) ∧
      s1.renderMutex = false ∧
      (ev.map Event.access).count Access.lock = 1 ∧
      (ev.map Event.access).count Access.unlock = 1 ∧
      ev.all Event.respectsMutex = true) ∧
    safeGetInputSteps (sample Nat (some 7)) =
      some (some 7, sample Nat none,
        [⟨Access.lock, false, true⟩, ⟨Access.read, true, true⟩, ⟨Access.read, true, true⟩,
          ⟨Access.write, true, true⟩, ⟨Access.unlock, true, false⟩]) :=
  ⟨rfl, rfl, (mutex_discipline (sample Nat none) rfl (some 9)).2.1,
    (mutex_discipline (sample Nat (some 7)) rfl (some 9)).1, by decide⟩

theorem agree_refl (g : Field) (s : FittingVisualizer Fr R D) : g.agree s s := by
  cases g <;> simp [Field.agree]

theorem only_refl (f : Field) (s : FittingVisualizer Fr R D) : f.only s s :=
  fun g _ => agree_refl g s

theorem process_act (s : FittingVisualizer Fr R D) (input : InputPtrT Fr) :
    (OwnerCall.process input).act s =
      if s.renderMutex then none else some (Yield.unit, { s with renderTarget := input }) := by
  cases hm : s.renderMutex
  · simp [OwnerCall.act, process_free s input hm, hm]
  · simp [OwnerCall.act, process, lock, hm]

theorem safeGetInput_act (ar : CameraArith R D) (c : Int) (s : FittingVisualizer Fr R D) :
    (RenderStep.safeGetInput : RenderStep Fr D).act ar c s =
      if s.renderMutex then none
      else some (Yield.pointer s.renderTarget, { s with renderTarget := none }) := by
  cases hm : s.renderMutex
  · simp [RenderStep.act, safeGetInput_trace s hm, hm]
  · simp [RenderStep.act, safeGetInput, lock, hm]

theorem ownerCall_ignores (c : OwnerCall Fr) (f : Field) (h1 : f ≠ Field.renderTarget)
    (h2 : f ≠ Field.renderMutex) (h3 : f ≠ Field.renderRunning) :
    Ignores (c.act : Act Fr R D) f := by
  intro s t hst
  have hmutex : s.renderMutex = t.renderMutex := hst Field.renderMutex (Ne.symm h2)
  cases c with
  | process input =>
    rw [process_act, process_act, ← hmutex]
    cases hm : s.renderMutex
    · refine ⟨rfl, ?_⟩
      intro r1 s1 r2 t1 e1 e2
      simp only [Bool.false_eq_true, if_false, Option.some.injEq, Prod.mk.injEq] at e1 e2
      obtain ⟨e1r, e1s⟩ := e1
      obtain ⟨e2r, e2s⟩ := e2
      subst e1r e1s e2r e2s
      refine ⟨rfl, ?_, ?_, ?_⟩
      · intro g hg
        have hg2 := hst g hg
        cases g <;> first | exact hg2 | rfl
      · cases f <;> first | exact absurd rfl h1 | rfl | trivial
      · cases f <;> first | exact absurd rfl h1 | rfl | trivial
    · refine ⟨rfl, ?_⟩
      intro r1 s1 r2 t1 e1
      simp at e1
  | stop =>
    refine ⟨rfl, ?_⟩
    intro r1 s1 r2 t1 e1 e2
    simp only [OwnerCall.act, Option.some.injEq, Prod.mk.injEq] at e1 e2
    obtain ⟨e1r, e1s⟩ := e1
    obtain ⟨e2r, e2s⟩ := e2
    subst e1r e1s e2r e2s
    refine ⟨rfl, ?_, ?_, ?_⟩
    · intro g hg
      have hg2 := hst g hg
      cases g <;> first | exact hg2 | rfl
    · cases f <;> first | exact absurd rfl h3 | rfl | trivial
    · cases f <;> first | exact absurd rfl h3 | rfl | trivial
  | destructor =>
    refine ⟨rfl, ?_⟩
    intro r1 s1 r2 t1 e1 e2
    simp only [OwnerCall.act, Option.some.injEq, Prod.mk.injEq] at e1 e2
    obtain ⟨e1r, e1s⟩ := e1
    obtain ⟨e2r, e2s⟩ := e2
    subst e1r e1s e2r e2s
    refine ⟨rfl, ?_, ?_, ?_⟩
    · intro g hg
      have hg2 := hst g hg
      cases g <;> first | exact hg2 | rfl
    · cases f <;> first | exact absurd rfl h3 | rfl | trivial
    · cases f <;> first | exact absurd rfl h3 | rfl | trivial

theorem process_accesses_target (s0 : FittingVisualizer Fr R D) (x : Fr) :
    ¬ Ignores ((OwnerCall.process (some x)).act : Act Fr R D) Field.renderTarget := by
  intro hI
  have h := (hI { s0 with renderMutex := false, renderTarget := none }
    { s0 with renderMutex := false, renderTarget := none } (only_refl _ _)).2
      Yield.unit _ Yield.unit _ (by rw [process_act]; rfl) (by rw [process_act]; rfl)
  have h3 := h.2.2.1
  simp [Field.agree] at h3

theorem safeGetInput_accesses_target (ar : CameraArith R D) (c : Int)
    (s0 : FittingVisualizer Fr R D) (x : Fr) :
    ¬ Ignores ((RenderStep.safeGetInput : RenderStep Fr D).act ar c) Field.renderTarget := by
  intro hI
  have h := (hI { s0 with renderMutex := false, renderTarget := some x }
    { s0 with renderMutex := false, renderTarget := some x } (only_refl _ _)).2
      _ _ _ _ (by rw [safeGetInput_act]; rfl) (by rw [safeGetInput_act]; rfl)
  have h3 := h.2.2.1
  simp [Field.agree] at h3

theorem only_mutex (s0 : FittingVisualizer Fr R D) :
    Field.renderMutex.only ({ s0 with renderMutex := false } : FittingVisualizer Fr R D)
      { s0 with renderMutex := true } := by
  intro g hg
  cases g <;> first | exact absurd rfl hg | rfl | trivial

theorem only_running (s0 : FittingVisualizer Fr R D) :
    Field.renderRunning.only ({ s0 with renderRunning := true } : FittingVisualizer Fr R D)
      { s0 with renderRunning := false } := by
  intro g hg
  cases g <;> first | exact absurd rfl hg | rfl | trivial

theorem process_accesses_mutex (s0 : FittingVisualizer Fr R D) (input : InputPtrT Fr) :
    ¬ Ignores ((OwnerCall.process input).act : Act Fr R D) Field.renderMutex := by
  intro hI
  have h := (hI _ _ (only_mutex s0)).1
  rw [process_act, process_act] at h
  simp at h

theorem safeGetInput_accesses_mutex (ar : CameraArith R D) (c : Int)
    (s0 : FittingVisualizer Fr R D) :
    ¬ Ignores ((RenderStep.safeGetInput : RenderStep Fr D).act ar c) Field.renderMutex := by
  intro hI
  have h := (hI _ _ (only_mutex s0)).1
  rw [safeGetInput_act, safeGetInput_act] at h
  simp at h

theorem stop_accesses_running (s0 : FittingVisualizer Fr R D) :
    ¬ Ignores ((OwnerCall.stop : OwnerCall Fr).act : Act Fr R D) Field.renderRunning ∧
    ¬ Ignores ((OwnerCall.destructor : OwnerCall Fr).act : Act Fr R D) Field.renderRunning := by
  constructor
  · intro hI
    have h := (hI { s0 with renderRunning := true } { s0 with renderRunning := true }
      (only_refl _ _)).2 _ _ _ _ rfl rfl
    have h3 := h.2.2.1
    simp [Field.agree, stop] at h3
  · intro hI
    have h := (hI { s0 with renderRunning := true } { s0 with renderRunning := true }
      (only_refl _ _)).2 _ _ _ _ rfl rfl
    have h3 := h.2.2.1
    simp [Field.agree, shutdownRequest] at h3

theorem loopCondition_accesses_running (ar : CameraArith R D) (c : Int)
    (s0 : FittingVisualizer Fr R D) :
    ¬ Ignores ((RenderStep.loopCondition false : RenderStep Fr D).act ar c)
      Field.renderRunning := by
  intro hI
  have h := (hI _ _ (only_running s0)).2 _ _ _ _ rfl rfl
  have h1 := h.1
  simp [renderContinues] at h1

/-- C13 fails: `renderRunning` is not `renderTarget`, and it is accessed from both sides.
`stop`, an owner-side call, writes it (on the sample state it turns from true to false); the
loop condition of `render`, evaluated on the render thread, reads it (its value changes with
the flag). Neither goes through `renderMutex`: `stop` returns and writes the flag also while
the mutex is held. -/
theorem renderRunning_crosses_threads :
    Field.renderRunning ≠ Field.renderTarget ∧
    ¬ Ignores ((OwnerCall.stop : OwnerCall Nat).act : Act Nat Int Int) Field.renderRunning ∧
    ¬ Ignores ((RenderStep.loopCondition false : RenderStep Nat Int).act sampleArith 3)
      Field.renderRunning ∧
    ((OwnerCall.stop : OwnerCall Nat).act : Act Nat Int Int) (sample Nat none) =
      some (Yield.unit, { sample Nat none with renderRunning := false }) ∧
    (RenderStep.loopCondition false : RenderStep Nat Int).act sampleArith 3 (sample Nat none) =
      some (Yield.cond true, sample Nat none) ∧
    (RenderStep.loopCondition false : RenderStep Nat Int).act sampleArith 3
        { sample Nat none with renderRunning := false } =
      some (Yield.cond false, { sample Nat none with renderRunning := false }) ∧
    ((OwnerCall.stop : OwnerCall Nat).act : Act Nat Int Int)
        { sample Nat none with renderMutex := true } =
      some (Yield.unit, { sample Nat none with renderMutex := true, renderRunning := false }) :=
  ⟨by decide, (stop_accesses_running (sample Nat none)).1,
    loopCondition_accesses_running sampleArith 3 (sample Nat none), rfl, rfl, rfl, rfl⟩

/-- C13 as amended. Take the owner-side calls (`process`, `stop`, the assignment of the
destructor) and the steps of the render thread (the loop condition of `render`,
`safeGetInput`, the four callbacks), and say that a step accesses a data member when its
behaviour depends on the member or changes it. (1) The data members accessed from both sides
are exactly `renderTarget`, `renderMutex` and `renderRunning`. (2) An owner-side call
accesses no other data member. (3) The slot is reached only through the mutex: while the
mutex is held neither `process` nor `safeGetInput` returns, and from a free mutex every
event of either call respects the mutex. (4) `renderRunning` is not guarded: in every state,
whatever the mutex, `stop` and the destructor set it to false and leave the mutex as it is,
and the loop condition is `!windowShouldClose && renderRunning`. -/
theorem shared_state (ar : CameraArith R D) (meshModeCount : Int)
    (s0 : FittingVisualizer Fr R D) (x : Fr) (input : InputPtrT Fr) (f : Field) :
    (((∃ c : OwnerCall Fr, ¬ Ignores (c.act : Act Fr R D) f) ∧
        (∃ r : RenderStep Fr D, ¬ Ignores (r.act ar meshModeCount) f)) ↔
      (f = Field.renderTarget ∨ f = Field.renderMutex ∨ f = Field.renderRunning)) ∧
    (f ≠ Field.renderTarget → f ≠ Field.renderMutex → f ≠ Field.renderRunning →
      ∀ c : OwnerCall Fr, Ignores (c.act : Act Fr R D) f) ∧
    (∀ t : FittingVisualizer Fr R D, t.renderMutex = true →
      (OwnerCall.process input).act t = none ∧
      (RenderStep.safeGetInput : RenderStep Fr D).act ar meshModeCount t = none) ∧
    (∀ t : FittingVisualizer Fr R D, t.renderMutex = false →
      ∃ t1 ev t2 r ev2, processSteps input t = some ((), t1, ev) ∧
        (OwnerCall.process input).act t = some (Yield.unit, t1) ∧
        ev.all Event.respectsMutex = true ∧
        safeGetInputSteps t = some (r, t2, ev2) ∧
        (RenderStep.safeGetInput : RenderStep Fr D).act ar meshModeCount t =
          some (Yield.pointer r, t2) ∧
        ev2.all Event.respectsMutex = true) ∧
    (∀ (t : FittingVisualizer Fr R D) (windowShouldClose : Bool),
      ((OwnerCall.stop : OwnerCall Fr).act : Act Fr R D) t =
        some (Yield.unit, { t with renderRunning := false }) ∧
      ((OwnerCall.destructor : OwnerCall Fr).act : Act Fr R D) t =
        some (Yield.unit, { t with renderRunning := false }) ∧
      (RenderStep.loopCondition windowShouldClose : RenderStep Fr D).act ar meshModeCount t =
        some (Yield.cond (!windowShouldClose && t.renderRunning), t)) := by
  refine ⟨⟨?_, ?_⟩, ?_, ?_, ?_, ?_⟩
  · rintro ⟨⟨c, hc⟩, _⟩
    by_contra hne
    push_neg at hne
    exact hc (ownerCall_ignores c f hne.1 hne.2.1 hne.2.2)
  · rintro (rfl | rfl | rfl)
    · exact ⟨⟨OwnerCall.process (some x), process_accesses_target s0 x⟩,
        ⟨RenderStep.safeGetInput, safeGetInput_accesses_target ar meshModeCount s0 x⟩⟩
    · exact ⟨⟨OwnerCall.process input, process_accesses_mutex s0 input⟩,
        ⟨RenderStep.safeGetInput, safeGetInput_accesses_mutex ar meshModeCount s0⟩⟩
    · exact ⟨⟨OwnerCall.stop, (stop_accesses_running s0).1⟩,
        ⟨RenderStep.loopCondition false, loopCondition_accesses_running ar meshModeCount s0⟩⟩
  · intro h1 h2 h3 c
    exact ownerCall_ignores c f h1 h2 h3
  · intro t ht
    rw [process_act, safeGetInput_act]
    simp [ht]
  · intro t ht
    have hs := safeGetInputSteps_free t ht
    refine ⟨_, _, _, _, _, processSteps_free t input ht, ?_, by decide, hs, ?_, ?_⟩
    · rw [process_act]
      simp [ht]
    · rw [safeGetInput_act]
      simp [ht]
    · cases t.renderTarget <;> rfl
  · intro t windowShouldClose
    exact ⟨rfl, rfl, rfl⟩

/-- C13 as amended, for the sample state and the data member `zoom`: it is not accessed from
both sides, and no owner-side call accesses it. -/
theorem shared_state_witness :
    (((∃ c : OwnerCall Nat, ¬ Ignores (c.act : Act Nat Int Int) Field.zoom) ∧
        (∃ r : RenderStep Nat Int, ¬ Ignores (r.act sampleArith 3) Field.zoom)) ↔
      (Field.zoom = Field.renderTarget ∨ Field.zoom = Field.renderMutex ∨
        Field.zoom = Field.renderRunning)) ∧
    (∀ c : OwnerCall Nat, Ignores (c.act : Act Nat Int Int) Field.zoom) :=
  ⟨(shared_state sampleArith 3 (sample Nat none) 7 (some 9) Field.zoom).1,
    (shared_state sampleArith 3 (sample Nat none) 7 (some 9) Field.zoom).2.1
      (by decide) (by decide) (by decide)⟩

end FittingVisualizer

end Telef

namespace Telef

/-! ## Theorems: the pipeline core -/

theorem deliver_keeps_waiting {n : Nat} {Raw F Res : Type} (cfg : MergerConfig n Raw F Res)
    (st : MergerState n F Res) (channel i : Fin n) (raw : Raw)
    (hlatest : st.latest i = none)
    (hraw : channel = i → cfg.channelPipe i raw = none) :
    (MergerState.deliver cfg st channel raw).2 = none ∧
    (MergerState.deliver cfg st channel raw).1.latest i = none ∧
    (MergerState.deliver cfg st channel raw).1.mailboxes = st.mailboxes := by
  have hi : Function.update st.latest channel (cfg.channelPipe channel raw) i = none := by
    by_cases hc : channel = i
    · subst hc
      simp [hraw rfl]
    · rw [Function.update_noteq (Ne.symm hc)]
      exact hlatest
  have hnot : ¬ ∀ j, (Function.update st.latest channel (cfg.channelPipe channel raw) j).isSome := by
    intro hall
    have := hall i
    rw [hi] at this
    simp at this
  simp only [MergerState.deliver, hnot, dite_false]
  exact ⟨trivial, hi, trivial⟩

theorem deliverAll_keeps_waiting {n : Nat} {Raw F Res : Type} (cfg : MergerConfig n Raw F Res)
    (i : Fin n) (ds : List (Fin n × Raw)) :
    ∀ (k : Nat) (st : MergerState n F Res), st.latest i = none →
      (∀ d ∈ ds, d.1 = i → cfg.channelPipe i d.2 = none) →
      (MergerState.deliverAll cfg k st ds).2 = [] ∧
      (MergerState.deliverAll cfg k st ds).1.mailboxes = st.mailboxes ∧
      (MergerState.deliverAll cfg k st ds).1.latest i = none := by
  induction ds with
  | nil => intro k st hl _; exact ⟨rfl, rfl, hl⟩
  | cons d ds ih =>
    intro k st hl hds
    obtain ⟨h1, h2, h3⟩ := deliver_keeps_waiting cfg st d.1 i d.2 hl
      (hds d (List.mem_cons_self d ds))
    obtain ⟨g1, g2, g3⟩ := ih (k + 1) (MergerState.deliver cfg st d.1 d.2).1 h2
      (fun e he => hds e (List.mem_cons_of_mem d he))
    have hsplit : MergerState.deliver cfg st d.1 d.2 =
        ((MergerState.deliver cfg st d.1 d.2).1, none) := by
      rw [← h1]
    simp only [MergerState.deliverAll]
    rw [hsplit]
    simp only
    exact ⟨g1, by rw [g2, h3], g3⟩

/-- C14: for every merger bound to `n` channels with `m` front ends and every
sequence of raw deliveries to its channels, as long as some bound channel has
not produced a frame (each delivery to it so far ended in no result, or there
was none), the merger has published nothing and every front end mailbox is
still empty. -/
theorem no_partial_merge {n : Nat} {Raw F Res : Type} (cfg : MergerConfig n Raw F Res)
    (m : Nat) (ds : List (Fin n × Raw)) (i : Fin n)
    (hi : ∀ d ∈ ds, d.1 = i → cfg.channelPipe i d.2 = none) :
    (MergerState.deliverAll cfg 0 (MergerState.init m) ds).2 = [] ∧
    (MergerState.deliverAll cfg 0 (MergerState.init m) ds).1.mailboxes =
      List.replicate m none := by
  obtain ⟨h1, h2, _⟩ := deliverAll_keeps_waiting cfg i ds 0 (MergerState.init m) rfl hi
  exact ⟨h1, h2⟩

theorem no_partial_merge_witness :
    (∀ d ∈ [((0 : Fin 2), 5), (0, 6), (1, 0)], d.1 = (1 : Fin 2) →
      Sample.mergerConfig.channelPipe 1 d.2 = none) ∧
    (MergerState.deliverAll Sample.mergerConfig 0 (MergerState.init 2)
      [(0, 5), (0, 6), (1, 0)]).2 = [] ∧
    (MergerState.deliverAll Sample.mergerConfig 0 (MergerState.init 2)
      [(0, 5), (0, 6), (1, 0)]).1.mailboxes = List.replicate 2 none ∧
    (MergerState.deliverAll Sample.mergerConfig 0 (MergerState.init 2)
      [(0, 5), (0, 6), (1, 0), (1, 7), (0, 8)]).2 = [(3, (6, 7)), (4, (8, 7))] :=
  have h : ∀ d ∈ [((0 : Fin 2), 5), (0, 6), (1, 0)], d.1 = (1 : Fin 2) →
      Sample.mergerConfig.channelPipe 1 d.2 = none := by decide
  ⟨h, (no_partial_merge Sample.mergerConfig 2 [(0, 5), (0, 6), (1, 0)] 1 h).1,
    (no_partial_merge Sample.mergerConfig 2 [(0, 5), (0, 6), (1, 0)] 1 h).2, by decide⟩

/-- C15: for all pipes `P1`, `P2`, `P3` with matching types and every input,
`compose(compose(P1, P2), P3)` and `compose(P1, compose(P2, P3))` yield the
same output or the same no-result outcome, having invoked the same stages. -/
theorem compose_assoc {A B C E : Type} (P1 : Pipe A B) (P2 : Pipe B C) (P3 : Pipe C E)
    (a : A) :
    (compose (compose P1 P2) P3).run a = (compose P1 (compose P2 P3)).run a := by
  simp only [compose, Pipe.run]
  rcases h1 : P1.run a with ⟨r1, t1⟩
  cases r1 with
  | none => rfl
  | some b =>
    simp only
    rcases h2 : P2.run b with ⟨r2, t2⟩
    cases r2 with
    | none => rfl
    | some c => simp [List.append_assoc]

theorem last_false_unique {α : Type} (pre pre1 post : List (α × Bool)) (x x1 : α)
    (hall : ∀ e ∈ pre1, e.2 = true)
    (h : pre ++ (x, false) :: post = pre1 ++ [(x1, false)]) : post = [] := by
  have hlen : pre.length + (post.length + 1) = pre1.length + 1 := by
    have := congrArg List.length h
    simpa using this
  by_contra hpost
  have hpos : 0 < post.length := List.length_pos.mpr hpost
  have hlt : pre.length < pre1.length := by omega
  have h1 : (pre ++ (x, false) :: post)[pre.length]? = some (x, false) := by
    rw [List.getElem?_append_right (le_refl _)]
    simp
  have h2 : (pre1 ++ [(x1, false)])[pre.length]? = some (pre1[pre.length]) := by
    rw [List.getElem?_append_left hlt]
    exact List.getElem?_eq_getElem hlt
  rw [h] at h1
  rw [h1] at h2
  have hmem : (x, false) ∈ pre1 := by
    have : (x, false) = pre1[pre.length] := Option.some.inj h2
    rw [this]
    exact List.getElem_mem hlt
  have := hall (x, false) hmem
  simp at this

theorem Pipe.run_invariant : ∀ {A B : Type} (c : Pipe A B) (a : A),
    ((c.run a).1.isSome = true →
      (c.run a).2.map Prod.fst = c.stages ∧ ∀ e ∈ (c.run a).2, e.2 = true) ∧
    ((c.run a).1 = none →
      ∃ pre name, (c.run a).2 = pre ++ [(name, false)] ∧ (∀ e ∈ pre, e.2 = true) ∧
        (pre.map Prod.fst ++ [name]) <+: c.stages) := by
  intro A B c
  induction c with
  | stage name f =>
    intro a
    constructor
    · intro h
      simp only [Pipe.run] at h
      simp [Pipe.run, Pipe.stages, h]
    · intro h
      simp only [Pipe.run] at h
      exact ⟨[], name, by simp [Pipe.run, h], by simp, by simp [Pipe.stages]⟩
  | comp p q ihp ihq =>
    intro a
    rcases hp : p.run a with ⟨r1, t1⟩
    have ip := ihp a
    rw [hp] at ip
    cases r1 with
    | none =>
      simp only [Pipe.run, hp]
      constructor
      · intro h
        simp at h
      · intro _
        obtain ⟨pre, name, h1, h2, h3⟩ := ip.2 rfl
        refine ⟨pre, name, h1, h2, ?_⟩
        simp only [Pipe.stages]
        exact h3.trans (List.prefix_append _ _)
    | some b =>
      simp only [Pipe.run, hp]
      obtain ⟨hs, ht⟩ := ip.1 rfl
      simp only at hs ht
      have iq := ihq b
      constructor
      · intro h
        obtain ⟨hs2, ht2⟩ := iq.1 h
        refine ⟨by simp [Pipe.stages, hs, hs2], ?_⟩
        intro e he
        rcases List.mem_append.mp he with h1 | h1
        · exact ht e h1
        · exact ht2 e h1
      · intro h
        obtain ⟨pre, name, h1, h2, h3⟩ := iq.2 h
        refine ⟨t1 ++ pre, name, by simp [h1], ?_, ?_⟩
        · intro e he
          rcases List.mem_append.mp he with g | g
          · exact ht e g
          · exact h2 e g
        · simp only [Pipe.stages, List.map_append, hs, List.append_assoc]
          exact (List.prefix_append_right_inj _).mpr h3

/-- C16: for every composed chain of pipes and every input, the stages invoked
are an initial part of the chain, in chain order; if some invoked stage yields
no result then it is the last stage invoked (no later stage runs) and the
output of the chain is no result; and composing anything after a chain that
yields no result invokes nothing more and yields no result. -/
theorem chain_short_circuits {A B C : Type} (c : Pipe A B) (q : Pipe B C) (a : A) :
    ((c.run a).2.map Prod.fst) <+: c.stages ∧
    (∀ pre name post, (c.run a).2 = pre ++ (name, false) :: post →
      post = [] ∧ (c.run a).1 = none) ∧
    ((c.run a).1 = none → (compose c q).run a = (none, (c.run a).2)) := by
  have inv := Pipe.run_invariant c a
  refine ⟨?_, ?_, ?_⟩
  · cases hr : (c.run a).1 with
    | none =>
      obtain ⟨pre, name, h1, _, h3⟩ := inv.2 hr
      rw [h1]
      simpa using h3
    | some b =>
      have := (inv.1 (by simp [hr])).1
      rw [this]
  · intro pre name post ht
    cases hr : (c.run a).1 with
    | none =>
      obtain ⟨pre1, name1, h1, h2, _⟩ := inv.2 hr
      rw [h1] at ht
      exact ⟨last_false_unique pre pre1 post name name1 h2 ht.symm, rfl⟩
    | some b =>
      have hall := (inv.1 (by simp [hr])).2
      have : (name, false) ∈ (c.run a).2 := by
        rw [ht]
        simp
      have := hall _ this
      simp at this
  · intro hr
    rcases hc : c.run a with ⟨r, t⟩
    rw [hc] at hr
    simp only at hr
    subst hr
    simp [compose, Pipe.run, hc]

theorem chain_short_circuits_witness :
    (Sample.chain.run 0).2 = [("double", true), ("positive", false)] ∧
    (Sample.chain.run 0).1 = none ∧
    (Sample.chain.run 3).1 = some 7 ∧
    Sample.chain.stages = ["double", "positive", "succ"] ∧
    ((Sample.chain.run 0).2 = [("double", true)] ++ ("positive", false) :: [] →
      ([] : List (String × Bool)) = [] ∧ (Sample.chain.run 0).1 = none) ∧
    ((Sample.chain.run 0).1 = none →
      (compose Sample.chain Sample.chain).run 0 = (none, (Sample.chain.run 0).2)) :=
  ⟨by decide, by decide, by decide, by decide,
    (chain_short_circuits Sample.chain Sample.chain 0).2.1 [("double", true)] "positive" [],
    (chain_short_circuits Sample.chain Sample.chain 0).2.2⟩

theorem playbackFrom_single_pass {Fk : Type} (frames : List Fk) :
    ∀ (fuel i : Nat), frames.length - i < fuel →
      playbackFrom PlayMode.FPS_30 frames fuel i = some (frames.drop i) := by
  intro fuel
  induction fuel with
  | zero => intro i h; omega
  | succ fuel ih =>
    intro i h
    by_cases hi : i < frames.length
    · have hget : frames[i]? = some frames[i] := List.getElem?_eq_getElem hi
      simp only [playbackFrom, hget]
      rw [ih (i + 1) (by omega), List.drop_eq_getElem_cons hi]
      rfl
    · have hnone : frames[i]? = none := List.getElem?_eq_none (by omega)
      simp only [playbackFrom, hnone]
      rw [List.drop_eq_nil_of_le (by omega)]

/-- C17: for every recorded sequence of `N` frames, the playback device with
the single-pass policy `PlayMode::FPS_30` delivers exactly the `N` recorded
frames, in recorded order, and then `run()` returns: with any fuel above `N`
the run ends and its deliveries are the recorded list. -/
theorem playback_single_pass {Fk : Type} (frames : List Fk) (fuel : Nat)
    (h : frames.length < fuel) :
    playbackRun PlayMode.FPS_30 frames fuel = some frames ∧
    ∃ delivered, playbackRun PlayMode.FPS_30 frames fuel = some delivered ∧
      delivered.length = frames.length := by
  have hrun : playbackRun PlayMode.FPS_30 frames fuel = some frames := by
    rw [playbackRun, playbackFrom_single_pass frames fuel 0 (by omega)]
    simp
  exact ⟨hrun, frames, hrun, rfl⟩

theorem playback_single_pass_witness :
    [10, 20, 30].length < 4 ∧
    playbackRun PlayMode.FPS_30 [10, 20, 30] 4 = some [10, 20, 30] ∧
    playbackRun PlayMode.FPS_30_LOOP [10, 20, 30] 4 = none :=
  ⟨by decide, (playback_single_pass [10, 20, 30] 4 (by decide)).1, by decide⟩

namespace DlibFaceDetectionPipe

end DlibFaceDetectionPipe

end Telef

namespace Telef

/-! ## Theorems: the LLE matrices of the intrinsic decomposition -/

namespace IntrinsicDecomposition

theorem at_second_column {R : Type} (K : Nat) (data : List R) (k : Nat) :
    ({ rows := K, cols := 1, data := data } : Mat1d R).at k 1 = none := by
  simp [Mat1d.at]

theorem sumColumn_second_column {R : Type} [Zero R] [Add R] (K : Nat) (data : List R)
    (hK : 0 < K) :
    sumColumn ({ rows := K, cols := 1, data := data } : Mat1d R) 1 K = none := by
  cases K with
  | zero => omega
  | succ k =>
    simp only [sumColumn, at_second_column]
    cases sumColumn ({ rows := k + 1, cols := 1, data := data } : Mat1d R) 1 k <;> rfl

theorem bind_none_of {α β : Type} (o : Option α) (f : α → Option β)
    (h : ∀ a, f a = none) : (o >>= f) = none := by
  cases o with
  | none => rfl
  | some a => exact h a

/-- C20, on the code: for every `K` of at least 1 (the pipeline passes 10) and
every grid point, search result and solver, the loop body that is to enter the
normalised weights has no defined result. The solution `w` is a `K` by 1
matrix, and both the sum `ws` and the entries read `w(k, 1)`, its second
column, where the claim has the entries `w_0 .. w_{K-1}` of the first. -/
theorem lle_weights_read_outside_w {R : Type} [Field R] (env : LleEnv R)
    (s : IntrinsicDecomposition R) (K : Nat) (pos : List (Nat × Nat)) (i : Nat)
    (nn : List Nat) (hK : 0 < K) :
    lleRow env s K pos i nn = none := by
  unfold lleRow
  apply bind_none_of
  intro found
  show (if K < (found.filter (fun nk => nk ≠ i)).length then none else _) = none
  split
  · rfl
  · apply bind_none_of
    intro pi
    apply bind_none_of
    intro ni
    apply bind_none_of
    intro zrows
    simp only [sumColumn_second_column K _ hK]
    rfl

theorem lle_weights_read_outside_w_witness :
    0 < 3 ∧
    lleRow Sample.lleEnv Sample.onePixel 3 [(0, 0)] 0 [0, 0, 0, 0] = none ∧
    ({ rows := 3, cols := 1, data := [1, 2, 3] } : Mat1d ℚ).at 0 0 = some 1 ∧
    ({ rows := 3, cols := 1, data := [1, 2, 3] } : Mat1d ℚ).at 0 1 = none ∧
    getGridLLEMatrix Sample.lleEnv 10 6 Sample.onePixel = none :=
  ⟨by decide,
    lle_weights_read_outside_w Sample.lleEnv Sample.onePixel 3 [(0, 0)] 0 [0, 0, 0, 0]
      (by decide),
    by decide, by decide, by decide⟩

/-- C19, on the code: whenever `getGridLLEMatrix` runs to its end, `LLENORMAL`
is what it was before the call (the zero matrix of `initialize`): no statement
of the function assigns it. The triplets of the loop headed "for LLENORMAL"
are stored in `LLEGRID` and then replaced there by the triplets of the loop
headed "for LLEGRID", so `LLEGRID` ends as the matrix of the second loop. -/
theorem LLENORMAL_is_never_assigned {R : Type} [LinearOrderedField R] (env : LleEnv R)
    (K g_size : Nat) (s s1 : IntrinsicDecomposition R)
    (h : getGridLLEMatrix env K g_size s = some s1) :
    s1.LLENORMAL = s.LLENORMAL ∧
    ∃ Ngrid gp tp1 tp2,
      countGrid s g_size = some Ngrid ∧ gridPoints env s g_size = some gp ∧
      lleTriplets env s K Ngrid gp.pos
          (gp.cloud3d ++ List.replicate (Ngrid - gp.pos.length) [0, 0, 0]) = some tp1 ∧
      lleTriplets env s K Ngrid gp.pos
          (gp.cloud6d ++ List.replicate (Ngrid - gp.pos.length) [0, 0, 0, 0, 0, 0]) =
        some tp2 ∧
      s1.LLEGRID = s.LLEGRID.setFromTriplets tp2 ∧
      s1.MASK = s.MASK.setFromTriplets gp.maskTriplets := by
  simp only [getGridLLEMatrix] at h
  split at h
  · cases h
  · split at h
    · rename_i Ngrid gp hN hgp
      split at h
      · cases h
      · rename_i tp1 h1
        split at h
        · cases h
        · rename_i tp2 h2
          simp only [Option.some.injEq] at h
          subst h
          exact ⟨rfl, Ngrid, gp, tp1, tp2, hN, hgp, h1, h2, rfl, rfl⟩
    · cases h

theorem LLENORMAL_is_never_assigned_witness :
    getGridLLEMatrix Sample.lleEnv 0 6 Sample.onePixel =
      some { Sample.onePixel with
        MASK := { rows := 1, cols := 1, entries := [(0, 0, 1)] },
        LLEGRID := { rows := 1, cols := 1, entries := [(0, 0, 1)] } } ∧
    lleTriplets Sample.lleEnv Sample.onePixel 0 1 [(0, 0)] [[0, 0, 1]] = some [(0, 0, 1)] ∧
    (Sample.onePixel.LLENORMAL.setFromTriplets [(0, 0, (1 : ℚ))]).coeff 0 0 = 1 ∧
    Sample.onePixel.LLENORMAL.coeff 0 0 = 0 ∧
    ({ Sample.onePixel with
        MASK := { rows := 1, cols := 1, entries := [(0, 0, 1)] },
        LLEGRID := { rows := 1, cols := 1, entries := [(0, 0, 1)] } }
      : IntrinsicDecomposition ℚ).LLENORMAL = Sample.onePixel.LLENORMAL :=
  have h : getGridLLEMatrix Sample.lleEnv 0 6 Sample.onePixel =
      some { Sample.onePixel with
        MASK := { rows := 1, cols := 1, entries := [(0, 0, 1)] },
        LLEGRID := { rows := 1, cols := 1, entries := [(0, 0, 1)] } } := by decide
  ⟨h, by decide,
    by simp [SparseMatrix.coeff, SparseMatrix.setFromTriplets],
    by simp [SparseMatrix.coeff, Sample.onePixel, SparseMatrix.zero],
    (LLENORMAL_is_never_assigned Sample.lleEnv 0 6 Sample.onePixel _ h).1⟩

end IntrinsicDecomposition

end Telef

namespace Telef

/-! ## Theorems: connection invariant and request header of the client pipe -/

namespace FeatureDetectionClientPipe

variable {R : Type}

theorem finish_pipe (q : FeatureDetectionClientPipe R) (h : Heap R) (input : Option Addr)
    (sent : List LmkReq) (out : Outcome R) (hout : finish q h input sent = some out) :
    out.pipe = q ∧ out.sent = sent := by
  unfold finish at hout
  split at hout
  · cases hout
  · simp only [Option.some.injEq] at hout
    subst hout
    exact ⟨rfl, rfl⟩

theorem disconnect_connected (p : FeatureDetectionClientPipe R) : p.disconnect.Connected := by
  intro h
  simp [disconnect] at h

theorem connect_connected (p : FeatureDetectionClientPipe R) (connectOk : Bool) :
    (p.connect connectOk).2.Connected ∧
    ((p.connect connectOk).1 = true →
      (p.connect connectOk).2.isConnected = true ∧
        (p.connect connectOk).2.clientSocket ≠ none) := by
  cases connectOk
  · rw [connect_fails]
    exact ⟨fun h => by simp at h, fun h => by simp at h⟩
  · rw [connect_succeeds]
    exact ⟨fun _ => by simp, fun _ => ⟨rfl, by simp⟩⟩

theorem send_connected (p : FeatureDetectionClientPipe R) (hp : p.Connected) (sendOk : Bool)
    (msg : LmkReq) :
    ∃ r, p.send sendOk msg = some r ∧ r.2.1.Connected ∧
      (r.1 = true → r.2.1 = p ∧ p.isConnected = true) := by
  cases hc : p.isConnected
  · exact ⟨(false, p, []), by simp [send, hc], hp, fun h => by simp at h⟩
  · obtain ⟨sock, hs⟩ := Option.ne_none_iff_exists'.mp (hp hc)
    cases sendOk
    · exact ⟨(false, p.disconnect, []), by simp [send, hc, hs], disconnect_connected p,
        fun h => by simp at h⟩
    · exact ⟨(true, p, [msg]), by simp [send, hc, hs], hp, fun _ => ⟨rfl, rfl⟩⟩

theorem recv_connected (p : FeatureDetectionClientPipe R) (hp : p.Connected)
    (ev : RecvEvent R) (msg : LmkRsp R) :
    ∃ r, p.recv ev msg = some r ∧ r.2.1.Connected := by
  cases hc : p.isConnected
  · exact ⟨(false, p, msg), by simp [recv, hc], hp⟩
  · obtain ⟨sock, hs⟩ := Option.ne_none_iff_exists'.mp (hp hc)
    cases ev with
    | raised =>
      exact ⟨(false, p.disconnect, msg), by simp [recv, hc, hs], disconnect_connected p⟩
    | parsed st m => exact ⟨(true, p, m), by simp [recv, hc, hs], hp⟩

theorem processData_connected [Neg R] (p : FeatureDetectionClientPipe R) (w : Wire R)
    (h : Heap R) (input : Option Addr) (out : Outcome R)
    (hout : _processData p w h input = some out) : out.pipe.Connected := by
  have hatt : ∀ att : Bool × FeatureDetectionClientPipe R,
      att = (if p.clientSocket = none ∨ p.isConnected = false then p.connect w.connectOk
        else (true, p)) → att.2.Connected := by
    intro att hatt
    by_cases hg : p.clientSocket = none ∨ p.isConnected = false
    · rw [if_pos hg] at hatt
      rw [hatt]
      exact (connect_connected p w.connectOk).1
    · rw [if_neg hg] at hatt
      rw [hatt]
      intro _ hn
      exact hg (Or.inl hn)
  unfold _processData at hout
  simp only at hout
  generalize hq : (if p.clientSocket = none ∨ p.isConnected = false then
    p.connect w.connectOk else (true, p)) = att at hout
  have hconn := hatt att hq.symm
  split at hout
  · rw [(finish_pipe _ _ _ _ _ hout).1]
    exact hconn
  · split at hout
    · cases hout
    · have hconn2 : ({ att.2 with msg_id := att.2.msg_id + 1 } :
          FeatureDetectionClientPipe R).Connected := hconn
      rename_i pclImage _
      obtain ⟨r, hr, hrc, _⟩ := send_connected _ hconn2 w.sendOk
        (buildRequest (att.2.msg_id + 1) pclImage)
      rw [hr] at hout
      obtain ⟨msgSent, p3, sent⟩ := r
      simp only at hout hrc
      split at hout
      · obtain ⟨r2, hr2, hrc2⟩ := recv_connected p3 hrc w.recvEvent { shape := [], data := [] }
        rw [hr2] at hout
        obtain ⟨flag, p4, rsp⟩ := r2
        simp only at hrc2
        cases flag
        · simp only at hout
          rw [(finish_pipe _ _ _ _ _ hout).1]
          exact hrc2
        · simp only at hout
          split at hout
          · cases hout
          · rw [(finish_pipe _ _ _ _ _ hout).1]
            exact hrc2
      · rw [(finish_pipe _ _ _ _ _ hout).1]
        exact hrc

/-- C21: the invariant "isConnected implies clientSocket is non-null" holds for
a freshly constructed pipe, and from a pipe that satisfies it: `connect` and
`disconnect` end in a pipe that satisfies it, on success and on failure;
`send` and `recv` return (they never reach the null dereference) with a pipe
that satisfies it, whether the transfer works, raises or is skipped; and every
pipe state that `_processData` returns with satisfies it. -/
theorem connection_invariant [Neg R] (p : FeatureDetectionClientPipe R) (hp : p.Connected)
    (address_ : String) (connectOk sendOk : Bool) (msg : LmkReq) (ev : RecvEvent R)
    (m : LmkRsp R) (w : Wire R) (h : Heap R) (input : Option Addr) :
    (new address_ : FeatureDetectionClientPipe R).Connected ∧
    (p.connect connectOk).2.Connected ∧
    p.disconnect.Connected ∧
    (∃ r, p.send sendOk msg = some r ∧ r.2.1.Connected) ∧
    (∃ r, p.recv ev m = some r ∧ r.2.1.Connected) ∧
    (∀ out, _processData p w h input = some out → out.pipe.Connected) := by
  refine ⟨?_, (connect_connected p connectOk).1, disconnect_connected p, ?_,
    recv_connected p hp ev m, fun out hout => processData_connected p w h input out hout⟩
  · intro hc
    simp [new] at hc
  · obtain ⟨r, hr, hrc, _⟩ := send_connected p hp sendOk msg
    exact ⟨r, hr, hrc⟩

theorem connection_invariant_witness :
    Sample.connectedPipe.Connected ∧
    (_processData Sample.connectedPipe Sample.wireRecvRaises Sample.heap (some 0)).map
        (fun out => (out.pipe.isConnected, out.pipe.clientSocket)) = some (false, none) ∧
    ((new "lmk.sock" : FeatureDetectionClientPipe Int).Connected ∧
    (Sample.connectedPipe.connect false).2.Connected ∧
    Sample.connectedPipe.disconnect.Connected ∧
    (∃ r, Sample.connectedPipe.send false (buildRequest 5 Sample.image) = some r ∧
      r.2.1.Connected) ∧
    (∃ r, Sample.connectedPipe.recv RecvEvent.raised { shape := [], data := [] } = some r ∧
      r.2.1.Connected) ∧
    (∀ out, _processData Sample.connectedPipe Sample.wireRecvRaises Sample.heap (some 0) =
      some out → out.pipe.Connected)) :=
  have hp : Sample.connectedPipe.Connected := by
    intro _
    simp [Sample.connectedPipe]
  ⟨hp, by decide,
    connection_invariant Sample.connectedPipe hp "lmk.sock" false false
      (buildRequest 5 Sample.image) RecvEvent.raised { shape := [], data := [] }
      Sample.wireRecvRaises Sample.heap (some 0)⟩

theorem buildRequest_hdr (msg_id : Int) (pclImage : Image) :
    (buildRequest msg_id pclImage).hdr =
      { id := msg_id, width := pclImage.height, height := pclImage.width, channels := 3 } :=
  rfl

/-- C22, evaluated: the image is 2 wide and 1 high and `msg_id` is 4 before the
call. The request that `_processData` sends has id 5 and 3 channels, but its
header carries width 1 and height 2: `set_width` is given `getHeight()` and
`set_height` is given `getWidth()`. -/
theorem request_header_swaps_width_height :
    Sample.image.getWidth = 2 ∧ Sample.image.getHeight = 1 ∧
    Sample.connectedPipe.msg_id = 4 ∧
    (_processData Sample.connectedPipe Sample.wireRecvRaises Sample.heap (some 0)).map
        (fun out => out.sent.map (fun req => req.hdr)) =
      some [{ id := 5, width := 1, height := 2, channels := 3 }] := by
  decide

end FeatureDetectionClientPipe

end Telef

namespace Telef

/-! ## Theorems: drawCorrespondence -/

namespace FittingVisualizer

theorem copy3_spec {R : Type} (src dst : List R) (so d : Nat) (hs : so + 2 < src.length)
    (hd : d + 2 < dst.length) :
    ∃ out, copy3 src so dst d = some out ∧ out.length = dst.length ∧
      (∀ c, c < 3 → out[d + c]? = src[so + c]?) ∧
      (∀ k, (k < d ∨ d + 3 ≤ k) → out[k]? = dst[k]?) := by
  have h0 : src[so]? = some src[so] := List.getElem?_eq_getElem (by omega)
  have h1 : src[so + 1]? = some src[so + 1] := List.getElem?_eq_getElem (by omega)
  have h2 : src[so + 2]? = some src[so + 2] := List.getElem?_eq_getElem (by omega)
  refine ⟨((dst.set d src[so]).set (d + 1) src[so + 1]).set (d + 2) src[so + 2], ?_, ?_, ?_, ?_⟩
  · simp only [copy3, h0, h1, h2, hd, if_true]
  · simp
  · intro c hc
    have hc3 : c = 0 ∨ c = 1 ∨ c = 2 := by omega
    rcases hc3 with rfl | rfl | rfl
    · simp only [Nat.add_zero, List.getElem?_set, List.length_set, h0]
      simp
      omega
    · simp only [List.getElem?_set, List.length_set, h1]
      simp
      omega
    · simp only [List.getElem?_set, List.length_set, h2]
      simp
      omega
  · intro k hk
    simp only [List.getElem?_set, List.length_set]
    have e0 : ¬ d = k := by omega
    have e1 : ¬ d + 1 = k := by omega
    have e2 : ¬ d + 2 = k := by omega
    simp [e0, e1, e2]

theorem corrLoop_spec {R : Type} (p1 p2 corr0 : List R) :
    ∀ m, 3 * m ≤ p1.length → 3 * m ≤ p2.length → 6 * m ≤ corr0.length →
      ∃ out, corrLoop p1 p2 m corr0 = some out ∧ out.length = corr0.length ∧
        (∀ i c, i < m → c < 3 →
          out[6 * i + c]? = p1[3 * i + c]? ∧ out[6 * i + 3 + c]? = p2[3 * i + c]?) ∧
        (∀ k, 6 * m ≤ k → out[k]? = corr0[k]?) := by
  intro m
  induction m with
  | zero =>
    intro _ _ _
    exact ⟨corr0, rfl, rfl, fun i c hi _ => by omega, fun _ _ => rfl⟩
  | succ m ih =>
    intro h1 h2 h3
    obtain ⟨c0, hc0, hlen0, hent0, hrest0⟩ := ih (by omega) (by omega) (by omega)
    obtain ⟨c1, hc1, hlen1, hent1, hrest1⟩ :=
      copy3_spec p1 c0 (3 * m) (6 * m) (by omega) (by omega)
    obtain ⟨c2, hc2, hlen2, hent2, hrest2⟩ :=
      copy3_spec p2 c1 (3 * m) (6 * m + 3) (by omega) (by omega)
    refine ⟨c2, by simp only [corrLoop, hc0, hc1, hc2], by omega, ?_, ?_⟩
    · intro i c hi hc
      by_cases him : i < m
      · obtain ⟨e1, e2⟩ := hent0 i c him hc
        constructor
        · rw [hrest2 _ (Or.inl (by omega)), hrest1 _ (Or.inl (by omega))]
          exact e1
        · rw [hrest2 _ (Or.inl (by omega)), hrest1 _ (Or.inl (by omega))]
          exact e2
      · have hi' : i = m := by omega
        subst hi'
        constructor
        · rw [hrest2 _ (Or.inl (by omega))]
          exact hent1 c hc
        · have := hent2 c hc
          rw [show 6 * i + 3 + c = 6 * i + 3 + c from rfl]
          exact this
    · intro k hk
      rw [hrest2 _ (Or.inr (by omega)), hrest1 _ (Or.inr (by omega)), hrest0 _ (by omega)]

/-- C26: for all point lists `pointSet1` and `pointSet2` of equal length `n`,
`drawCorrespondence` runs through (no read or write leaves its list) and builds
a vertex list of length `2n` in which, for every `i < n / 3` and `c` in
{0, 1, 2}, entry `6i + c` is `pointSet1[3i + c]` and entry `6i + 3 + c` is
`pointSet2[3i + c]`. -/
theorem drawCorrespondence_joins_points {R : Type} [Zero R] (pointSet1 pointSet2 : List R)
    (hlen : pointSet1.length = pointSet2.length) :
    ∃ corrLines, drawCorrespondence pointSet1 pointSet2 = some corrLines ∧
      corrLines.length = 2 * pointSet1.length ∧
      ∀ i c, i < pointSet1.length / 3 → c < 3 →
        ∃ x y, pointSet1[3 * i + c]? = some x ∧ pointSet2[3 * i + c]? = some y ∧
          corrLines[6 * i + c]? = some x ∧ corrLines[6 * i + 3 + c]? = some y := by
  obtain ⟨out, hout, hl, hent, _⟩ :=
    corrLoop_spec pointSet1 pointSet2 (List.replicate (pointSet1.length * 2) (0 : R))
      (pointSet1.length / 3) (by omega) (by omega) (by simp; omega)
  refine ⟨out, ?_, ?_, ?_⟩
  · simp only [drawCorrespondence, hlen, ne_eq, not_true_eq_false, if_false]
    rw [← hlen]
    exact hout
  · rw [hl]
    simp
    omega
  · intro i c hi hc
    obtain ⟨e1, e2⟩ := hent i c hi hc
    have b1 : 3 * i + c < pointSet1.length := by omega
    have b2 : 3 * i + c < pointSet2.length := by omega
    refine ⟨pointSet1[3 * i + c], pointSet2[3 * i + c], List.getElem?_eq_getElem b1,
      List.getElem?_eq_getElem b2, ?_, ?_⟩
    · rw [e1]
      exact List.getElem?_eq_getElem b1
    · rw [e2]
      exact List.getElem?_eq_getElem b2

theorem drawCorrespondence_joins_points_witness :
    [1, 2, 3, 4, 5, 6, 7].length = [11, 12, 13, 14, 15, 16, 17].length ∧
    drawCorrespondence [1, 2, 3, 4, 5, 6, 7] [11, 12, 13, 14, 15, 16, (17 : Int)] =
      some [1, 2, 3, 11, 12, 13, 4, 5, 6, 14, 15, 16, 0, 0] ∧
    drawCorrespondence [1, 2, 3] [11, 12, 13, (14 : Int)] = none ∧
    ∃ corrLines, drawCorrespondence [1, 2, 3, 4, 5, 6, 7] [11, 12, 13, 14, 15, 16, (17 : Int)] =
        some corrLines ∧
      corrLines.length = 2 * [1, 2, 3, 4, 5, 6, (7 : Int)].length ∧
      ∀ i c, i < [1, 2, 3, 4, 5, 6, (7 : Int)].length / 3 → c < 3 →
        ∃ x y, [1, 2, 3, 4, 5, 6, (7 : Int)][3 * i + c]? = some x ∧
          [11, 12, 13, 14, 15, 16, (17 : Int)][3 * i + c]? = some y ∧
          corrLines[6 * i + c]? = some x ∧ corrLines[6 * i + 3 + c]? = some y :=
  ⟨by decide, by decide, by decide,
    drawCorrespondence_joins_points [1, 2, 3, 4, 5, 6, 7] [11, 12, 13, 14, 15, 16, (17 : Int)]
      (by decide)⟩

end FittingVisualizer

end Telef

namespace Telef

/-! ## Theorems: getMask -/

namespace IntrinsicDecomposition

variable {R : Type}

theorem pixels_succ (w h : Nat) :
    pixels w (h + 1) = pixels w h ++ (List.range w).map (fun j => (h, j)) := by
  simp [pixels, List.range_succ, List.flatMap_append]

theorem pixels_map_linear (w h : Nat) :
    (pixels w h).map (fun p => p.1 * w + p.2) = List.range (h * w) := by
  induction h with
  | zero => simp [pixels]
  | succ h ih =>
    rw [pixels_succ, List.map_append, ih, Nat.succ_mul, List.range_add]
    simp [Function.comp_def]

theorem mem_pixels (w h : Nat) (p : Nat × Nat) :
    p ∈ pixels w h ↔ p.1 < h ∧ p.2 < w := by
  obtain ⟨a, b⟩ := p
  simp only [pixels, List.mem_flatMap, List.mem_range, List.mem_map, Prod.mk.injEq]
  constructor
  · rintro ⟨i, hi, j, hj, rfl, rfl⟩
    exact ⟨hi, hj⟩
  · rintro ⟨ha, hb⟩
    exact ⟨a, ha, b, hb, rfl, rfl⟩

theorem linear_lt (w h : Nat) (p : Nat × Nat) (hp : p ∈ pixels w h) :
    p.1 * w + p.2 < h * w := by
  have hmem : p.1 * w + p.2 ∈ (pixels w h).map (fun p => p.1 * w + p.2) :=
    List.mem_map_of_mem _ hp
  rw [pixels_map_linear] at hmem
  exact List.mem_range.mp hmem

theorem maskStep_spec (w : Nat) (depth : List Nat) (s : IntrinsicDecomposition R) (n : Nat)
    (p : Nat × Nat) (hd : p.1 * w + p.2 < depth.length) (hm : p.1 * w + p.2 < s.mask.length)
    (hi : p.1 * w + p.2 < s.index.length) :
    maskStep w depth (s, n) p =
      some (if validDepth w depth p then
          ({ s with mask := s.mask.set (p.1 * w + p.2) true,
                    index := s.index.set (p.1 * w + p.2) n,
                    indexMapping := s.indexMapping ++ [p] }, n + 1)
        else ({ s with mask := s.mask.set (p.1 * w + p.2) false }, n)) := by
  have hget : depth[p.1 * w + p.2]? = some depth[p.1 * w + p.2] :=
    List.getElem?_eq_getElem hd
  simp only [maskStep, validDepth, hget, hm, if_true]
  by_cases hv : depth[p.1 * w + p.2] = INVALID
  · simp [hv]
  · simp [hv, hi]

theorem maskFold_spec (w : Nat) (depth : List Nat) (s0 : IntrinsicDecomposition R) (n0 : Nat)
    (ps : List (Nat × Nat)) :
    (ps.map (fun p => p.1 * w + p.2)).Nodup →
    (∀ p ∈ ps, p.1 * w + p.2 < depth.length) →
    (∀ p ∈ ps, p.1 * w + p.2 < s0.mask.length) →
    (∀ p ∈ ps, p.1 * w + p.2 < s0.index.length) →
    ∃ s1 n1, ps.foldlM (maskStep w depth) (s0, n0) = some (s1, n1) ∧
      s1.mask.length = s0.mask.length ∧ s1.index.length = s0.index.length ∧
      s1.indexMapping = s0.indexMapping ++ ps.filter (validDepth w depth) ∧
      n1 = n0 + (ps.filter (validDepth w depth)).length ∧
      (∀ p ∈ ps, s1.mask[p.1 * w + p.2]? = some (validDepth w depth p)) ∧
      (∀ t p, ps[t]? = some p → validDepth w depth p = true →
        s1.index[p.1 * w + p.2]? =
          some (n0 + ((ps.take t).filter (validDepth w depth)).length)) := by
  induction ps using List.reverseRecOn with
  | nil =>
    intro _ _ _ _
    exact ⟨s0, n0, rfl, rfl, rfl, by simp, by simp, by simp, by simp⟩
  | append_singleton qs p ih =>
    intro hnd hd hm hi
    rw [List.map_append, List.nodup_append] at hnd
    obtain ⟨hnq, _, hdisj⟩ := hnd
    have hne : ∀ q ∈ qs, p.1 * w + p.2 ≠ q.1 * w + q.2 := by
      intro q hq heq
      have h1 : q.1 * w + q.2 ∈ qs.map (fun p => p.1 * w + p.2) := List.mem_map_of_mem _ hq
      have h2 : q.1 * w + q.2 ∈ [p].map (fun p => p.1 * w + p.2) := by simp [heq]
      exact hdisj h1 h2
    obtain ⟨s1, n1, hfold, hml, hil, him, hn1, hmask, hindex⟩ :=
      ih hnq (fun q hq => hd q (List.mem_append_left _ hq))
        (fun q hq => hm q (List.mem_append_left _ hq))
        (fun q hq => hi q (List.mem_append_left _ hq))
    have hpd := hd p (List.mem_append_right _ (List.mem_singleton_self p))
    have hpm : p.1 * w + p.2 < s1.mask.length := by
      rw [hml]
      exact hm p (List.mem_append_right _ (List.mem_singleton_self p))
    have hpi : p.1 * w + p.2 < s1.index.length := by
      rw [hil]
      exact hi p (List.mem_append_right _ (List.mem_singleton_self p))
    have hstep := maskStep_spec w depth s1 n1 p hpd hpm hpi
    have hrun : (qs ++ [p]).foldlM (maskStep w depth) (s0, n0) =
        maskStep w depth (s1, n1) p := by
      rw [List.foldlM_append, hfold]
      simp [List.foldlM_cons]
    rw [hrun, hstep]
    by_cases hv : validDepth w depth p = true
    · simp only [hv, if_true]
      refine ⟨_, _, rfl, by simp [hml], by simp [hil], ?_, ?_, ?_, ?_⟩
      · simp [him, List.filter_append, hv]
      · simp [hn1, List.filter_append, hv]
        omega
      · intro q hq
        rcases List.mem_append.mp hq with hq1 | hq1
        · simp only
          rw [List.getElem?_set_ne (hne q hq1)]
          exact hmask q hq1
        · rw [List.mem_singleton.mp hq1]
          simp only
          rw [List.getElem?_set_self hpm, hv]
      · intro t q ht hvq
        by_cases htl : t < qs.length
        · rw [List.getElem?_append_left htl] at ht
          have hq : q ∈ qs := List.mem_iff_getElem?.mpr ⟨t, ht⟩
          simp only
          rw [List.getElem?_set_ne (hne q hq), List.take_append_of_le_length (le_of_lt htl)]
          exact hindex t q ht hvq
        · have htl2 : t = qs.length := by
            have hlt : t < (qs ++ [p]).length := by
              by_contra hcon
              rw [List.getElem?_eq_none (by omega)] at ht
              cases ht
            simp at hlt
            omega
          subst htl2
          rw [List.getElem?_append_right (le_refl _)] at ht
          simp at ht
          subst ht
          simp only
          rw [List.getElem?_set_self hpi, hn1]
          simp
    · have hv2 : validDepth w depth p = false := by
        cases h : validDepth w depth p
        · rfl
        · exact absurd h hv
      simp only [hv2, Bool.false_eq_true, if_false]
      refine ⟨_, _, rfl, by simp [hml], hil, ?_, ?_, ?_, ?_⟩
      · simp [him, List.filter_append, hv2]
      · simp [hn1, List.filter_append, hv2]
      · intro q hq
        rcases List.mem_append.mp hq with hq1 | hq1
        · simp only
          rw [List.getElem?_set_ne (hne q hq1)]
          exact hmask q hq1
        · rw [List.mem_singleton.mp hq1]
          simp only
          rw [List.getElem?_set_self hpm, hv2]
      · intro t q ht hvq
        by_cases htl : t < qs.length
        · rw [List.getElem?_append_left htl] at ht
          simp only
          rw [List.take_append_of_le_length (le_of_lt htl)]
          exact hindex t q ht hvq
        · have htl2 : t = qs.length := by
            have hlt : t < (qs ++ [p]).length := by
              by_contra hcon
              rw [List.getElem?_eq_none (by omega)] at ht
              cases ht
            simp at hlt
            omega
          subst htl2
          rw [List.getElem?_append_right (le_refl _)] at ht
          simp at ht
          subst ht
          rw [hv2] at hvq
          cases hvq

theorem filter_getElem_count {α : Type} (f : α → Bool) :
    ∀ (l : List α) (t : Nat) (x : α), l[t]? = some x → f x = true →
      (l.filter f)[((l.take t).filter f).length]? = some x
  | [], t, x, h, _ => by simp at h
  | a :: l, 0, x, h, hf => by
    simp at h
    subst h
    simp [hf]
  | a :: l, t + 1, x, h, hf => by
    simp at h
    have ih := filter_getElem_count f l t x h hf
    by_cases ha : f a = true
    · simp [List.filter_cons, ha, ih]
    · simp [List.filter_cons, ha, ih]

theorem nodup_getElem_inj {α : Type} {l : List α} (hn : l.Nodup) {a b : Nat} {x : α}
    (h1 : l[a]? = some x) (h2 : l[b]? = some x) : a = b := by
  have ha : a < l.length := by
    by_contra hc
    rw [List.getElem?_eq_none (by omega)] at h1
    cases h1
  have hb : b < l.length := by
    by_contra hc
    rw [List.getElem?_eq_none (by omega)] at h2
    cases h2
  rw [List.getElem?_eq_getElem ha] at h1
  rw [List.getElem?_eq_getElem hb] at h2
  exact (List.Nodup.getElem_inj_iff hn).mp ((Option.some.inj h1).trans (Option.some.inj h2).symm)

theorem pixels_getElem (w h i j : Nat) (hi : i < h) (hj : j < w) :
    (pixels w h)[i * w + j]? = some (i, j) := by
  have hmem : (i, j) ∈ pixels w h := (mem_pixels w h (i, j)).mpr ⟨hi, hj⟩
  obtain ⟨t, ht⟩ := List.mem_iff_getElem?.mp hmem
  have h1 : ((pixels w h).map (fun p => p.1 * w + p.2))[t]? = some (i * w + j) := by
    rw [List.getElem?_map, ht]
    rfl
  rw [pixels_map_linear] at h1
  have hlt : t < h * w := by
    by_contra hc
    rw [List.getElem?_eq_none (by simpa using hc)] at h1
    cases h1
  rw [List.getElem?_range hlt] at h1
  rw [← Option.some.inj h1]
  exact ht

theorem pixels_nodup (w h : Nat) : (pixels w h).Nodup := by
  have hn : ((pixels w h).map (fun p => p.1 * w + p.2)).Nodup := by
    rw [pixels_map_linear]
    exact List.nodup_range _
  exact List.Nodup.of_map _ hn

/-- C23: started with an empty indexMapping on arrays that hold width * height cells,
getMask returns, and afterwards (a) the mask of every pixel (i, j) of the image says whether
its depth differs from 65535, (b) indexMapping lists exactly the valid pixels in row-major
order, so it has as many entries as there are valid pixels, (c) a valid pixel (i, j) has as
index the number of valid pixels before it in row-major order and indexMapping holds (i, j) at
that index, and (d) whenever indexMapping holds (a, b) at k, the index of pixel (a, b) is k. -/
theorem getMask_bijection (s : IntrinsicDecomposition R) (depth : List Nat)
    (hmap : s.indexMapping = [])
    (hd : s.height * s.width ≤ depth.length)
    (hm : s.height * s.width ≤ s.mask.length)
    (hi : s.height * s.width ≤ s.index.length) :
    ∃ s1, getMask s depth = some s1 ∧
      (∀ i j, i < s.height → j < s.width →
        ∃ d, depth[i * s.width + j]? = some d ∧
          s1.mask[i * s.width + j]? = some (decide (d ≠ 65535))) ∧
      s1.indexMapping = (pixels s.width s.height).filter (validDepth s.width depth) ∧
      (∀ i j, i < s.height → j < s.width → s1.mask[i * s.width + j]? = some true →
        ∃ k, s1.index[i * s.width + j]? = some k ∧
          k = (((pixels s.width s.height).take (i * s.width + j)).filter
            (validDepth s.width depth)).length ∧
          s1.indexMapping[k]? = some (i, j)) ∧
      (∀ k a b, s1.indexMapping[k]? = some (a, b) → s1.index[a * s.width + b]? = some k) := by
  have hnd : ((pixels s.width s.height).map (fun p => p.1 * s.width + p.2)).Nodup := by
    rw [pixels_map_linear]
    exact List.nodup_range _
  obtain ⟨s1, n1, hfold, _, _, him, _, hmask, hindex⟩ :=
    maskFold_spec s.width depth s 0 (pixels s.width s.height) hnd
      (fun p hp => lt_of_lt_of_le (linear_lt _ _ p hp) hd)
      (fun p hp => lt_of_lt_of_le (linear_lt _ _ p hp) hm)
      (fun p hp => lt_of_lt_of_le (linear_lt _ _ p hp) hi)
  rw [hmap, List.nil_append] at him
  have hvalid : ∀ i j, i < s.height → j < s.width →
      validDepth s.width depth (i, j) = true →
      s1.index[i * s.width + j]? = some (((pixels s.width s.height).take
          (i * s.width + j)).filter (validDepth s.width depth)).length ∧
        s1.indexMapping[(((pixels s.width s.height).take
          (i * s.width + j)).filter (validDepth s.width depth)).length]? = some (i, j) := by
    intro i j hi1 hj1 hv
    have hp := pixels_getElem s.width s.height i j hi1 hj1
    constructor
    · have h := hindex (i * s.width + j) (i, j) hp hv
      simpa using h
    · rw [him]
      exact filter_getElem_count _ _ _ _ hp hv
  refine ⟨s1, ?_, ?_, him, ?_, ?_⟩
  · simp [getMask, hfold]
  · intro i j hi1 hj1
    have hlt : i * s.width + j < depth.length :=
      lt_of_lt_of_le (linear_lt _ _ (i, j) ((mem_pixels _ _ _).mpr ⟨hi1, hj1⟩)) hd
    refine ⟨depth[i * s.width + j], List.getElem?_eq_getElem hlt, ?_⟩
    have h := hmask (i, j) ((mem_pixels _ _ _).mpr ⟨hi1, hj1⟩)
    simp only [validDepth, List.getElem?_eq_getElem hlt, INVALID] at h
    exact h
  · intro i j hi1 hj1 hmk
    have h := hmask (i, j) ((mem_pixels _ _ _).mpr ⟨hi1, hj1⟩)
    simp only at h
    rw [h] at hmk
    have hv : validDepth s.width depth (i, j) = true := Option.some.inj hmk
    obtain ⟨h1, h2⟩ := hvalid i j hi1 hj1 hv
    exact ⟨_, h1, rfl, h2⟩
  · intro k a b hk
    have hmem : (a, b) ∈ s1.indexMapping := List.mem_iff_getElem?.mpr ⟨k, hk⟩
    rw [him, List.mem_filter] at hmem
    obtain ⟨hpx, hv⟩ := hmem
    obtain ⟨ha, hb⟩ := (mem_pixels _ _ _).mp hpx
    obtain ⟨h1, h2⟩ := hvalid a b ha hb hv
    have hn : s1.indexMapping.Nodup := by
      rw [him]
      exact List.Nodup.filter _ (pixels_nodup _ _)
    rw [nodup_getElem_inj hn hk h2]
    exact h1

/-- The bijection of C23 on a 2 x 2 image whose second pixel has depth 65535. -/
theorem getMask_bijection_witness :
    ∃ s1, getMask Sample.fresh2x2 [100, 65535, 7, 8] = some s1 ∧
      (∀ i j, i < Sample.fresh2x2.height → j < Sample.fresh2x2.width →
        ∃ d, [100, 65535, 7, 8][i * Sample.fresh2x2.width + j]? = some d ∧
          s1.mask[i * Sample.fresh2x2.width + j]? = some (decide (d ≠ 65535))) ∧
      s1.indexMapping = (pixels Sample.fresh2x2.width Sample.fresh2x2.height).filter
        (validDepth Sample.fresh2x2.width [100, 65535, 7, 8]) ∧
      (∀ i j, i < Sample.fresh2x2.height → j < Sample.fresh2x2.width →
        s1.mask[i * Sample.fresh2x2.width + j]? = some true →
        ∃ k, s1.index[i * Sample.fresh2x2.width + j]? = some k ∧
          k = (((pixels Sample.fresh2x2.width Sample.fresh2x2.height).take
            (i * Sample.fresh2x2.width + j)).filter
            (validDepth Sample.fresh2x2.width [100, 65535, 7, 8])).length ∧
          s1.indexMapping[k]? = some (i, j)) ∧
      (∀ k a b, s1.indexMapping[k]? = some (a, b) →
        s1.index[a * Sample.fresh2x2.width + b]? = some k) :=
  getMask_bijection Sample.fresh2x2 [100, 65535, 7, 8] rfl (by decide) (by decide) (by decide)

end IntrinsicDecomposition

end Telef

namespace Telef

/-! ## Theorems: the averaging divisors of getVarianceMap and getLaplacian -/

namespace IntrinsicDecomposition

variable {R : Type}

theorem foldlM_count {α β : Type} (f : β → α → Option β) (cnt : β → Nat) (c : α)
    (htot : ∀ b x, ∃ b1, f b x = some b1 ∧ cnt b ≤ cnt b1)
    (hc : ∀ b, ∃ b1, f b c = some b1 ∧ cnt b + 1 ≤ cnt b1) :
    ∀ (l : List α) (b : β), ∃ b1, l.foldlM f b = some b1 ∧ cnt b ≤ cnt b1 ∧
      (c ∈ l → cnt b + 1 ≤ cnt b1) := by
  intro l
  induction l with
  | nil =>
    intro b
    exact ⟨b, rfl, le_refl _, by simp⟩
  | cons x l ih =>
    intro b
    obtain ⟨b1, hb1, hle1⟩ := htot b x
    obtain ⟨b2, hb2, hle2, hmem2⟩ := ih b1
    refine ⟨b2, ?_, le_trans hle1 hle2, ?_⟩
    · rw [List.foldlM_cons, hb1]
      exact hb2
    · intro hin
      rcases List.mem_cons.mp hin with hx | hx
      · obtain ⟨b3, hb3, hle3⟩ := hc b
        rw [hx, hb1] at hb3
        rw [← Option.some.inj hb3] at hle3
        exact le_trans hle3 hle2
      · exact le_trans (Nat.succ_le_succ hle1) (hmem2 hx)

theorem cell_bounds (w h : Nat) (qi qj : Int) (h1 : 0 ≤ qi) (h2 : qi < (h : Int))
    (h3 : 0 ≤ qj) (h4 : qj < (w : Int)) :
    (qi * (w : Int) + qj).toNat < h * w ∧
    (∀ m : Nat, m < 3 → (3 * qi * (w : Int) + 3 * qj + (m : Int)).toNat < 3 * h * w) ∧
    (∀ m : Nat, m < 3 → (3 * (qi * (w : Int) + qj) + (m : Int)).toNat < 3 * h * w) := by
  lift qi to ℕ using h1
  lift qj to ℕ using h3
  have h2n : qi < h := by exact_mod_cast h2
  have h4n : qj < w := by exact_mod_cast h4
  have hlin : qi * w + qj < h * w := by
    have hle : (qi + 1) * w ≤ h * w := Nat.mul_le_mul_right w h2n
    rw [Nat.succ_mul] at hle
    omega
  have hassoc : 3 * h * w = 3 * (h * w) := Nat.mul_assoc 3 h w
  refine ⟨?_, ?_, ?_⟩
  · have e : ((qi : Int) * (w : Int) + (qj : Int)) = ((qi * w + qj : Nat) : Int) := by
      push_cast
      ring
    rw [e, Int.toNat_ofNat]
    exact hlin
  · intro m hm
    have e : (3 * (qi : Int) * (w : Int) + 3 * (qj : Int) + (m : Int)) =
        ((3 * (qi * w + qj) + m : Nat) : Int) := by
      push_cast
      ring
    rw [e, Int.toNat_ofNat, hassoc]
    omega
  · intro m hm
    have e : (3 * ((qi : Int) * (w : Int) + (qj : Int)) + (m : Int)) =
        ((3 * (qi * w + qj) + m : Nat) : Int) := by
      push_cast
      rfl
    rw [e, Int.toNat_ofNat, hassoc]
    omega

theorem varianceCell_total [Field R] (s : IntrinsicDecomposition R) (i j : Nat)
    (hmask : s.height * s.width ≤ s.mask.length)
    (hn : 3 * s.height * s.width ≤ s.nMap.length)
    (acc : VarianceSums R) (kl : Int × Int) :
    ∃ a, varianceCell s i j acc kl = some a ∧ acc.cnt ≤ a.cnt := by
  unfold varianceCell
  dsimp only
  split_ifs with hout
  · exact ⟨acc, rfl, le_refl _⟩
  · obtain ⟨hb1, hb2, _⟩ :=
      cell_bounds s.width s.height ((i : Int) + kl.1) ((j : Int) + kl.2)
        (by omega) (by omega) (by omega) (by omega)
    have hm := List.getElem?_eq_getElem (lt_of_lt_of_le hb1 hmask)
    have h0 := List.getElem?_eq_getElem (lt_of_lt_of_le (hb2 0 (by omega)) hn)
    have h1 := List.getElem?_eq_getElem (lt_of_lt_of_le (hb2 1 (by omega)) hn)
    have h2 := List.getElem?_eq_getElem (lt_of_lt_of_le (hb2 2 (by omega)) hn)
    simp only [Nat.cast_zero, Nat.cast_one, Nat.cast_ofNat] at h0 h1 h2
    rw [hm, h0, h1, h2]
    cases s.mask[((i : Int) + kl.1) * (s.width : Int) + ((j : Int) + kl.2) |>.toNat]
    · exact ⟨acc, rfl, le_refl _⟩
    · exact ⟨_, rfl, Nat.le_succ _⟩

theorem centre_index (w i j : Nat) :
    (((i : Int) + 0) * (w : Int) + ((j : Int) + 0)).toNat = i * w + j := by
  have e : (((i : Int) + 0) * (w : Int) + ((j : Int) + 0)) = ((i * w + j : Nat) : Int) := by
    push_cast
    ring
  rw [e, Int.toNat_ofNat]

theorem varianceCell_centre [Field R] (s : IntrinsicDecomposition R) (i j : Nat)
    (hi : i < s.height) (hj : j < s.width)
    (hvalid : s.mask[i * s.width + j]? = some true)
    (hn : 3 * s.height * s.width ≤ s.nMap.length) (acc : VarianceSums R) :
    ∃ a, varianceCell s i j acc (0, 0) = some a ∧ acc.cnt + 1 ≤ a.cnt := by
  unfold varianceCell
  dsimp only
  split_ifs with hout
  · omega
  · obtain ⟨_, hb2, _⟩ :=
      cell_bounds s.width s.height ((i : Int) + 0) ((j : Int) + 0)
        (by omega) (by omega) (by omega) (by omega)
    have h0 := List.getElem?_eq_getElem (lt_of_lt_of_le (hb2 0 (by omega)) hn)
    have h1 := List.getElem?_eq_getElem (lt_of_lt_of_le (hb2 1 (by omega)) hn)
    have h2 := List.getElem?_eq_getElem (lt_of_lt_of_le (hb2 2 (by omega)) hn)
    simp only [Nat.cast_zero, Nat.cast_one, Nat.cast_ofNat] at h0 h1 h2
    rw [centre_index, hvalid, h0, h1, h2]
    exact ⟨_, rfl, le_refl _⟩

theorem laplacianCell_total [Field R] (s : IntrinsicDecomposition R) (i j : Nat)
    (hmask : s.height * s.width ≤ s.mask.length)
    (hindex : s.height * s.width ≤ s.index.length)
    (hcolor : 3 * s.height * s.width ≤ s.color.length)
    (acc : LaplacianWindow R) (d : Int × Int) :
    ∃ a, laplacianCell s i j acc d = some a ∧ acc.cnt ≤ a.cnt := by
  unfold laplacianCell
  dsimp only
  split_ifs with hout
  · exact ⟨acc, rfl, le_refl _⟩
  · obtain ⟨hb1, _, hb3⟩ :=
      cell_bounds s.width s.height ((i : Int) + d.1) ((j : Int) + d.2)
        (by omega) (by omega) (by omega) (by omega)
    have hm := List.getElem?_eq_getElem (lt_of_lt_of_le hb1 hmask)
    have hx := List.getElem?_eq_getElem (lt_of_lt_of_le hb1 hindex)
    have h0 := List.getElem?_eq_getElem (lt_of_lt_of_le (hb3 0 (by omega)) hcolor)
    have h1 := List.getElem?_eq_getElem (lt_of_lt_of_le (hb3 1 (by omega)) hcolor)
    have h2 := List.getElem?_eq_getElem (lt_of_lt_of_le (hb3 2 (by omega)) hcolor)
    simp only [Nat.cast_zero, Nat.cast_one, Nat.cast_ofNat] at h0 h1 h2
    rw [hm, hx, h0, h1, h2]
    cases s.mask[((i : Int) + d.1) * (s.width : Int) + ((j : Int) + d.2) |>.toNat]
    · exact ⟨acc, rfl, le_refl _⟩
    · exact ⟨_, rfl, Nat.le_succ _⟩

theorem laplacianCell_centre [Field R] (s : IntrinsicDecomposition R) (i j : Nat)
    (hi : i < s.height) (hj : j < s.width)
    (hvalid : s.mask[i * s.width + j]? = some true)
    (hindex : s.height * s.width ≤ s.index.length)
    (hcolor : 3 * s.height * s.width ≤ s.color.length) (acc : LaplacianWindow R) :
    ∃ a, laplacianCell s i j acc (0, 0) = some a ∧ acc.cnt + 1 ≤ a.cnt := by
  unfold laplacianCell
  dsimp only
  split_ifs with hout
  · omega
  · obtain ⟨hb1, _, hb3⟩ :=
      cell_bounds s.width s.height ((i : Int) + 0) ((j : Int) + 0)
        (by omega) (by omega) (by omega) (by omega)
    have hx := List.getElem?_eq_getElem (lt_of_lt_of_le hb1 hindex)
    have h0 := List.getElem?_eq_getElem (lt_of_lt_of_le (hb3 0 (by omega)) hcolor)
    have h1 := List.getElem?_eq_getElem (lt_of_lt_of_le (hb3 1 (by omega)) hcolor)
    have h2 := List.getElem?_eq_getElem (lt_of_lt_of_le (hb3 2 (by omega)) hcolor)
    simp only [Nat.cast_zero, Nat.cast_one, Nat.cast_ofNat] at h0 h1 h2
    have hmk : s.mask[(((i : Int) + 0) * (s.width : Int) + ((j : Int) + 0)).toNat]? =
        some true := by
      rw [centre_index]
      exact hvalid
    rw [hmk, hx, h0, h1, h2]
    exact ⟨_, rfl, le_refl _⟩

theorem windowRange_zero (p_size : Int) (h : 0 ≤ p_size) : (0 : Int) ∈ windowRange p_size := by
  lift p_size to ℕ using h
  have e : (2 * (p_size : Int) + 1).toNat = 2 * p_size + 1 := by
    have e1 : (2 * (p_size : Int) + 1) = ((2 * p_size + 1 : Nat) : Int) := by
      push_cast
      rfl
    rw [e1, Int.toNat_ofNat]
  unfold windowRange
  rw [e]
  simp only [List.mem_map, List.mem_range]
  exact ⟨p_size, by omega, by omega⟩

/-- C25: at a valid pixel (i, j) (inside the image and masked valid) of a decomposition whose
arrays hold width * height cells, (1) for patch_size >= 0 the window loops of getVarianceMap
finish with cnt >= 1, and that cnt is the divisor of the variance stored in vMap; (2) the
gathering loop of getLaplacian finishes with cnt >= 1, and that cnt is the divisor of mu. -/
theorem averaging_divisor_positive [Field R] (s : IntrinsicDecomposition R)
    (patch_size : Int) (i j : Nat)
    (hps : 0 ≤ patch_size) (hi : i < s.height) (hj : j < s.width)
    (hvalid : s.mask[i * s.width + j]? = some true)
    (hmask : s.height * s.width ≤ s.mask.length)
    (hnMap : 3 * s.height * s.width ≤ s.nMap.length)
    (hvMap : s.height * s.width ≤ s.vMap.length)
    (hindex : s.height * s.width ≤ s.index.length)
    (hcolor : 3 * s.height * s.width ≤ s.color.length) :
    (∃ a, varianceWindow s (Int.tdiv patch_size 2) i j = some a ∧ 1 ≤ a.cnt ∧
      varianceStep (Int.tdiv patch_size 2) s (i, j) =
        some { s with vMap := s.vMap.set (s.width * i + j)
                                (a.pp / (a.cnt : R) - a.p0 / (a.cnt : R) * (a.p0 / (a.cnt : R))
                                  - a.p1 / (a.cnt : R) * (a.p1 / (a.cnt : R))
                                  - a.p2 / (a.cnt : R) * (a.p2 / (a.cnt : R))) }) ∧
    (∃ a, laplacianGather s i j = some a ∧ 1 ≤ a.cnt ∧
      laplacianMean s i j =
        some { a with mu0 := a.mu0 / (a.cnt : R), mu1 := a.mu1 / (a.cnt : R),
                      mu2 := a.mu2 / (a.cnt : R) }) := by
  have hp : 0 ≤ Int.tdiv patch_size 2 := Int.tdiv_nonneg hps (by decide)
  have h0 := windowRange_zero _ hp
  constructor
  · obtain ⟨a, ha, _, hcnt⟩ :=
      foldlM_count (varianceCell s i j) (fun a => a.cnt) (0, 0)
        (varianceCell_total s i j hmask hnMap)
        (varianceCell_centre s i j hi hj hvalid hnMap)
        ((windowRange (Int.tdiv patch_size 2)).flatMap
          (fun k => (windowRange (Int.tdiv patch_size 2)).map (fun l => (k, l))))
        { cnt := 0, p0 := 0, p1 := 0, p2 := 0, pp := 0 }
    have hmem : ((0 : Int), (0 : Int)) ∈ (windowRange (Int.tdiv patch_size 2)).flatMap
        (fun k => (windowRange (Int.tdiv patch_size 2)).map (fun l => (k, l))) :=
      List.mem_flatMap.mpr ⟨0, h0, List.mem_map.mpr ⟨0, h0, rfl⟩⟩
    have hlt : s.width * i + j < s.vMap.length := by
      have h1 : (i + 1) * s.width ≤ s.height * s.width := Nat.mul_le_mul_right _ hi
      rw [Nat.succ_mul] at h1
      rw [Nat.mul_comm s.width i]
      omega
    refine ⟨a, ha, by simpa using hcnt hmem, ?_⟩
    unfold varianceStep
    dsimp only
    rw [hvalid]
    dsimp only
    rw [show varianceWindow s (Int.tdiv patch_size 2) i j = some a from ha]
    dsimp only
    rw [if_pos hlt]
  · obtain ⟨a, ha, _, hcnt⟩ :=
      foldlM_count (laplacianCell s i j) (fun a => a.cnt) (0, 0)
        (laplacianCell_total s i j hmask hindex hcolor)
        (laplacianCell_centre s i j hi hj hvalid hindex hcolor)
        laplacianOffsets { cnt := 0, pp := [], win := [], mu0 := 0, mu1 := 0, mu2 := 0 }
    have hmem : ((0 : Int), (0 : Int)) ∈ laplacianOffsets := by
      simp [laplacianOffsets]
    refine ⟨a, ha, by simpa using hcnt hmem, ?_⟩
    unfold laplacianMean
    rw [show laplacianGather s i j = some a from ha]
    rfl

/-- The divisors of C25 at pixel (0, 0) of the masked 2 by 2 image, with patch_size 3. -/
theorem averaging_divisor_positive_witness :
    (∃ a, varianceWindow Sample.masked2x2 (Int.tdiv 3 2) 0 0 = some a ∧ 1 ≤ a.cnt ∧
      varianceStep (Int.tdiv 3 2) Sample.masked2x2 (0, 0) =
        some { Sample.masked2x2 with
                 vMap := Sample.masked2x2.vMap.set (Sample.masked2x2.width * 0 + 0)
                   (a.pp / (a.cnt : ℚ) - a.p0 / (a.cnt : ℚ) * (a.p0 / (a.cnt : ℚ))
                     - a.p1 / (a.cnt : ℚ) * (a.p1 / (a.cnt : ℚ))
                     - a.p2 / (a.cnt : ℚ) * (a.p2 / (a.cnt : ℚ))) }) ∧
    (∃ a, laplacianGather Sample.masked2x2 0 0 = some a ∧ 1 ≤ a.cnt ∧
      laplacianMean Sample.masked2x2 0 0 =
        some { a with mu0 := a.mu0 / (a.cnt : ℚ), mu1 := a.mu1 / (a.cnt : ℚ),
                      mu2 := a.mu2 / (a.cnt : ℚ) }) :=
  averaging_divisor_positive Sample.masked2x2 3 0 0 (by decide) (by decide) (by decide)
    (by decide) (by decide) (by decide) (by decide) (by decide) (by decide)

end IntrinsicDecomposition

end Telef

namespace Telef

/-! ## Theorems: the constraint matrices WSC and WRC -/

namespace IntrinsicDecomposition

variable {R : Type}

theorem coeff_eq_sum [Field R] (m : SparseMatrix R) (a b : Nat) :
    m.coeff a b =
      ((m.entries.filter (fun e => decide (e.1 = a) && decide (e.2.1 = b))).map
        (fun e => e.2.2)).sum := by
  unfold SparseMatrix.coeff
  rw [List.sum_eq_foldl]

theorem coeff_entries_append [Field R] (r c : Nat) (E1 E2 : List (Nat × Nat × R))
    (a b : Nat) :
    SparseMatrix.coeff { rows := r, cols := c, entries := E1 ++ E2 } a b =
      SparseMatrix.coeff { rows := r, cols := c, entries := E1 } a b +
        SparseMatrix.coeff { rows := r, cols := c, entries := E2 } a b := by
  simp only [coeff_eq_sum, List.filter_append, List.map_append, List.sum_append]

theorem coeff_entries_cons [Field R] (r c : Nat) (t : Nat × Nat × R)
    (E : List (Nat × Nat × R)) (a b : Nat) :
    SparseMatrix.coeff { rows := r, cols := c, entries := t :: E } a b =
      (if t.1 = a ∧ t.2.1 = b then t.2.2 else 0) +
        SparseMatrix.coeff { rows := r, cols := c, entries := E } a b := by
  simp only [coeff_eq_sum, List.filter_cons]
  by_cases h : t.1 = a ∧ t.2.1 = b
  · have hd : (decide (t.1 = a) && decide (t.2.1 = b)) = true := by
      simp [h.1, h.2]
    rw [if_pos hd, if_pos h, List.map_cons, List.sum_cons]
  · have hd : ¬ (decide (t.1 = a) && decide (t.2.1 = b)) = true := by
      simpa using h
    rw [if_neg hd, if_neg h, zero_add]

theorem coeff_entries_nil [Field R] (r c : Nat) (a b : Nat) :
    SparseMatrix.coeff { rows := r, cols := c, entries := ([] : List (Nat × Nat × R)) }
      a b = 0 := by
  simp [coeff_eq_sum]

theorem coeff_quad [Field R] (r c : Nat) (e : Nat × Nat × R) (a b : Nat) :
    SparseMatrix.coeff { rows := r, cols := c, entries := quad e } a b =
      e.2.2 * (unitVec e.1 a - unitVec e.2.1 a) * (unitVec e.1 b - unitVec e.2.1 b) := by
  obtain ⟨p, q, w⟩ := e
  simp only [quad, coeff_entries_cons, coeff_entries_nil, unitVec]
  rcases Classical.propComplete (p = a) with h1 | h1 <;>
    rcases Classical.propComplete (p = b) with h2 | h2 <;>
    rcases Classical.propComplete (q = a) with h3 | h3 <;>
    rcases Classical.propComplete (q = b) with h4 | h4 <;>
    simp only [h1, h2, h3, h4, and_self, and_true, true_and, and_false, false_and, if_true,
      if_false] <;>
    ring

theorem coeff_pairs [Field R] (r c : Nat) (pairs : List (Nat × Nat × R)) (a b : Nat) :
    SparseMatrix.coeff { rows := r, cols := c, entries := pairs.flatMap quad } a b =
      (pairs.map (fun e =>
        e.2.2 * (unitVec e.1 a - unitVec e.2.1 a) * (unitVec e.1 b - unitVec e.2.1 b))).sum := by
  induction pairs with
  | nil => simp [coeff_eq_sum]
  | cons e pairs ih =>
    rw [List.flatMap_cons, coeff_entries_append, coeff_quad, ih, List.map_cons, List.sum_cons]

theorem unitVec_range_sum [Field R] (p n : Nat) :
    ((List.range n).map (fun b => (unitVec p b : R))).sum = if p < n then 1 else 0 := by
  induction n with
  | zero => simp
  | succ n ih =>
    rw [List.range_succ, List.map_append, List.sum_append, ih]
    simp only [List.map_cons, List.map_nil, List.sum_cons, List.sum_nil, add_zero, unitVec]
    by_cases h1 : p < n
    · have h2 : ¬ p = n := by omega
      have h3 : p < n + 1 := by omega
      rw [if_pos h1, if_neg h2, if_pos h3, add_zero]
    · by_cases h2 : p = n
      · have h3 : p < n + 1 := by omega
        rw [if_neg h1, if_pos h2, if_pos h3, zero_add]
      · have h3 : ¬ p < n + 1 := by omega
        rw [if_neg h1, if_neg h2, if_neg h3, zero_add]

theorem sum_map_mul_sub [Field R] {α : Type} (l : List α) (c0 : R) (f g : α → R) :
    (l.map (fun b => c0 * (f b - g b))).sum = c0 * ((l.map f).sum - (l.map g).sum) := by
  induction l with
  | nil => simp
  | cons x l ih =>
    simp only [List.map_cons, List.sum_cons, ih]
    ring

theorem rowsum_pairs [Field R] (r c n : Nat) (pairs : List (Nat × Nat × R))
    (hb : ∀ e ∈ pairs, e.1 < n ∧ e.2.1 < n) (a : Nat) :
    ((List.range n).map (fun b =>
      SparseMatrix.coeff { rows := r, cols := c, entries := pairs.flatMap quad } a b)).sum
      = 0 := by
  induction pairs with
  | nil => simp [coeff_entries_nil]
  | cons e pairs ih =>
    have hrest := ih (fun x hx => hb x (List.mem_cons_of_mem _ hx))
    obtain ⟨hp, hq⟩ := hb e (List.mem_cons_self _ _)
    simp only [List.flatMap_cons, coeff_entries_append, coeff_quad]
    rw [List.sum_map_add, hrest, add_zero, sum_map_mul_sub, unitVec_range_sum,
      unitVec_range_sum, if_pos hp, if_pos hq, sub_self, mul_zero]

theorem symm_pairs [Field R] (r c : Nat) (pairs : List (Nat × Nat × R)) (a b : Nat) :
    SparseMatrix.coeff { rows := r, cols := c, entries := pairs.flatMap quad } a b =
      SparseMatrix.coeff { rows := r, cols := c, entries := pairs.flatMap quad } b a := by
  rw [coeff_pairs, coeff_pairs]
  congr 1
  apply List.map_congr_left
  intro e _
  ring

theorem foldlM_invariant {α β : Type} (f : β → α → Option β) (P : β → Prop) (S : α → Prop)
    (h : ∀ b x, P b → S x → ∃ b1, f b x = some b1 ∧ P b1) :
    ∀ (l : List α) (b : β), (∀ x ∈ l, S x) → P b → ∃ b1, l.foldlM f b = some b1 ∧ P b1 := by
  intro l
  induction l with
  | nil =>
    intro b _ hb
    exact ⟨b, rfl, hb⟩
  | cons x l ih =>
    intro b hS hb
    obtain ⟨b1, hb1, hP1⟩ := h b x hb (hS x (List.mem_cons_self _ _))
    obtain ⟨b2, hb2, hP2⟩ := ih b1 (fun y hy => hS y (List.mem_cons_of_mem _ hy)) hP1
    refine ⟨b2, ?_, hP2⟩
    rw [List.foldlM_cons, hb1]
    exact hb2

theorem nat_cell_bounds (w h i j : Nat) (hi : i < h) (hj : j < w) :
    i * w + j < h * w ∧ ∀ m : Nat, m < 3 → 3 * i * w + 3 * j + m < 3 * h * w := by
  have hle : (i + 1) * w ≤ h * w := Nat.mul_le_mul_right w hi
  rw [Nat.succ_mul] at hle
  refine ⟨by omega, ?_⟩
  intro m hm
  rw [Nat.mul_assoc 3 i w, Nat.mul_assoc 3 h w]
  omega

theorem quad_indices [Field R] (n : Nat) (pairs : List (Nat × Nat × R))
    (hb : ∀ e ∈ pairs, e.1 < n ∧ e.2.1 < n) :
    ∀ t ∈ pairs.flatMap quad, t.1 < n ∧ t.2.1 < n := by
  intro t ht
  obtain ⟨e, he, hte⟩ := List.mem_flatMap.mp ht
  obtain ⟨h1, h2⟩ := hb e he
  simp only [quad, List.mem_cons, List.mem_singleton, List.not_mem_nil, or_false] at hte
  rcases hte with h | h | h | h <;> rw [h] <;> simp [h1, h2]

theorem quad_all [Field R] (r c n : Nat) (hr : r = n) (hc : c = n)
    (pairs : List (Nat × Nat × R)) (hb : ∀ e ∈ pairs, e.1 < n ∧ e.2.1 < n) :
    (pairs.flatMap quad).all (fun e => decide (e.1 < r) && decide (e.2.1 < c)) = true := by
  rw [List.all_eq_true]
  intro t ht
  obtain ⟨h1, h2⟩ := quad_indices n pairs hb t ht
  simp [hr, hc, h1, h2]

theorem masked2x2_index_bound (k : Nat) (hk : Sample.masked2x2.mask[k]? = some true) :
    ∃ v, Sample.masked2x2.index[k]? = some v ∧ v < Sample.masked2x2.dims := by
  have hk4 : k < 4 := by
    by_contra hc
    rw [List.getElem?_eq_none (by simpa [Sample.masked2x2] using hc)] at hk
    cases hk
  interval_cases k
  · exact ⟨0, rfl, by decide⟩
  · exact absurd hk (by decide)
  · exact ⟨1, rfl, by decide⟩
  · exact ⟨2, rfl, by decide⟩

theorem toNat_lin (a b w : Nat) :
    ((a : Int) * (w : Int) + (b : Int)).toNat = a * w + b := by
  have e : ((a : Int) * (w : Int) + (b : Int)) = ((a * w + b : Nat) : Int) := by
    push_cast
    ring
  rw [e, Int.toNat_ofNat]

theorem toNat_lin3 (a b w m : Nat) :
    (3 * (a : Int) * (w : Int) + 3 * (b : Int) + (m : Int)).toNat = 3 * a * w + 3 * b + m := by
  have e : (3 * (a : Int) * (w : Int) + 3 * (b : Int) + (m : Int)) =
      ((3 * a * w + 3 * b + m : Nat) : Int) := by
    push_cast
    ring
  rw [e, Int.toNat_ofNat]

theorem neighbourOf_out (s : IntrinsicDecomposition R) (ij : Nat × Nat) (d : Int × Int)
    (hout : (ij.1 : Int) + d.1 < 0 ∨ (ij.2 : Int) + d.2 < 0 ∨
      (ij.1 : Int) + d.1 ≥ (s.height : Int) ∨ (ij.2 : Int) + d.2 ≥ (s.width : Int)) :
    neighbourOf s ij d = none := by
  unfold neighbourOf
  dsimp only
  rw [if_neg]
  intro hc
  omega

theorem neighbourOf_in (s : IntrinsicDecomposition R) (ij : Nat × Nat) (d : Int × Int)
    (a b : Nat) (ha : (ij.1 : Int) + d.1 = (a : Int)) (hb : (ij.2 : Int) + d.2 = (b : Int))
    (hah : a < s.height) (hbw : b < s.width) :
    neighbourOf s ij d =
      if s.mask[a * s.width + b]? = some true then some (a, b) else none := by
  unfold neighbourOf
  dsimp only
  rw [ha, hb, Int.toNat_ofNat, Int.toNat_ofNat]
  by_cases hm : s.mask[a * s.width + b]? = some true
  · rw [if_pos hm, if_pos]
    exact ⟨by omega, by omega, by omega, by omega, hm⟩
  · rw [if_neg hm, if_neg]
    intro hc
    exact hm hc.2.2.2.2

theorem validNeighbours_mask (s : IntrinsicDecomposition R) (p q : Nat × Nat)
    (hq : q ∈ validNeighbours s p) : s.mask[q.1 * s.width + q.2]? = some true := by
  obtain ⟨d, _, hd⟩ := List.mem_filterMap.mp hq
  unfold neighbourOf at hd
  dsimp only at hd
  split_ifs at hd with hc
  rw [← Option.some.inj hd]
  exact hc.2.2.2.2

theorem flatMap_toList_map {α β γ : Type} (f : α → Option β) (mk : β → γ)
    (g : γ → List γ) (l : List α) :
    l.flatMap (fun d => (((f d).toList).map mk).flatMap g) =
      ((l.filterMap f).map mk).flatMap g := by
  induction l with
  | nil => rfl
  | cons d l ih =>
    rw [List.flatMap_cons, ih]
    cases hf : f d <;> simp [List.filterMap_cons, hf]

theorem foldlM_append_spec {α γ : Type} (f : List γ → α → Option (List γ)) (g : α → List γ)
    (S : α → Prop) (h : ∀ tp x, S x → f tp x = some (tp ++ g x)) :
    ∀ (l : List α) (tp : List γ), (∀ x ∈ l, S x) →
      l.foldlM f tp = some (tp ++ l.flatMap g) := by
  intro l
  induction l with
  | nil =>
    intro tp _
    simp
  | cons x l ih =>
    intro tp hS
    rw [List.foldlM_cons, h tp x (hS x (List.mem_cons_self _ _))]
    simp only [Option.bind_eq_bind, Option.some_bind]
    rw [ih _ (fun y hy => hS y (List.mem_cons_of_mem _ hy)), List.flatMap_cons,
      List.append_assoc]

theorem foldlM_append_state {α γ σ : Type} (f : List γ × σ → α → Option (List γ × σ))
    (g : α → List γ) (P : σ → Prop) (S : α → Prop)
    (h : ∀ tp c x, P c → S x → ∃ c1, f (tp, c) x = some (tp ++ g x, c1) ∧ P c1) :
    ∀ (l : List α) (tp : List γ) (c : σ), (∀ x ∈ l, S x) → P c →
      ∃ c1, l.foldlM f (tp, c) = some (tp ++ l.flatMap g, c1) ∧ P c1 := by
  intro l
  induction l with
  | nil =>
    intro tp c _ hP
    exact ⟨c, by simp, hP⟩
  | cons x l ih =>
    intro tp c hS hP
    obtain ⟨c1, h1, hP1⟩ := h tp c x hP (hS x (List.mem_cons_self _ _))
    obtain ⟨c2, h2, hP2⟩ := ih (tp ++ g x) c1 (fun y hy => hS y (List.mem_cons_of_mem _ hy)) hP1
    refine ⟨c2, ?_, hP2⟩
    rw [List.foldlM_cons, h1]
    simp only [Option.bind_eq_bind, Option.some_bind]
    rw [h2, List.flatMap_cons, List.append_assoc]

theorem normalCell_exact [Field R] (lib : Libm R) (sig_n : R) (s : IntrinsicDecomposition R)
    (ij : Nat × Nat) (np : R × R × R)
    (hmask : s.height * s.width ≤ s.mask.length)
    (hnMap : 3 * s.height * s.width ≤ s.nMap.length)
    (hidx : ∀ k : Nat, s.mask[k]? = some true → ∃ v, s.index[k]? = some v ∧ v < s.dims)
    (hc : s.mask[ij.1 * s.width + ij.2]? = some true)
    (tp : List (Nat × Nat × R)) (d : Int × Int) :
    normalCell lib sig_n s ij.1 ij.2 np tp d =
      some (tp ++ (((neighbourOf s ij d).toList).map (fun q =>
        (indexAt s ij, indexAt s q,
          normalWeight lib sig_n np (tripleAt s.nMap s.width q)))).flatMap quad) := by
  unfold normalCell
  dsimp only
  split_ifs with hout
  · rw [neighbourOf_out s ij d hout]
    simp
  · obtain ⟨a, ha⟩ : ∃ a : Nat, (ij.1 : Int) + d.1 = (a : Int) :=
      ⟨((ij.1 : Int) + d.1).toNat, (Int.toNat_of_nonneg (by omega)).symm⟩
    obtain ⟨b, hb⟩ : ∃ b : Nat, (ij.2 : Int) + d.2 = (b : Int) :=
      ⟨((ij.2 : Int) + d.2).toNat, (Int.toNat_of_nonneg (by omega)).symm⟩
    have hah : a < s.height := by omega
    have hbw : b < s.width := by omega
    have e0 := toNat_lin3 a b s.width 0
    have e1 := toNat_lin3 a b s.width 1
    have e2 := toNat_lin3 a b s.width 2
    simp only [Nat.cast_zero, Nat.cast_one, Nat.cast_ofNat] at e0 e1 e2
    rw [neighbourOf_in s ij d a b ha hb hah hbw, ha, hb, toNat_lin, e0, e1, e2]
    obtain ⟨hb1, hb2⟩ := nat_cell_bounds s.width s.height a b hah hbw
    obtain ⟨mv, hmv⟩ : ∃ mv, s.mask[a * s.width + b]? = some mv :=
      ⟨_, List.getElem?_eq_getElem (lt_of_lt_of_le hb1 hmask)⟩
    rw [hmv]
    cases mv
    · simp
    · obtain ⟨q, hq, _⟩ := hidx _ hmv
      obtain ⟨p, hp, _⟩ := hidx _ hc
      have l0 : 3 * a * s.width + 3 * b + 0 < s.nMap.length :=
        lt_of_lt_of_le (hb2 0 (by omega)) hnMap
      have l1 : 3 * a * s.width + 3 * b + 1 < s.nMap.length :=
        lt_of_lt_of_le (hb2 1 (by omega)) hnMap
      have l2 : 3 * a * s.width + 3 * b + 2 < s.nMap.length :=
        lt_of_lt_of_le (hb2 2 (by omega)) hnMap
      have h0 := List.getElem?_eq_getElem l0
      have h1 := List.getElem?_eq_getElem l1
      have h2 := List.getElem?_eq_getElem l2
      have hIp : indexAt s ij = p := by
        unfold indexAt
        rw [hp]
        rfl
      have hIq : indexAt s (a, b) = q := by
        unfold indexAt
        rw [hq]
        rfl
      have hT : tripleAt s.nMap s.width (a, b) =
          (s.nMap[3 * a * s.width + 3 * b + 0], s.nMap[3 * a * s.width + 3 * b + 1],
            s.nMap[3 * a * s.width + 3 * b + 2]) := by
        unfold tripleAt
        rw [h0, h1, h2]
        rfl
      rw [h0, h1, h2, hp, hq, if_pos rfl]
      simp only [Option.toList, List.map_cons, List.map_nil, List.flatMap_cons,
        List.flatMap_nil, List.append_nil]
      rw [hIp, hIq, hT]
      rfl

theorem normalPixel_exact [Field R] (lib : Libm R) (sig_n : R) (s : IntrinsicDecomposition R)
    (hmask : s.height * s.width ≤ s.mask.length)
    (hnMap : 3 * s.height * s.width ≤ s.nMap.length)
    (hidx : ∀ k : Nat, s.mask[k]? = some true → ∃ v, s.index[k]? = some v ∧ v < s.dims)
    (tp : List (Nat × Nat × R)) (ij : Nat × Nat)
    (hin : ij.1 < s.height ∧ ij.2 < s.width) :
    normalPixel lib sig_n s tp ij =
      some (tp ++ (if s.mask[ij.1 * s.width + ij.2]? = some true then
          (validNeighbours s ij).map (fun q =>
            (indexAt s ij, indexAt s q,
              normalWeight lib sig_n (tripleAt s.nMap s.width ij) (tripleAt s.nMap s.width q)))
        else []).flatMap quad) := by
  obtain ⟨hb1, hb2⟩ := nat_cell_bounds s.width s.height ij.1 ij.2 hin.1 hin.2
  obtain ⟨mv, hmv⟩ : ∃ mv, s.mask[ij.1 * s.width + ij.2]? = some mv :=
    ⟨_, List.getElem?_eq_getElem (lt_of_lt_of_le hb1 hmask)⟩
  unfold normalPixel
  rw [hmv]
  cases mv
  · simp
  · have l0 : 3 * ij.1 * s.width + 3 * ij.2 + 0 < s.nMap.length :=
      lt_of_lt_of_le (hb2 0 (by omega)) hnMap
    have l1 : 3 * ij.1 * s.width + 3 * ij.2 + 1 < s.nMap.length :=
      lt_of_lt_of_le (hb2 1 (by omega)) hnMap
    have l2 : 3 * ij.1 * s.width + 3 * ij.2 + 2 < s.nMap.length :=
      lt_of_lt_of_le (hb2 2 (by omega)) hnMap
    have h0 := List.getElem?_eq_getElem l0
    have h1 := List.getElem?_eq_getElem l1
    have h2 := List.getElem?_eq_getElem l2
    have hT : tripleAt s.nMap s.width ij =
        (s.nMap[3 * ij.1 * s.width + 3 * ij.2 + 0], s.nMap[3 * ij.1 * s.width + 3 * ij.2 + 1],
          s.nMap[3 * ij.1 * s.width + 3 * ij.2 + 2]) := by
      unfold tripleAt
      rw [h0, h1, h2]
      rfl
    dsimp only
    rw [h0, h1, h2, if_pos rfl, hT]
    dsimp only
    rw [foldlM_append_spec _ _ (fun _ => True)
      (fun tp1 d _ => normalCell_exact lib sig_n s ij _ hmask hnMap hidx hmv tp1 d)
      constraintOffsets tp (fun _ _ => trivial)]
    rw [flatMap_toList_map]
    rfl

theorem validNeighbours_index [Field R] (s : IntrinsicDecomposition R)
    (hidx : ∀ k : Nat, s.mask[k]? = some true → ∃ v, s.index[k]? = some v ∧ v < s.dims)
    (p : Nat × Nat) (hp : s.mask[p.1 * s.width + p.2]? = some true) (w : Nat × Nat → R) :
    ∀ e ∈ (validNeighbours s p).map (fun q => (indexAt s p, indexAt s q, w q)),
      e.1 < s.dims ∧ e.2.1 < s.dims := by
  intro e he
  obtain ⟨q, hq, rfl⟩ := List.mem_map.mp he
  obtain ⟨v, hv, hvn⟩ := hidx _ hp
  obtain ⟨u, hu, hun⟩ := hidx _ (validNeighbours_mask s p q hq)
  constructor
  · show indexAt s p < s.dims
    unfold indexAt
    rw [hv]
    exact hvn
  · show indexAt s q < s.dims
    unfold indexAt
    rw [hu]
    exact hun

theorem normalPairs_index [Field R] (lib : Libm R) (sig_n : R) (s : IntrinsicDecomposition R)
    (hidx : ∀ k : Nat, s.mask[k]? = some true → ∃ v, s.index[k]? = some v ∧ v < s.dims) :
    ∀ e ∈ normalPairs lib sig_n s, e.1 < s.dims ∧ e.2.1 < s.dims := by
  intro e he
  obtain ⟨p, _, hp⟩ := List.mem_flatMap.mp he
  split_ifs at hp with hm
  · exact validNeighbours_index s hidx p hm _ e hp
  · cases hp

theorem continuousPairs_index [LinearOrderedField R] (lib : Libm R) (sig_c sig_i : R)
    (s : IntrinsicDecomposition R)
    (hidx : ∀ k : Nat, s.mask[k]? = some true → ∃ v, s.index[k]? = some v ∧ v < s.dims) :
    ∀ e ∈ continuousPairs lib sig_c sig_i s, e.1 < s.dims ∧ e.2.1 < s.dims := by
  intro e he
  obtain ⟨p, _, hp⟩ := List.mem_flatMap.mp he
  split_ifs at hp with hm
  · exact validNeighbours_index s hidx p hm _ e hp
  · cases hp

theorem getNormalConstraintMatrix_exact [Field R] (lib : Libm R) (sig_n : R)
    (s : IntrinsicDecomposition R)
    (hmap : ∀ p ∈ s.indexMapping, p.1 < s.height ∧ p.2 < s.width)
    (hmask : s.height * s.width ≤ s.mask.length)
    (hnMap : 3 * s.height * s.width ≤ s.nMap.length)
    (hidx : ∀ k : Nat, s.mask[k]? = some true → ∃ v, s.index[k]? = some v ∧ v < s.dims)
    (hWSC : s.WSC.rows = s.dims ∧ s.WSC.cols = s.dims) :
    getNormalConstraintMatrix lib sig_n s =
      some { s with WSC := s.WSC.setFromTriplets ((normalPairs lib sig_n s).flatMap quad) } := by
  have hfold := foldlM_append_spec (normalPixel lib sig_n s) _
    (fun ij => ij.1 < s.height ∧ ij.2 < s.width)
    (fun tp ij hin => normalPixel_exact lib sig_n s hmask hnMap hidx tp ij hin)
    s.indexMapping [] hmap
  rw [List.nil_append, ← List.flatMap_assoc] at hfold
  have hall := quad_all s.WSC.rows s.WSC.cols s.dims hWSC.1 hWSC.2 (normalPairs lib sig_n s)
    (normalPairs_index lib sig_n s hidx)
  unfold getNormalConstraintMatrix
  rw [show s.indexMapping.foldlM (normalPixel lib sig_n s) [] =
    some ((normalPairs lib sig_n s).flatMap quad) from hfold]
  dsimp only
  rw [if_pos hall]

theorem continuousCell_exact [LinearOrderedField R] (lib : Libm R) (sig_c sig_i : R)
    (s : IntrinsicDecomposition R) (ij : Nat × Nat) (cp ip : R × R × R)
    (hmask : s.height * s.width ≤ s.mask.length)
    (hchrom : 3 * s.height * s.width ≤ s.chrom.length)
    (hcolor : 3 * s.height * s.width ≤ s.color.length)
    (hidx : ∀ k : Nat, s.mask[k]? = some true → ∃ v, s.index[k]? = some v ∧ v < s.dims)
    (hc : s.mask[ij.1 * s.width + ij.2]? = some true)
    (tp : List (Nat × Nat × R)) (cv : List R) (d : Int × Int) (hcv : cv.length = s.dims)
    (_ : True) :
    ∃ cv1, continuousCell lib sig_c sig_i s ij.1 ij.2 cp (logIntensity lib ip) (tp, cv) d =
        some (tp ++ (((neighbourOf s ij d).toList).map (fun q =>
          (indexAt s ij, indexAt s q,
            continuousWeight lib sig_c sig_i cp (tripleAt s.chrom s.width q) ip
              (tripleAt s.color s.width q)))).flatMap quad, cv1) ∧
      cv1.length = s.dims := by
  unfold continuousCell
  dsimp only
  split_ifs with hout
  · rw [neighbourOf_out s ij d hout]
    exact ⟨cv, by simp, hcv⟩
  · obtain ⟨a, ha⟩ : ∃ a : Nat, (ij.1 : Int) + d.1 = (a : Int) :=
      ⟨((ij.1 : Int) + d.1).toNat, (Int.toNat_of_nonneg (by omega)).symm⟩
    obtain ⟨b, hb⟩ : ∃ b : Nat, (ij.2 : Int) + d.2 = (b : Int) :=
      ⟨((ij.2 : Int) + d.2).toNat, (Int.toNat_of_nonneg (by omega)).symm⟩
    have hah : a < s.height := by omega
    have hbw : b < s.width := by omega
    have e0 := toNat_lin3 a b s.width 0
    have e1 := toNat_lin3 a b s.width 1
    have e2 := toNat_lin3 a b s.width 2
    simp only [Nat.cast_zero, Nat.cast_one, Nat.cast_ofNat] at e0 e1 e2
    rw [neighbourOf_in s ij d a b ha hb hah hbw, ha, hb, toNat_lin, e0, e1, e2]
    obtain ⟨hb1, hb2⟩ := nat_cell_bounds s.width s.height a b hah hbw
    obtain ⟨mv, hmv⟩ : ∃ mv, s.mask[a * s.width + b]? = some mv :=
      ⟨_, List.getElem?_eq_getElem (lt_of_lt_of_le hb1 hmask)⟩
    rw [hmv]
    cases mv
    · exact ⟨cv, by simp, hcv⟩
    · obtain ⟨q, hq, hqn⟩ := hidx _ hmv
      obtain ⟨p, hp, hpn⟩ := hidx _ hc
      have l0 : 3 * a * s.width + 3 * b + 0 < s.chrom.length :=
        lt_of_lt_of_le (hb2 0 (by omega)) hchrom
      have l1 : 3 * a * s.width + 3 * b + 1 < s.chrom.length :=
        lt_of_lt_of_le (hb2 1 (by omega)) hchrom
      have l2 : 3 * a * s.width + 3 * b + 2 < s.chrom.length :=
        lt_of_lt_of_le (hb2 2 (by omega)) hchrom
      have m0 : 3 * a * s.width + 3 * b + 0 < s.color.length :=
        lt_of_lt_of_le (hb2 0 (by omega)) hcolor
      have m1 : 3 * a * s.width + 3 * b + 1 < s.color.length :=
        lt_of_lt_of_le (hb2 1 (by omega)) hcolor
      have m2 : 3 * a * s.width + 3 * b + 2 < s.color.length :=
        lt_of_lt_of_le (hb2 2 (by omega)) hcolor
      have h0 := List.getElem?_eq_getElem l0
      have h1 := List.getElem?_eq_getElem l1
      have h2 := List.getElem?_eq_getElem l2
      have g0 := List.getElem?_eq_getElem m0
      have g1 := List.getElem?_eq_getElem m1
      have g2 := List.getElem?_eq_getElem m2
      have hIp : indexAt s ij = p := by
        unfold indexAt
        rw [hp]
        rfl
      have hIq : indexAt s (a, b) = q := by
        unfold indexAt
        rw [hq]
        rfl
      have hTc : tripleAt s.chrom s.width (a, b) =
          (s.chrom[3 * a * s.width + 3 * b + 0], s.chrom[3 * a * s.width + 3 * b + 1],
            s.chrom[3 * a * s.width + 3 * b + 2]) := by
        unfold tripleAt
        rw [h0, h1, h2]
        rfl
      have hTi : tripleAt s.color s.width (a, b) =
          (s.color[3 * a * s.width + 3 * b + 0], s.color[3 * a * s.width + 3 * b + 1],
            s.color[3 * a * s.width + 3 * b + 2]) := by
        unfold tripleAt
        rw [g0, g1, g2]
        rfl
      have hpl : p < cv.length := by
        rw [hcv]
        exact hpn
      have hql : ∀ x : R, q < (cv.set p x).length := by
        intro x
        rw [List.length_set, hcv]
        exact hqn
      rw [h0, h1, h2, g0, g1, g2, hp, hq, if_pos rfl]
      dsimp only
      rw [List.getElem?_eq_getElem hpl]
      dsimp only
      rw [List.getElem?_eq_getElem (hql _)]
      simp only [Option.toList, List.map_cons, List.map_nil, List.flatMap_cons,
        List.flatMap_nil, List.append_nil]
      rw [hIp, hIq, hTc, hTi]
      exact ⟨_, rfl, by simp [hcv]⟩

theorem continuousPixel_exact [LinearOrderedField R] (lib : Libm R) (sig_c sig_i : R)
    (s : IntrinsicDecomposition R)
    (hmask : s.height * s.width ≤ s.mask.length)
    (hchrom : 3 * s.height * s.width ≤ s.chrom.length)
    (hcolor : 3 * s.height * s.width ≤ s.color.length)
    (hidx : ∀ k : Nat, s.mask[k]? = some true → ∃ v, s.index[k]? = some v ∧ v < s.dims)
    (tp : List (Nat × Nat × R)) (cv : List R) (ij : Nat × Nat) (hcv : cv.length = s.dims)
    (hin : ij.1 < s.height ∧ ij.2 < s.width) :
    ∃ cv1, continuousPixel lib sig_c sig_i s (tp, cv) ij =
        some (tp ++ (if s.mask[ij.1 * s.width + ij.2]? = some true then
            (validNeighbours s ij).map (fun q =>
              (indexAt s ij, indexAt s q,
                continuousWeight lib sig_c sig_i (tripleAt s.chrom s.width ij)
                  (tripleAt s.chrom s.width q) (tripleAt s.color s.width ij)
                  (tripleAt s.color s.width q)))
          else []).flatMap quad, cv1) ∧
      cv1.length = s.dims := by
  obtain ⟨hb1, hb2⟩ := nat_cell_bounds s.width s.height ij.1 ij.2 hin.1 hin.2
  obtain ⟨mv, hmv⟩ : ∃ mv, s.mask[ij.1 * s.width + ij.2]? = some mv :=
    ⟨_, List.getElem?_eq_getElem (lt_of_lt_of_le hb1 hmask)⟩
  unfold continuousPixel
  rw [hmv]
  cases mv
  · exact ⟨cv, by simp, hcv⟩
  · have l0 : 3 * ij.1 * s.width + 3 * ij.2 + 0 < s.chrom.length :=
      lt_of_lt_of_le (hb2 0 (by omega)) hchrom
    have l1 : 3 * ij.1 * s.width + 3 * ij.2 + 1 < s.chrom.length :=
      lt_of_lt_of_le (hb2 1 (by omega)) hchrom
    have l2 : 3 * ij.1 * s.width + 3 * ij.2 + 2 < s.chrom.length :=
      lt_of_lt_of_le (hb2 2 (by omega)) hchrom
    have m0 : 3 * ij.1 * s.width + 3 * ij.2 + 0 < s.color.length :=
      lt_of_lt_of_le (hb2 0 (by omega)) hcolor
    have m1 : 3 * ij.1 * s.width + 3 * ij.2 + 1 < s.color.length :=
      lt_of_lt_of_le (hb2 1 (by omega)) hcolor
    have m2 : 3 * ij.1 * s.width + 3 * ij.2 + 2 < s.color.length :=
      lt_of_lt_of_le (hb2 2 (by omega)) hcolor
    have h0 := List.getElem?_eq_getElem l0
    have h1 := List.getElem?_eq_getElem l1
    have h2 := List.getElem?_eq_getElem l2
    have g0 := List.getElem?_eq_getElem m0
    have g1 := List.getElem?_eq_getElem m1
    have g2 := List.getElem?_eq_getElem m2
    have hTc : tripleAt s.chrom s.width ij =
        (s.chrom[3 * ij.1 * s.width + 3 * ij.2 + 0],
          s.chrom[3 * ij.1 * s.width + 3 * ij.2 + 1],
          s.chrom[3 * ij.1 * s.width + 3 * ij.2 + 2]) := by
      unfold tripleAt
      rw [h0, h1, h2]
      rfl
    have hTi : tripleAt s.color s.width ij =
        (s.color[3 * ij.1 * s.width + 3 * ij.2 + 0],
          s.color[3 * ij.1 * s.width + 3 * ij.2 + 1],
          s.color[3 * ij.1 * s.width + 3 * ij.2 + 2]) := by
      unfold tripleAt
      rw [g0, g1, g2]
      rfl
    dsimp only
    rw [h0, h1, h2, g0, g1, g2, if_pos rfl, hTc, hTi]
    dsimp only
    obtain ⟨cv1, hfold, hlen⟩ := foldlM_append_state _ _ (fun c : List R => c.length = s.dims)
      (fun _ => True)
      (fun tp1 c d hP hS => continuousCell_exact lib sig_c sig_i s ij _ _ hmask hchrom hcolor
        hidx hmv tp1 c d hP hS)
      constraintOffsets tp cv (fun _ _ => trivial) hcv
    rw [flatMap_toList_map] at hfold
    exact ⟨cv1, hfold, hlen⟩

theorem getContinuousConstraintMatrix_exact [LinearOrderedField R] (lib : Libm R)
    (sig_c sig_i : R) (s : IntrinsicDecomposition R)
    (hmap : ∀ p ∈ s.indexMapping, p.1 < s.height ∧ p.2 < s.width)
    (hmask : s.height * s.width ≤ s.mask.length)
    (hchrom : 3 * s.height * s.width ≤ s.chrom.length)
    (hcolor : 3 * s.height * s.width ≤ s.color.length)
    (hidx : ∀ k : Nat, s.mask[k]? = some true → ∃ v, s.index[k]? = some v ∧ v < s.dims)
    (hWRC : s.WRC.rows = s.dims ∧ s.WRC.cols = s.dims)
    (hcv : s.consVecCont.length = s.dims) :
    ∃ cv, getContinuousConstraintMatrix lib sig_c sig_i s =
        some { s with
          WRC := s.WRC.setFromTriplets ((continuousPairs lib sig_c sig_i s).flatMap quad),
          consVecCont := cv } ∧
      cv.length = s.dims := by
  obtain ⟨cv, hfold, hlen⟩ := foldlM_append_state (continuousPixel lib sig_c sig_i s) _
    (fun c : List R => c.length = s.dims) (fun ij => ij.1 < s.height ∧ ij.2 < s.width)
    (fun tp c ij hP hin =>
      continuousPixel_exact lib sig_c sig_i s hmask hchrom hcolor hidx tp c ij hP hin)
    s.indexMapping [] s.consVecCont hmap hcv
  rw [List.nil_append, ← List.flatMap_assoc] at hfold
  have hall := quad_all s.WRC.rows s.WRC.cols s.dims hWRC.1 hWRC.2
    (continuousPairs lib sig_c sig_i s) (continuousPairs_index lib sig_c sig_i s hidx)
  refine ⟨cv, ?_, hlen⟩
  unfold getContinuousConstraintMatrix
  rw [show s.indexMapping.foldlM (continuousPixel lib sig_c sig_i s) ([], s.consVecCont) =
    some ((continuousPairs lib sig_c sig_i s).flatMap quad, cv) from hfold]
  dsimp only
  rw [if_pos hall]

theorem mem_validNeighbours (s : IntrinsicDecomposition R) (p q : Nat × Nat) :
    q ∈ validNeighbours s p ↔
      q.1 < s.height ∧ q.2 < s.width ∧ s.mask[q.1 * s.width + q.2]? = some true ∧ q ≠ p ∧
        q.1 ≤ p.1 + 1 ∧ p.1 ≤ q.1 + 1 ∧ q.2 ≤ p.2 + 1 ∧ p.2 ≤ q.2 + 1 := by
  constructor
  · intro hq
    have hm := validNeighbours_mask s p q hq
    obtain ⟨d, hd, hn⟩ := List.mem_filterMap.mp hq
    unfold neighbourOf at hn
    dsimp only at hn
    split_ifs at hn with hc
    obtain ⟨h1, h2, h3, h4, _⟩ := hc
    have hq1 : ((q.1 : Nat) : Int) = (p.1 : Int) + d.1 := by
      rw [← Option.some.inj hn]
      exact Int.toNat_of_nonneg h1
    have hq2 : ((q.2 : Nat) : Int) = (p.2 : Int) + d.2 := by
      rw [← Option.some.inj hn]
      exact Int.toNat_of_nonneg h2
    have hne : q ≠ p := by
      intro heq
      rw [heq] at hq1 hq2
      simp only [constraintOffsets, List.mem_cons, List.mem_singleton, List.not_mem_nil,
        or_false] at hd
      rcases hd with h | h | h | h | h | h | h | h <;> rw [h] at hq1 hq2 <;>
        simp only at hq1 hq2 <;> omega
    simp only [constraintOffsets, List.mem_cons, List.mem_singleton, List.not_mem_nil,
      or_false] at hd
    refine ⟨by omega, by omega, hm, hne, ?_, ?_, ?_, ?_⟩ <;>
      rcases hd with h | h | h | h | h | h | h | h <;> rw [h] at hq1 hq2 <;>
      simp only at hq1 hq2 <;> omega
  · rintro ⟨h1, h2, hm, hne, h5, h6, h7, h8⟩
    refine List.mem_filterMap.mpr ⟨((q.1 : Int) - (p.1 : Int), (q.2 : Int) - (p.2 : Int)), ?_, ?_⟩
    · have hne2 : q.1 ≠ p.1 ∨ q.2 ≠ p.2 := by
        by_contra hcon
        push_neg at hcon
        exact hne (Prod.ext hcon.1 hcon.2)
      simp only [constraintOffsets, List.mem_cons, List.mem_singleton, List.not_mem_nil,
        or_false, Prod.mk.injEq]
      omega
    · rw [neighbourOf_in s p _ q.1 q.2 (by simp) (by simp) h1 h2, if_pos hm]

/-- C24: on a decomposition as the constructor leaves it (every pixel of indexMapping inside
the image, arrays of width * height cells, every valid pixel with an index below dims, WSC and
WRC of size dims by dims, consVecCont of length dims), for arbitrary exp, log, sqrt and isnan,
getNormalConstraintMatrix and getContinuousConstraintMatrix return, and the triplets they
store in WSC, resp. WRC, are exactly the four triplets (p, p, w), (q, q, w), (p, q, -w),
(q, p, -w) of every pair in `normalPairs`, resp. `continuousPairs`: p a valid pixel of
indexMapping, q a valid pixel among its 8 neighbours, w their weight. Hence every coefficient
(a, b) is the sum over these pairs of w * (e_p - e_q)_a * (e_p - e_q)_b, the matrix is
symmetric, and every row sums to zero. -/
theorem constraint_matrices_symmetric_zero_rows [LinearOrderedField R] (lib : Libm R)
    (sig_n sig_c sig_i : R) (s : IntrinsicDecomposition R)
    (hmap : ∀ p ∈ s.indexMapping, p.1 < s.height ∧ p.2 < s.width)
    (hmask : s.height * s.width ≤ s.mask.length)
    (hnMap : 3 * s.height * s.width ≤ s.nMap.length)
    (hchrom : 3 * s.height * s.width ≤ s.chrom.length)
    (hcolor : 3 * s.height * s.width ≤ s.color.length)
    (hidx : ∀ k : Nat, s.mask[k]? = some true → ∃ v, s.index[k]? = some v ∧ v < s.dims)
    (hWSC : s.WSC.rows = s.dims ∧ s.WSC.cols = s.dims)
    (hWRC : s.WRC.rows = s.dims ∧ s.WRC.cols = s.dims)
    (hcv : s.consVecCont.length = s.dims) :
    (∃ s1, getNormalConstraintMatrix lib sig_n s = some s1 ∧
      s1 = { s with WSC := s.WSC.setFromTriplets ((normalPairs lib sig_n s).flatMap quad) } ∧
      (∀ a b, s1.WSC.coeff a b =
        ((normalPairs lib sig_n s).map (fun e => e.2.2 * (unitVec e.1 a - unitVec e.2.1 a)
          * (unitVec e.1 b - unitVec e.2.1 b))).sum) ∧
      (∀ a b, s1.WSC.coeff a b = s1.WSC.coeff b a) ∧
      (∀ a, ((List.range s1.WSC.cols).map (fun b => s1.WSC.coeff a b)).sum = 0)) ∧
    (∃ s1 cv, getContinuousConstraintMatrix lib sig_c sig_i s = some s1 ∧
      s1 = { s with
        WRC := s.WRC.setFromTriplets ((continuousPairs lib sig_c sig_i s).flatMap quad),
        consVecCont := cv } ∧
      (∀ a b, s1.WRC.coeff a b =
        ((continuousPairs lib sig_c sig_i s).map (fun e =>
          e.2.2 * (unitVec e.1 a - unitVec e.2.1 a)
            * (unitVec e.1 b - unitVec e.2.1 b))).sum) ∧
      (∀ a b, s1.WRC.coeff a b = s1.WRC.coeff b a) ∧
      (∀ a, ((List.range s1.WRC.cols).map (fun b => s1.WRC.coeff a b)).sum = 0)) ∧
    (∀ p q : Nat × Nat, q ∈ validNeighbours s p ↔
      q.1 < s.height ∧ q.2 < s.width ∧ s.mask[q.1 * s.width + q.2]? = some true ∧ q ≠ p ∧
        q.1 ≤ p.1 + 1 ∧ p.1 ≤ q.1 + 1 ∧ q.2 ≤ p.2 + 1 ∧ p.2 ≤ q.2 + 1) := by
  refine ⟨?_, ?_, mem_validNeighbours s⟩
  · refine ⟨_, getNormalConstraintMatrix_exact lib sig_n s hmap hmask hnMap hidx hWSC, rfl,
      ?_, ?_, ?_⟩
    · intro a b
      exact coeff_pairs s.WSC.rows s.WSC.cols (normalPairs lib sig_n s) a b
    · intro a b
      exact symm_pairs s.WSC.rows s.WSC.cols (normalPairs lib sig_n s) a b
    · intro a
      show ((List.range s.WSC.cols).map _).sum = 0
      rw [hWSC.2]
      exact rowsum_pairs s.WSC.rows s.WSC.cols s.dims (normalPairs lib sig_n s)
        (normalPairs_index lib sig_n s hidx) a
  · obtain ⟨cv, hrun, _⟩ := getContinuousConstraintMatrix_exact lib sig_c sig_i s hmap hmask
      hchrom hcolor hidx hWRC hcv
    refine ⟨_, cv, hrun, rfl, ?_, ?_, ?_⟩
    · intro a b
      exact coeff_pairs s.WRC.rows s.WRC.cols (continuousPairs lib sig_c sig_i s) a b
    · intro a b
      exact symm_pairs s.WRC.rows s.WRC.cols (continuousPairs lib sig_c sig_i s) a b
    · intro a
      show ((List.range s.WRC.cols).map _).sum = 0
      rw [hWRC.2]
      exact rowsum_pairs s.WRC.rows s.WRC.cols s.dims (continuousPairs lib sig_c sig_i s)
        (continuousPairs_index lib sig_c sig_i s hidx) a

/-- The two constraint matrices of C24 on the masked 2 by 2 image, with the sigma values that
`process` passes: the three valid pixels are neighbours of one another, which gives six
pairs. -/
theorem constraint_matrices_symmetric_zero_rows_witness :
    (normalPairs Sample.libm (1 / 2) Sample.masked2x2).map (fun e => (e.1, e.2.1)) =
      [(0, 1), (0, 2), (1, 2), (1, 0), (2, 1), (2, 0)] ∧
    (∃ s1, getNormalConstraintMatrix Sample.libm (1 / 2) Sample.masked2x2 = some s1 ∧
      s1 = { Sample.masked2x2 with
        WSC := Sample.masked2x2.WSC.setFromTriplets
          ((normalPairs Sample.libm (1 / 2) Sample.masked2x2).flatMap quad) } ∧
      (∀ a b, s1.WSC.coeff a b =
        ((normalPairs Sample.libm (1 / 2) Sample.masked2x2).map (fun e =>
          e.2.2 * (unitVec e.1 a - unitVec e.2.1 a)
            * (unitVec e.1 b - unitVec e.2.1 b))).sum) ∧
      (∀ a b, s1.WSC.coeff a b = s1.WSC.coeff b a) ∧
      (∀ a, ((List.range s1.WSC.cols).map (fun b => s1.WSC.coeff a b)).sum = 0)) ∧
    (∃ s1 cv, getContinuousConstraintMatrix Sample.libm (1 / 10000) (4 / 5) Sample.masked2x2
        = some s1 ∧
      s1 = { Sample.masked2x2 with
        WRC := Sample.masked2x2.WRC.setFromTriplets
          ((continuousPairs Sample.libm (1 / 10000) (4 / 5) Sample.masked2x2).flatMap quad),
        consVecCont := cv } ∧
      (∀ a b, s1.WRC.coeff a b =
        ((continuousPairs Sample.libm (1 / 10000) (4 / 5) Sample.masked2x2).map (fun e =>
          e.2.2 * (unitVec e.1 a - unitVec e.2.1 a)
            * (unitVec e.1 b - unitVec e.2.1 b))).sum) ∧
      (∀ a b, s1.WRC.coeff a b = s1.WRC.coeff b a) ∧
      (∀ a, ((List.range s1.WRC.cols).map (fun b => s1.WRC.coeff a b)).sum = 0)) :=
  have key := constraint_matrices_symmetric_zero_rows Sample.libm (1 / 2) (1 / 10000) (4 / 5)
    Sample.masked2x2 (by decide) (by decide) (by decide) (by decide) (by decide)
    masked2x2_index_bound ⟨rfl, rfl⟩ ⟨rfl, rfl⟩ rfl
  ⟨by decide, key.1, key.2.1⟩

theorem varianceStep_spec [Field R] (p_size : Int) (s0 s : IntrinsicDecomposition R)
    (p : Nat × Nat)
    (hmask : s0.height * s0.width ≤ s0.mask.length)
    (hnMap : 3 * s0.height * s0.width ≤ s0.nMap.length)
    (hvMap : s0.height * s0.width ≤ s0.vMap.length)
    (hP : s.mask = s0.mask ∧ s.nMap = s0.nMap ∧ s.width = s0.width ∧ s.height = s0.height ∧
      s.vMap.length = s0.vMap.length)
    (hin : p.1 < s0.height ∧ p.2 < s0.width) :
    ∃ s1, varianceStep p_size s p = some s1 ∧
      s1.mask = s0.mask ∧ s1.nMap = s0.nMap ∧ s1.width = s0.width ∧ s1.height = s0.height ∧
      s1.vMap.length = s0.vMap.length := by
  obtain ⟨hm, hn, hw, hh, hv⟩ := hP
  obtain ⟨hb1, _⟩ := nat_cell_bounds s0.width s0.height p.1 p.2 hin.1 hin.2
  obtain ⟨mv, hmv⟩ : ∃ mv, s.mask[p.1 * s.width + p.2]? = some mv := by
    rw [hm, hw]
    exact ⟨_, List.getElem?_eq_getElem (lt_of_lt_of_le hb1 hmask)⟩
  unfold varianceStep
  rw [hmv]
  cases mv
  · exact ⟨s, rfl, hm, hn, hw, hh, hv⟩
  · obtain ⟨a, ha, _⟩ :=
      foldlM_invariant (varianceCell s p.1 p.2) (fun _ => True) (fun _ => True)
        (fun acc kl _ _ => by
          obtain ⟨a1, ha1, _⟩ := varianceCell_total s p.1 p.2
            (by rw [hm, hw, hh]; exact hmask) (by rw [hn, hw, hh]; exact hnMap) acc kl
          exact ⟨a1, ha1, trivial⟩)
        ((windowRange p_size).flatMap (fun k => (windowRange p_size).map (fun l => (k, l))))
        { cnt := 0, p0 := 0, p1 := 0, p2 := 0, pp := 0 } (fun _ _ => trivial) trivial
    have hlt : s.width * p.1 + p.2 < s.vMap.length := by
      rw [hv, hw, Nat.mul_comm s0.width p.1]
      exact lt_of_lt_of_le hb1 hvMap
    dsimp only
    rw [show varianceWindow s p_size p.1 p.2 = some a from ha]
    dsimp only
    rw [if_pos hlt]
    exact ⟨_, rfl, hm, hn, hw, hh, by simp [hv]⟩

theorem getVarianceMap_returns [Field R] (s : IntrinsicDecomposition R) (patch_size : Int)
    (hmask : s.height * s.width ≤ s.mask.length)
    (hnMap : 3 * s.height * s.width ≤ s.nMap.length)
    (hvMap : s.height * s.width ≤ s.vMap.length) :
    ∃ s1, getVarianceMap s patch_size = some s1 ∧
      s1.mask = s.mask ∧ s1.nMap = s.nMap ∧ s1.width = s.width ∧ s1.height = s.height ∧
      s1.vMap.length = s.vMap.length :=
  foldlM_invariant (varianceStep (Int.tdiv patch_size 2))
    (fun s1 => s1.mask = s.mask ∧ s1.nMap = s.nMap ∧ s1.width = s.width ∧
      s1.height = s.height ∧ s1.vMap.length = s.vMap.length)
    (fun p => p.1 < s.height ∧ p.2 < s.width)
    (fun s1 p hP hin =>
      varianceStep_spec (Int.tdiv patch_size 2) s s1 p hmask hnMap hvMap hP hin)
    (pixels s.width s.height) s (fun p hp => (mem_pixels _ _ p).mp hp)
    ⟨rfl, rfl, rfl, rfl, rfl⟩

end IntrinsicDecomposition

end Telef
